import Mathlib

/-!
# chaind: checkpoint metadata and ETH1 chain identity

A shallow embedding of

* `services/blocks/standard/metadata.go` (`Metadata`, `MetadataKey`, `GetMetadata`,
  `SetMetadata`) and
* `services/eth1deposits/getlogs/chainid.go` (`chainIDResponse`, `chainID`),

together with the parts of the Go standard library these functions call
(`strconv.ParseUint`, `strconv.ParseInt`, `strconv.FormatInt`, `strings.TrimPrefix`,
and `encoding/json` scanning, unquoting and struct decoding).

Go byte strings are lists of natural numbers (each below 256); unsigned 64-bit
arithmetic is arithmetic on `Nat` reduced modulo `2 ^ 64` where it can wrap.
-/

namespace Chaind

/-- A Go `[]byte` / `string`: a sequence of byte values. -/
abbrev Bytes := List Nat

/-- The bytes of an ASCII text. -/
def ascii (s : String) : Bytes := s.toList.map Char.toNat

/-! ## strconv -/

/-- The `Err` field of a `*strconv.NumError`. -/
inductive NumErr where
  | ErrSyntax
  | ErrRange
  | ErrBase
  | ErrBitSize
  deriving DecidableEq, Repr

/-- Go `lower(c)`: `c | ('x' - 'X')`, computed on a byte. -/
def lower (c : Nat) : Nat := if (c / 32) % 2 = 1 then c else c + 32

/-- The loop of `strconv.ParseUint` over the bytes of `s`, carrying `n`.
`cutoff` is `maxUint64 / base + 1`, `maxVal` is `2 ^ bitSize - 1`; the result is
the pair `(value, err)` the Go function returns. -/
def parseUintLoop (base cutoff maxVal : Nat) : Nat → Bytes → Nat × Option NumErr
  | n, [] => (n, none)
  | n, c :: cs =>
    if 48 ≤ c ∧ c ≤ 57 then
      let d := c - 48
      if d ≥ base then (0, some .ErrSyntax)
      else if n ≥ cutoff then (maxVal, some .ErrRange)
      else
        let n0 := (n * base) % 2 ^ 64
        let n1 := (n0 + d) % 2 ^ 64
        if n1 < n0 ∨ n1 > maxVal then (maxVal, some .ErrRange)
        else parseUintLoop base cutoff maxVal n1 cs
    else if 97 ≤ lower c ∧ lower c ≤ 122 then
      let d := lower c - 97 + 10
      if d ≥ base then (0, some .ErrSyntax)
      else if n ≥ cutoff then (maxVal, some .ErrRange)
      else
        let n0 := (n * base) % 2 ^ 64
        let n1 := (n0 + d) % 2 ^ 64
        if n1 < n0 ∨ n1 > maxVal then (maxVal, some .ErrRange)
        else parseUintLoop base cutoff maxVal n1 cs
    else (0, some .ErrSyntax)

/-- Go `strconv.ParseUint(s, base, bitSize)` for an explicit base (`2 ≤ base ≤ 36`,
so no base prefix and no underscores are accepted) and `1 ≤ bitSize ≤ 64`. -/
def ParseUint (s : Bytes) (base bitSize : Nat) : Nat × Option NumErr :=
  if s = [] then (0, some .ErrSyntax)
  else if ¬ (2 ≤ base ∧ base ≤ 36) then (0, some .ErrBase)
  else if bitSize = 0 ∨ bitSize > 64 then (0, some .ErrBitSize)
  else parseUintLoop base ((2 ^ 64 - 1) / base + 1) (2 ^ bitSize - 1) 0 s

/-- Go `strconv.ParseInt(s, base, bitSize)` for an explicit base and
`1 ≤ bitSize ≤ 64`: an optional sign, then `ParseUint`, then the signed range check. -/
def ParseInt (s : Bytes) (base bitSize : Nat) : Int × Option NumErr :=
  match s with
  | [] => (0, some .ErrSyntax)
  | c :: rest =>
    let neg := c = 45
    let body := if c = 43 ∨ c = 45 then rest else s
    let r := ParseUint body base bitSize
    match r.2 with
    | some .ErrRange =>
      let cutoff := 2 ^ (bitSize - 1)
      if ¬ neg ∧ r.1 ≥ cutoff then ((cutoff : Int) - 1, some .ErrRange)
      else if neg ∧ r.1 > cutoff then (-(cutoff : Int), some .ErrRange)
      else (if neg then -(r.1 : Int) else (r.1 : Int), none)
    | some e => (0, some e)
    | none =>
      let cutoff := 2 ^ (bitSize - 1)
      if ¬ neg ∧ r.1 ≥ cutoff then ((cutoff : Int) - 1, some .ErrRange)
      else if neg ∧ r.1 > cutoff then (-(cutoff : Int), some .ErrRange)
      else (if neg then -(r.1 : Int) else (r.1 : Int), none)

/-- Decimal digits of `u`, most significant first, in front of `acc`
(the digit loop of `strconv.formatBits` for base 10). -/
def formatBits : Nat → Nat → Bytes → Bytes
  | 0, _, acc => acc
  | fuel + 1, u, acc =>
    if u < 10 then (48 + u) :: acc
    else formatBits fuel (u / 10) ((48 + u % 10) :: acc)

/-- Go `strconv.FormatUint(u, 10)`. -/
def FormatUint (u : Nat) : Bytes := formatBits (u + 1) u []

/-- Go `strconv.FormatInt(i, 10)`: a minus sign for negative values, then the
digits of the magnitude. -/
def FormatInt (i : Int) : Bytes :=
  if i < 0 then 45 :: FormatUint i.natAbs else FormatUint i.natAbs

/-! ## strings -/

/-- Go `strings.TrimPrefix(s, pre)`. -/
def TrimPrefix (s pre : Bytes) : Bytes :=
  if pre.isPrefixOf s then s.drop pre.length else s

/-! ## encoding/json: the scanner (`scanner.go`)

The scanner is Go's byte-at-a-time state machine. Next to Go's own fields
(`step`, `parseState`, `err`, `endTop`) the embedding records what the decoder
later reads back from the same bytes: the text of the literal being scanned
(`lit`) and the value that has just been completed (`done`); each entry of
`parseState` carries the members or elements collected so far. -/

/-- A JSON value as the decoder sees it: string and key literals keep the raw
bytes between their quotes, numbers keep their text. -/
inductive JValue where
  | null
  | bool (b : Bool)
  | number (lit : Bytes)
  | string (raw : Bytes)
  | array (elems : List JValue)
  | object (members : List (Bytes × JValue))

/-- The values a scanner step returns (`scanContinue` ... `scanError`). -/
inductive Code where
  | scanContinue | scanBeginLiteral | scanBeginObject | scanObjectKey | scanObjectValue
  | scanEndObject | scanBeginArray | scanArrayValue | scanEndArray | scanSkipSpace
  | scanEnd | scanError
  deriving DecidableEq, Repr

/-- An entry of `parseState`: `parseObjectKey`, `parseObjectValue`, `parseArrayValue`. -/
inductive Frame where
  | parseObjectKey (members : List (Bytes × JValue))
  | parseObjectValue (members : List (Bytes × JValue)) (key : Bytes)
  | parseArrayValue (elems : List JValue)

/-- The step functions of the scanner, as a tag. -/
inductive Step where
  | BeginValueOrEmpty | BeginValue | BeginStringOrEmpty | BeginString | EndValue | EndTop
  | InString | InStringEsc | InStringEscU | InStringEscU1 | InStringEscU12 | InStringEscU123
  | Neg | S1 | S0 | Dot | Dot0 | E | ESign | E0
  | T | Tr | Tru | F | Fa | Fal | Fals | N | Nu | Nul
  | Error
  deriving DecidableEq, Repr

/-- Go `maxNestingDepth`. -/
def maxNestingDepth : Nat := 10000

/-- The scanner state. `parseState` has its top at the head of the list. -/
structure Scanner where
  step : Step
  parseState : List Frame
  err : Bool
  endTop : Bool
  lit : Bytes
  done : Option JValue

/-- Go `scanner.reset`. -/
def Scanner.reset : Scanner :=
  { step := .BeginValue, parseState := [], err := false, endTop := false, lit := [], done := none }

/-- Go `scanner.error`: records the error and returns `scanError`. -/
def Scanner.error (s : Scanner) : Code × Scanner :=
  (.scanError, { s with step := .Error, err := true })

/-- Go `scanner.pushParseState`. -/
def Scanner.pushParseState (s : Scanner) (f : Frame) (successState : Code) : Code × Scanner :=
  let s1 := { s with parseState := f :: s.parseState }
  if s1.parseState.length ≤ maxNestingDepth then (successState, s1) else s1.error

/-- Go `scanner.popParseState`; the completed container becomes `done`. -/
def Scanner.popParseState (s : Scanner) (v : JValue) : Scanner :=
  let rest := s.parseState.tail
  if rest.length = 0 then { s with parseState := rest, step := .EndTop, endTop := true, done := some v }
  else { s with parseState := rest, step := .EndValue, done := some v }

/-- Go `isSpace`. -/
def isSpace (c : Nat) : Bool := c = 32 || c = 9 || c = 13 || c = 10

/-- Decimal digit bytes. -/
def isDigit (c : Nat) : Bool := 48 ≤ c && c ≤ 57

/-- Hexadecimal digit bytes, either case. -/
def isHex (c : Nat) : Bool := (48 ≤ c && c ≤ 57) || (97 ≤ c && c ≤ 102) || (65 ≤ c && c ≤ 70)

/-- Go `stateEndTop`. -/
def stateEndTop (s : Scanner) (c : Nat) : Code × Scanner :=
  if ¬ isSpace c then (.scanEnd, s.error.2) else (.scanEnd, s)

/-- The members of an object once the pending value, if any, is attached to `key`. -/
def attach (ms : List (Bytes × JValue)) (key : Bytes) (v : Option JValue) : List (Bytes × JValue) :=
  ms ++ v.toList.map (fun x => (key, x))

/-- Go `stateEndValue`. -/
def stateEndValue (s : Scanner) (c : Nat) : Code × Scanner :=
  match s.parseState with
  | [] => stateEndTop { s with step := .EndTop, endTop := true } c
  | ps :: rest =>
    if isSpace c then (.scanSkipSpace, { s with step := .EndValue })
    else
      match ps with
      | .parseObjectKey ms =>
        if c = 58 then
          (.scanObjectKey,
            { s with parseState := .parseObjectValue ms s.lit :: rest, step := .BeginValue, done := none })
        else s.error
      | .parseObjectValue ms key =>
        if c = 44 then
          (.scanObjectValue,
            { s with parseState := .parseObjectKey (attach ms key s.done) :: rest,
                     step := .BeginString, done := none })
        else if c = 125 then
          (.scanEndObject, s.popParseState (.object (attach ms key s.done)))
        else s.error
      | .parseArrayValue es =>
        if c = 44 then
          (.scanArrayValue,
            { s with parseState := .parseArrayValue (es ++ s.done.toList) :: rest,
                     step := .BeginValue, done := none })
        else if c = 93 then
          (.scanEndArray, s.popParseState (.array (es ++ s.done.toList)))
        else s.error

/-- Go `stateBeginValue`. -/
def stateBeginValue (s : Scanner) (c : Nat) : Code × Scanner :=
  if isSpace c then (.scanSkipSpace, s)
  else if c = 123 then
    ({ s with step := .BeginStringOrEmpty }).pushParseState (.parseObjectKey []) .scanBeginObject
  else if c = 91 then
    ({ s with step := .BeginValueOrEmpty }).pushParseState (.parseArrayValue []) .scanBeginArray
  else if c = 34 then (.scanBeginLiteral, { s with step := .InString, lit := [] })
  else if c = 45 then (.scanBeginLiteral, { s with step := .Neg, lit := [c] })
  else if c = 48 then (.scanBeginLiteral, { s with step := .S0, lit := [c] })
  else if c = 116 then (.scanBeginLiteral, { s with step := .T, lit := [c] })
  else if c = 102 then (.scanBeginLiteral, { s with step := .F, lit := [c] })
  else if c = 110 then (.scanBeginLiteral, { s with step := .N, lit := [c] })
  else if 49 ≤ c ∧ c ≤ 57 then (.scanBeginLiteral, { s with step := .S1, lit := [c] })
  else s.error

/-- Go `stateBeginValueOrEmpty`. -/
def stateBeginValueOrEmpty (s : Scanner) (c : Nat) : Code × Scanner :=
  if isSpace c then (.scanSkipSpace, s)
  else if c = 93 then stateEndValue s c
  else stateBeginValue s c

/-- Go `stateBeginString`. -/
def stateBeginString (s : Scanner) (c : Nat) : Code × Scanner :=
  if isSpace c then (.scanSkipSpace, s)
  else if c = 34 then (.scanBeginLiteral, { s with step := .InString, lit := [] })
  else s.error

/-- Go `stateBeginStringOrEmpty`. -/
def stateBeginStringOrEmpty (s : Scanner) (c : Nat) : Code × Scanner :=
  if isSpace c then (.scanSkipSpace, s)
  else if c = 125 then
    match s.parseState with
    | .parseObjectKey ms :: rest =>
      stateEndValue { s with parseState := .parseObjectValue ms [] :: rest } c
    | _ => stateEndValue s c
  else stateBeginString s c

/-- Go `stateInString`. -/
def stateInString (s : Scanner) (c : Nat) : Code × Scanner :=
  if c = 34 then (.scanContinue, { s with step := .EndValue, done := some (.string s.lit) })
  else if c = 92 then (.scanContinue, { s with step := .InStringEsc, lit := s.lit ++ [c] })
  else if c < 32 then s.error
  else (.scanContinue, { s with lit := s.lit ++ [c] })

/-- Go `stateInStringEsc`. -/
def stateInStringEsc (s : Scanner) (c : Nat) : Code × Scanner :=
  if c = 98 ∨ c = 102 ∨ c = 110 ∨ c = 114 ∨ c = 116 ∨ c = 92 ∨ c = 47 ∨ c = 34 then
    (.scanContinue, { s with step := .InString, lit := s.lit ++ [c] })
  else if c = 117 then (.scanContinue, { s with step := .InStringEscU, lit := s.lit ++ [c] })
  else s.error

/-- Go `stateInStringEscU`, `...U1`, `...U12`, `...U123`: one hexadecimal digit, then `next`. -/
def stateInStringEscHex (next : Step) (s : Scanner) (c : Nat) : Code × Scanner :=
  if isHex c then (.scanContinue, { s with step := next, lit := s.lit ++ [c] })
  else s.error

/-- Go `state0`: after a leading `0`, and the tail of `state1`. -/
def state0 (s : Scanner) (c : Nat) : Code × Scanner :=
  if c = 46 then (.scanContinue, { s with step := .Dot, lit := s.lit ++ [c] })
  else if c = 101 ∨ c = 69 then (.scanContinue, { s with step := .E, lit := s.lit ++ [c] })
  else stateEndValue { s with done := some (.number s.lit) } c

/-- Go `stateNeg`. -/
def stateNeg (s : Scanner) (c : Nat) : Code × Scanner :=
  if c = 48 then (.scanContinue, { s with step := .S0, lit := s.lit ++ [c] })
  else if 49 ≤ c ∧ c ≤ 57 then (.scanContinue, { s with step := .S1, lit := s.lit ++ [c] })
  else s.error

/-- Go `state1`. -/
def state1 (s : Scanner) (c : Nat) : Code × Scanner :=
  if isDigit c then (.scanContinue, { s with step := .S1, lit := s.lit ++ [c] })
  else state0 s c

/-- Go `stateDot`. -/
def stateDot (s : Scanner) (c : Nat) : Code × Scanner :=
  if isDigit c then (.scanContinue, { s with step := .Dot0, lit := s.lit ++ [c] })
  else s.error

/-- Go `stateDot0`. -/
def stateDot0 (s : Scanner) (c : Nat) : Code × Scanner :=
  if isDigit c then (.scanContinue, { s with lit := s.lit ++ [c] })
  else if c = 101 ∨ c = 69 then (.scanContinue, { s with step := .E, lit := s.lit ++ [c] })
  else stateEndValue { s with done := some (.number s.lit) } c

/-- Go `stateESign`. -/
def stateESign (s : Scanner) (c : Nat) : Code × Scanner :=
  if isDigit c then (.scanContinue, { s with step := .E0, lit := s.lit ++ [c] })
  else s.error

/-- Go `stateE`. -/
def stateE (s : Scanner) (c : Nat) : Code × Scanner :=
  if c = 43 ∨ c = 45 then (.scanContinue, { s with step := .ESign, lit := s.lit ++ [c] })
  else stateESign s c

/-- Go `stateE0`. -/
def stateE0 (s : Scanner) (c : Nat) : Code × Scanner :=
  if isDigit c then (.scanContinue, { s with lit := s.lit ++ [c] })
  else stateEndValue { s with done := some (.number s.lit) } c

/-- Go `stateT` ... `stateNu`: the next letter `want` of `true`, `false` or `null`. -/
def stateLetter (want : Nat) (next : Step) (s : Scanner) (c : Nat) : Code × Scanner :=
  if c = want then (.scanContinue, { s with step := next, lit := s.lit ++ [c] })
  else s.error

/-- Go `stateTru`, `stateFals`, `stateNul`: the last letter completes the literal `v`. -/
def stateLast (want : Nat) (v : JValue) (s : Scanner) (c : Nat) : Code × Scanner :=
  if c = want then
    (.scanContinue, { s with step := .EndValue, lit := s.lit ++ [c], done := some v })
  else s.error

/-- The call `s.step(s, c)`. -/
def Scanner.doStep (s : Scanner) (c : Nat) : Code × Scanner :=
  match s.step with
  | .BeginValueOrEmpty => stateBeginValueOrEmpty s c
  | .BeginValue => stateBeginValue s c
  | .BeginStringOrEmpty => stateBeginStringOrEmpty s c
  | .BeginString => stateBeginString s c
  | .EndValue => stateEndValue s c
  | .EndTop => stateEndTop s c
  | .InString => stateInString s c
  | .InStringEsc => stateInStringEsc s c
  | .InStringEscU => stateInStringEscHex .InStringEscU1 s c
  | .InStringEscU1 => stateInStringEscHex .InStringEscU12 s c
  | .InStringEscU12 => stateInStringEscHex .InStringEscU123 s c
  | .InStringEscU123 => stateInStringEscHex .InString s c
  | .Neg => stateNeg s c
  | .S1 => state1 s c
  | .S0 => state0 s c
  | .Dot => stateDot s c
  | .Dot0 => stateDot0 s c
  | .E => stateE s c
  | .ESign => stateESign s c
  | .E0 => stateE0 s c
  | .T => stateLetter 114 .Tr s c
  | .Tr => stateLetter 117 .Tru s c
  | .Tru => stateLast 101 (.bool true) s c
  | .F => stateLetter 97 .Fa s c
  | .Fa => stateLetter 108 .Fal s c
  | .Fal => stateLetter 115 .Fals s c
  | .Fals => stateLast 101 (.bool false) s c
  | .N => stateLetter 117 .Nu s c
  | .Nu => stateLetter 108 .Nul s c
  | .Nul => stateLast 108 .null s c
  | .Error => (.scanError, s)

/-- Go `scanner.eof`. -/
def Scanner.eof (s : Scanner) : Code × Scanner :=
  if s.err then (.scanError, s)
  else if s.endTop then (.scanEnd, s)
  else
    let s1 := (s.doStep 32).2
    if s1.endTop then (.scanEnd, s1)
    else (.scanError, { s1 with err := true })

/-- The byte loop of Go `checkValid`: `none` as soon as a step returns `scanError`. -/
def scanLoop (s : Scanner) : Bytes → Option Scanner
  | [] => some s
  | c :: cs =>
    let r := s.doStep c
    if r.1 = .scanError then none else scanLoop r.2 cs

/-- Go `checkValid(data, scan)`, returning the scanned value when `data` is valid. -/
def checkValid (data : Bytes) : Option JValue :=
  match scanLoop Scanner.reset data with
  | none => none
  | some s =>
    let r := s.eof
    if r.1 = .scanError then none else r.2.done

/-! ## encoding/json: unquoting and field lookup (`decode.go`, `fold.go`) -/

/-- The value of one hexadecimal digit byte. -/
def hexDigit (c : Nat) : Option Nat :=
  if 48 ≤ c ∧ c ≤ 57 then some (c - 48)
  else if 97 ≤ c ∧ c ≤ 102 then some (c - 97 + 10)
  else if 65 ≤ c ∧ c ≤ 70 then some (c - 65 + 10)
  else none

/-- Go `getu4`: the code unit of a leading `\uXXXX`, `none` for Go's `-1`. -/
def getu4 (s : Bytes) : Option Nat :=
  match s with
  | 92 :: 117 :: a :: b :: c :: d :: _ =>
    match hexDigit a, hexDigit b, hexDigit c, hexDigit d with
    | some x, some y, some z, some w => some (((x * 16 + y) * 16 + z) * 16 + w)
    | _, _, _, _ => none
  | _ => none

/-- Go `utf8.EncodeRune` (surrogates and out-of-range runes become U+FFFD). -/
def EncodeRune (r : Nat) : Bytes :=
  if r < 128 then [r]
  else if r < 2048 then [192 + r / 64, 128 + r % 64]
  else if (55296 ≤ r ∧ r < 57344) ∨ r > 1114111 then [239, 191, 189]
  else if r < 65536 then [224 + r / 4096, 128 + (r / 64) % 64, 128 + r % 64]
  else [240 + r / 262144, 128 + (r / 4096) % 64, 128 + (r / 64) % 64, 128 + r % 64]

/-- A UTF-8 continuation byte in the range `lo ..= hi`. -/
def between (lo hi b : Nat) : Bool := lo ≤ b && b ≤ hi

/-- The size Go `utf8.DecodeRune` reports for a well-formed multi-byte encoding at
the head of `s`; `0` where Go returns `(RuneError, 1)`. -/
def utf8Size (s : Bytes) : Nat :=
  match s with
  | p0 :: b1 :: rest =>
    if between 194 223 p0 then (if between 128 191 b1 then 2 else 0)
    else
      let lo := if p0 = 224 then 160 else if p0 = 240 then 144 else 128
      let hi := if p0 = 237 then 159 else if p0 = 244 then 143 else 191
      if between 224 239 p0 then
        match rest with
        | b2 :: _ => if between lo hi b1 && between 128 191 b2 then 3 else 0
        | [] => 0
      else if between 240 244 p0 then
        match rest with
        | b2 :: b3 :: _ =>
          if between lo hi b1 && between 128 191 b2 && between 128 191 b3 then 4 else 0
        | _ => 0
      else 0
  | _ => 0

/-- The main loop of Go `unquoteBytes` on the bytes between the quotes; `none` is
Go's `ok = false`. `fuel` bounds the number of iterations. -/
def unquoteLoop : Nat → Bytes → Option Bytes
  | 0, _ => some []
  | _ + 1, [] => some []
  | fuel + 1, c :: rest =>
    if c = 92 then
      match rest with
      | [] => none
      | e :: rest2 =>
        if e = 34 ∨ e = 92 ∨ e = 47 ∨ e = 39 then (unquoteLoop fuel rest2).map (e :: ·)
        else if e = 98 then (unquoteLoop fuel rest2).map (8 :: ·)
        else if e = 102 then (unquoteLoop fuel rest2).map (12 :: ·)
        else if e = 110 then (unquoteLoop fuel rest2).map (10 :: ·)
        else if e = 114 then (unquoteLoop fuel rest2).map (13 :: ·)
        else if e = 116 then (unquoteLoop fuel rest2).map (9 :: ·)
        else if e = 117 then
          match getu4 (c :: rest) with
          | none => none
          | some rr =>
            let after := rest.drop 5
            if 55296 ≤ rr ∧ rr < 57344 then
              match getu4 after with
              | some rr1 =>
                if rr < 56320 ∧ 56320 ≤ rr1 ∧ rr1 < 57344 then
                  (unquoteLoop fuel (after.drop 6)).map
                    (EncodeRune ((rr - 55296) * 1024 + (rr1 - 56320) + 65536) ++ ·)
                else (unquoteLoop fuel after).map (EncodeRune 65533 ++ ·)
              | none => (unquoteLoop fuel after).map (EncodeRune 65533 ++ ·)
            else (unquoteLoop fuel after).map (EncodeRune rr ++ ·)
        else none
    else if c = 34 ∨ c < 32 then none
    else if c < 128 then (unquoteLoop fuel rest).map (c :: ·)
    else
      let n := utf8Size (c :: rest)
      if n = 0 then (unquoteLoop fuel rest).map (EncodeRune 65533 ++ ·)
      else (unquoteLoop fuel ((c :: rest).drop n)).map ((c :: rest).take n ++ ·)

/-- Go `unquoteBytes`, applied to the bytes between the quotes of a literal. -/
def unquoteBytes (raw : Bytes) : Option Bytes := unquoteLoop (raw.length + 1) raw

/-- Go `foldName` as far as it can matter for an ASCII field name: ASCII letters go
to upper case, U+017F (bytes `C5 BF`) folds to `S` and U+212A (bytes `E2 84 AA`) to
`K`; every other rune folds to a non-ASCII rune and is left as it is. -/
def foldName : Bytes → Bytes
  | [] => []
  | 197 :: 191 :: rest => 83 :: foldName rest
  | 226 :: 132 :: 170 :: rest => 75 :: foldName rest
  | c :: rest => (if 97 ≤ c ∧ c ≤ 122 then c - 32 else c) :: foldName rest

/-! ## Errors -/

/-- Go `error` values as they occur in the two source files. -/
inductive Error where
  /-- An error produced by a collaborator (the store, the HTTP client, the body reader). -/
  | collaborator (id : Nat)
  /-- A `*json.SyntaxError`. -/
  | SyntaxError
  /-- A `*json.UnmarshalTypeError`. -/
  | UnmarshalTypeError
  /-- The decoder found a literal it cannot unquote (Go panics with `phasePanicMsg`). -/
  | phasePanic
  /-- Go `io.EOF`. -/
  | EOF
  /-- Go `io.ErrUnexpectedEOF`. -/
  | ErrUnexpectedEOF
  /-- A `*strconv.NumError`. -/
  | NumError (e : NumErr)
  /-- The result of `fmt.Errorf`, with its formatted text. -/
  | Errorf (text : Bytes)
  /-- The result of `errors.Wrap(cause, msg)`. -/
  | Wrap (cause : Error) (msg : String)
  deriving DecidableEq, Repr

/-! ## encoding/json: decoding into the two structs (`decode.go`, `stream.go`) -/

/-- Go `decodeState.saveError`: only the first error is kept. -/
def saveError (saved : Option Error) (e : Error) : Option Error :=
  match saved with
  | none => some e
  | some x => some x

/-- Go `d.value(subv)` for a field of kind `int64`: `null` leaves the field alone,
a number goes through `strconv.ParseInt(item, 10, 64)`, anything else is a type error. -/
def storeInt64 (v : JValue) (cur : Int) (saved : Option Error) : Int × Option Error :=
  match v with
  | .null => (cur, saved)
  | .number lit =>
    let r := ParseInt lit 10 64
    if r.2 ≠ none then (cur, saveError saved .UnmarshalTypeError) else (r.1, saved)
  | _ => (cur, saveError saved .UnmarshalTypeError)

/-- Go `d.value(subv)` for a field of kind `string`: `null` leaves the field alone,
a string literal is unquoted and stored, anything else is a type error. -/
def storeString (v : JValue) (cur : Bytes) (saved : Option Error) : Bytes × Option Error :=
  match v with
  | .null => (cur, saved)
  | .string raw =>
    match unquoteBytes raw with
    | some t => (t, saved)
    | none => (cur, saveError saved .phasePanic)
  | _ => (cur, saveError saved .UnmarshalTypeError)

/-- Whether an unquoted object key selects the field called `name`: an exact match,
or else equality of the folded names. -/
def fieldMatch (name key : Bytes) : Bool :=
  key == name || foldName key == foldName name

/-- Go `d.object(v)` for a struct with the single field `name`: the members are visited
in order, a member whose key selects the field is stored with `store`, the other
members are skipped. -/
def objectInto {α : Type} (name : Bytes) (store : JValue → α → Option Error → α × Option Error) :
    List (Bytes × JValue) → α → Option Error → α × Option Error
  | [], a, saved => (a, saved)
  | (rawKey, v) :: ms, a, saved =>
    match unquoteBytes rawKey with
    | none => (a, saveError saved .phasePanic)
    | some key =>
      if fieldMatch name key then
        let r := store v a saved
        objectInto name store ms r.1 r.2
      else objectInto name store ms a saved

/-- Go `d.value(rv)` for a pointer to such a struct: `null` is ignored, an object is
decoded member by member, every other value is a type error. -/
def valueInto {α : Type} (name : Bytes) (store : JValue → α → Option Error → α × Option Error)
    (v : JValue) (a : α) : α × Option Error :=
  match v with
  | .null => (a, none)
  | .object ms => objectInto name store ms a none
  | _ => (a, some .UnmarshalTypeError)

/-- The loop of Go `Decoder.readValue` over the bytes the body delivers. `bodyErr` is
the error that ends the body (`none` for a clean end of input) and `nonSpace` says
whether the buffer holds a non-space byte. -/
def readValueLoop (bodyErr : Option Error) (nonSpace : Bool) (s : Scanner) :
    Bytes → Except Error (Option JValue)
  | [] =>
    match bodyErr with
    | some e => .error e
    | none =>
      let r := s.doStep 32
      if r.1 = .scanEnd then .ok r.2.done
      else if nonSpace then .error .ErrUnexpectedEOF
      else .error .EOF
  | c :: cs =>
    let r := s.doStep c
    match r.1 with
    | .scanEnd => .ok r.2.done
    | .scanEndObject | .scanEndArray =>
      let r2 := stateEndValue r.2 32
      if r2.1 = .scanEnd then .ok r2.2.done
      else readValueLoop bodyErr nonSpace r2.2 cs
    | .scanError => .error .SyntaxError
    | _ => readValueLoop bodyErr nonSpace r.2 cs

/-- Go `Decoder.readValue`: the first complete JSON value of the stream. -/
def readValue (body : Bytes) (bodyErr : Option Error) : Except Error (Option JValue) :=
  readValueLoop bodyErr (body.any (fun c => ! isSpace c)) Scanner.reset body

/-! ## services/blocks/standard/metadata.go -/

/-- Go `Metadata`: information about this service. `LatestSlot` is an `int64`. -/
structure Metadata where
  LatestSlot : Int
  deriving DecidableEq, Repr

/-- A `Metadata` whose field is a value of Go's `int64`. -/
def Metadata.inRange (md : Metadata) : Prop :=
  -(2 : Int) ^ 63 ≤ md.LatestSlot ∧ md.LatestSlot < (2 : Int) ^ 63

/-- Go `MetadataKey`. -/
def MetadataKey : String := "blocks.standard"

/-- The JSON name of `Metadata.LatestSlot`. -/
def latestSlotName : Bytes := ascii "latest_slot"

/-- Storing a JSON value into `Metadata.LatestSlot`. -/
def Metadata.store (v : JValue) (md : Metadata) (saved : Option Error) : Metadata × Option Error :=
  let r := storeInt64 v md.LatestSlot saved
  ({ md with LatestSlot := r.1 }, r.2)

/-- Go `json.Unmarshal(data, md)` for `md : *Metadata`: the updated struct and the error. -/
def Unmarshal (data : Bytes) (md : Metadata) : Metadata × Option Error :=
  match checkValid data with
  | none => (md, some .SyntaxError)
  | some v => valueInto latestSlotName Metadata.store v md

/-- Go `json.Marshal(md)` for `md : *Metadata`; it has no failing case. -/
def Marshal (md : Metadata) : Bytes × Option Error :=
  (ascii "\x7b\"latest_slot\":" ++ FormatInt md.LatestSlot ++ ascii "\x7d", none)

/-- The `chainDB` collaborator as the service uses it, over a store state `σ`:
`Metadata(ctx, key)` returns the bytes (or `nil`, here `none`) or an error, and
`SetMetadata(ctx, key, value)` returns an error or `nil` and leaves a store state. -/
structure ChainDB (σ : Type) where
  Metadata : σ → String → Except Error (Option Bytes)
  SetMetadata : σ → String → Bytes → Option Error × σ

/-- Go `(*Service).GetMetadata`: the pair `(*Metadata, error)`, `none` for `nil`. -/
def GetMetadata {σ : Type} (chainDB : ChainDB σ) (st : σ) : Option Metadata × Option Error :=
  let md : Metadata := { LatestSlot := -1 }
  match chainDB.Metadata st MetadataKey with
  | .error err => (none, some (.Wrap err "failed to fetch metadata"))
  | .ok mdJSON =>
    match mdJSON with
    | none => (some md, none)
    | some data =>
      let r := Unmarshal data md
      match r.2 with
      | some err => (none, some (.Wrap err "failed to unmarshal metadata"))
      | none => (some r.1, none)

/-- Go `(*Service).SetMetadata`: the returned error and the store state it leaves. -/
def SetMetadata {σ : Type} (chainDB : ChainDB σ) (st : σ) (md : Metadata) : Option Error × σ :=
  let m := Marshal md
  match m.2 with
  | some err => (some (.Wrap err "failed to marshal metadata"), st)
  | none =>
    let w := chainDB.SetMetadata st MetadataKey m.1
    match w.1 with
    | some err => (some (.Wrap err "failed to update metadata"), w.2)
    | none => (none, w.2)

/-! ## services/eth1deposits/getlogs/chainid.go -/

/-- Go `chainIDResponse`. -/
structure chainIDResponse where
  Result : Bytes
  deriving DecidableEq, Repr

/-- The JSON name of `chainIDResponse.Result`. -/
def resultName : Bytes := ascii "result"

/-- Storing a JSON value into `chainIDResponse.Result`. -/
def chainIDResponse.store (v : JValue) (r : chainIDResponse) (saved : Option Error) :
    chainIDResponse × Option Error :=
  let x := storeString v r.Result saved
  ({ r with Result := x.1 }, x.2)

/-- An `*http.Response` as `chainID` uses it: the status code and the body, given as
the bytes it delivers and the error that ends it (`none` or `io.EOF` for a clean end of
input). -/
structure Response where
  StatusCode : Int
  Body : Bytes
  BodyErr : Option Error
  deriving DecidableEq, Repr

/-- The error with which reading the body ends, `none` when it ends with `io.EOF`. -/
def Response.readErr (resp : Response) : Option Error :=
  match resp.BodyErr with
  | some .EOF => none
  | e => e

/-- Go `json.NewDecoder(resp.Body).Decode(&response)`: the first JSON value of the body
is read and decoded into `response`. (`readValue` returns a value whenever it returns
no error; the middle case only makes the function total.) -/
def Decode (resp : Response) (response : chainIDResponse) : chainIDResponse × Option Error :=
  match readValue resp.Body resp.readErr with
  | .error e => (response, some e)
  | .ok none => (response, some .SyntaxError)
  | .ok (some v) => valueInto resultName chainIDResponse.store v response

/-- Go `ioutil.ReadAll(resp.Body)`. -/
def ReadAll (resp : Response) : Bytes × Option Error :=
  (resp.Body, resp.readErr)

/-- Go `(*Service).chainID`. `newRequest` is the error of `http.NewRequestWithContext`
(`none` when the request was built) and `doResult` what `s.client.Do(req)` returns.
`url.Parse("/")` has no failing case and the request body is a constant, so the function
depends on nothing else. The pair is Go's `(uint64, error)`. -/
def chainID (newRequest : Option Error) (doResult : Except Error Response) : Nat × Option Error :=
  match newRequest with
  | some err => (0, some (.Wrap err "failed to setup request context"))
  | none =>
    match doResult with
    | .error err => (0, some (.Wrap err "failed to call POST endpoint"))
    | .ok resp =>
      let statusFamily := resp.StatusCode.tdiv 100
      if statusFamily ≠ 2 then
        let d := ReadAll resp
        match d.2 with
        | some err => (0, some (.Wrap err "failed to read failed POST response"))
        | none =>
          (0, some (.Errorf (ascii "POST failed with status " ++ FormatInt resp.StatusCode
            ++ ascii ": " ++ d.1)))
      else
        let dec := Decode resp { Result := [] }
        match dec.2 with
        | some err => (0, some (.Wrap err "failed to parse newFilter response"))
        | none =>
          let p := ParseUint (TrimPrefix dec.1.Result (ascii "0x")) 16 64
          match p.2 with
          | some err => (0, some (.Wrap (.NumError err) "failed to parse result"))
          | none => (p.1, none)

/-! ## The storage collaborator -/

/-- The state of the in-memory store: its records, newest first, and whether it
accepts writes. -/
structure MemState where
  records : List (String × Bytes)
  writable : Bool
  deriving DecidableEq, Repr

/-- Modelled from the spec: the storage collaborator behind `chainDB` (its implementation
is not part of these source files), as the key/value metadata store the specification
describes: `Metadata(key)` returns the bytes last written under `key` or `nil`, and
`SetMetadata(key, bytes)` either replaces the record under `key` or fails and leaves the
store as it was. -/
def memStore : ChainDB MemState where
  Metadata := fun st key => .ok (st.records.lookup key)
  SetMetadata := fun st key v =>
    if st.writable then (none, { st with records := (key, v) :: st.records })
    else (some (.collaborator 1), st)

/-- A store holding `data` under the metadata key. -/
def holding (data : Bytes) : MemState := ⟨[(MetadataKey, data)], true⟩

/-! ## Reading a hexadecimal text, as the specification words it -/

/-- The value of a hexadecimal digit byte (`0-9`, `A-F`, `a-f`). -/
def hexDigitValue (c : Nat) : Nat :=
  if c ≤ 57 then c - 48 else if c ≤ 70 then c - 55 else c - 87

/-- The digits `ds` read in base 16, most significant first, continuing from `n`. -/
def hexFold (n : Nat) (ds : Bytes) : Nat :=
  ds.foldl (fun acc c => acc * 16 + hexDigitValue c) n

/-- The number a text of hexadecimal digits denotes. -/
def hexValue (ds : Bytes) : Nat := hexFold 0 ds

/-- The text `h` without one leading `0x`. -/
def stripHexMarker (h : Bytes) : Bytes :=
  match h with
  | 48 :: 120 :: ds => ds
  | _ => h

/-- The text `h` is a hexadecimal number that fits an unsigned 64-bit integer: after
one leading `0x`, if any, at least one digit, only hexadecimal digits, value below `2 ^ 64`. -/
def DenotesUint64 (h : Bytes) : Prop :=
  stripHexMarker h ≠ [] ∧ (∀ c ∈ stripHexMarker h, isHex c = true) ∧
    hexValue (stripHexMarker h) < 2 ^ 64

/-! ## Shapes of stored records, as the specification words them -/

/-- The text of a JSON integer as `FormatInt` writes it: an optional minus sign, a first
digit, and further digits only when the first digit is not zero. -/
def IsIntText (t : Bytes) : Prop :=
  ∃ sign d ds, t = sign ++ d :: ds ∧ (sign = [] ∨ sign = [45]) ∧ 48 ≤ d ∧ d ≤ 57 ∧
    (d = 48 → ds = []) ∧ ∀ x ∈ ds, isDigit x = true

instance (h : Bytes) : Decidable (DenotesUint64 h) := by
  unfold DenotesUint64; infer_instance

instance (md : Metadata) : Decidable md.inRange := by
  unfold Metadata.inRange; infer_instance

/-! ## The scanner's string literals and the keys it records -/

/-- The letters that may follow a backslash in a string literal, `u` apart. -/
def isEscByte (e : Nat) : Bool :=
  e = 98 || e = 102 || e = 110 || e = 114 || e = 116 || e = 92 || e = 47 || e = 34

/-- The scanner's string states as an automaton on the bytes after the opening quote:
the next state, or `none` where the scanner stops (closing quote) or fails. -/
def strStep (st : Step) (c : Nat) : Option Step :=
  match st with
  | .InString =>
    if c = 34 then none else if c = 92 then some .InStringEsc
    else if c < 32 then none else some .InString
  | .InStringEsc =>
    if isEscByte c then some .InString else if c = 117 then some .InStringEscU else none
  | .InStringEscU => if isHex c then some .InStringEscU1 else none
  | .InStringEscU1 => if isHex c then some .InStringEscU12 else none
  | .InStringEscU12 => if isHex c then some .InStringEscU123 else none
  | .InStringEscU123 => if isHex c then some .InString else none
  | _ => none

/-- Running the string automaton over bytes. -/
def strRun (st : Step) : Bytes → Option Step
  | [] => some st
  | c :: cs =>
    match strStep st c with
    | none => none
    | some st1 => strRun st1 cs

/-- The bytes between the quotes of a string literal the scanner accepts. -/
def WellEscaped (raw : Bytes) : Prop := strRun .InString raw = some .InString

/-- Every key of the members is a string literal the scanner accepts. -/
def keysOK (ms : List (Bytes × JValue)) : Prop := ∀ m ∈ ms, WellEscaped m.1

/-- The keys recorded in an entry of `parseState` are accepted string literals. -/
def Frame.ok : Frame → Prop
  | .parseObjectKey ms => keysOK ms
  | .parseObjectValue ms k => keysOK ms ∧ WellEscaped k
  | .parseArrayValue _ => True

/-- The entry is `parseObjectKey`. -/
def Frame.isKey : Frame → Bool
  | .parseObjectKey _ => true
  | _ => false

/-- The keys of a completed object are accepted string literals. -/
def doneOK : Option JValue → Prop
  | some (.object ms) => keysOK ms
  | _ => True

/-- The string states of the scanner. -/
def Step.inStr : Step → Bool
  | .InString | .InStringEsc | .InStringEscU | .InStringEscU1 | .InStringEscU12
  | .InStringEscU123 => true
  | _ => false

/-- The states the scanner can be in while the innermost open container expects a key. -/
def Step.keyStep : Step → Bool
  | .BeginStringOrEmpty | .BeginString | .EndValue | .Error => true
  | st => st.inStr

/-- The invariant of the scanner that makes every recorded key an accepted string
literal, on the four fields it concerns. -/
structure KeyInv (step : Step) (ps : List Frame) (lit : Bytes) (done : Option JValue) : Prop where
  frames : ∀ f ∈ ps, f.ok
  done : doneOK done
  str : step.inStr = true → strRun .InString lit = some step
  top : ∀ f rest, ps = f :: rest → f.isKey = true →
    step.keyStep = true ∧ (step = .EndValue → WellEscaped lit)
  below : ∀ f ∈ ps.tail, f.isKey = false

/-- The invariant on a scanner state. -/
def Scanner.inv (s : Scanner) : Prop := KeyInv s.step s.parseState s.lit s.done

/-! ## JSON text, as RFC 8259 words it on bytes

The grammar of RFC 8259 read on bytes. Inside a string literal every byte from `0x20`
up, other than the quote and the backslash, stands for itself: whether the bytes from
`0x80` up form well-formed UTF-8 is not part of this grammar. -/

/-- Insignificant whitespace: spaces, tabs, line feeds, carriage returns. -/
def IsWs (w : Bytes) : Prop := ∀ c ∈ w, c = 32 ∨ c = 9 ∨ c = 10 ∨ c = 13

/-- Decimal digits only. -/
def AllDigits (ds : Bytes) : Prop := ∀ c ∈ ds, 48 ≤ c ∧ c ≤ 57

/-- The `int` of a number: a single zero, or a non-zero digit and further digits. -/
def IsInt (i : Bytes) : Prop :=
  i = [48] ∨ ∃ d ds, i = d :: ds ∧ 49 ≤ d ∧ d ≤ 57 ∧ AllDigits ds

/-- The optional `frac` of a number: a decimal point and at least one digit. -/
def IsFrac (f : Bytes) : Prop :=
  f = [] ∨ ∃ ds, f = 46 :: ds ∧ ds ≠ [] ∧ AllDigits ds

/-- The optional sign of an exponent. -/
def IsExpSign (sx : Bytes) : Prop := sx = [] ∨ sx = [43] ∨ sx = [45]

/-- The optional `exp` of a number: `e` or `E`, an optional sign and at least one digit. -/
def IsExp (e : Bytes) : Prop :=
  e = [] ∨ ∃ c sx ds, e = c :: (sx ++ ds) ∧ (c = 101 ∨ c = 69) ∧ IsExpSign sx ∧ ds ≠ [] ∧
    AllDigits ds

/-- A number: `[ minus ] int [ frac ] [ exp ]`. -/
def IsNumber (t : Bytes) : Prop :=
  ∃ sg i f e, t = sg ++ (i ++ (f ++ e)) ∧ (sg = [] ∨ sg = [45]) ∧ IsInt i ∧ IsFrac f ∧ IsExp e

/-- The characters between the quotes of a string: unescaped bytes from `0x20` up other
than the quote and the backslash, two-character escapes, and `\u` with four hexadecimal
digits. -/
inductive IsStringBody : Bytes → Prop where
  | nil : IsStringBody []
  | plain (c : Nat) (rest : Bytes) : 32 ≤ c → c ≠ 34 → c ≠ 92 → IsStringBody rest →
      IsStringBody (c :: rest)
  | esc (e : Nat) (rest : Bytes) :
      (e = 34 ∨ e = 92 ∨ e = 47 ∨ e = 98 ∨ e = 102 ∨ e = 110 ∨ e = 114 ∨ e = 116) →
      IsStringBody rest → IsStringBody (92 :: e :: rest)
  | uni (a b c d : Nat) (rest : Bytes) : isHex a = true → isHex b = true → isHex c = true →
      isHex d = true → IsStringBody rest → IsStringBody (92 :: 117 :: a :: b :: c :: d :: rest)

mutual
/-- The text `t` is the JSON value `v`: a literal name, a number, a string, an array or
an object. -/
inductive Renders : JValue → Bytes → Prop where
  | litNull : Renders .null [110, 117, 108, 108]
  | litTrue : Renders (.bool true) [116, 114, 117, 101]
  | litFalse : Renders (.bool false) [102, 97, 108, 115, 101]
  | number (t : Bytes) : IsNumber t → Renders (.number t) t
  | string (raw : Bytes) : IsStringBody raw → Renders (.string raw) (34 :: (raw ++ [34]))
  | emptyArray (w : Bytes) : IsWs w → Renders (.array []) (91 :: (w ++ [93]))
  | array (es : List JValue) (t : Bytes) : RendersElems es t →
      Renders (.array es) (91 :: (t ++ [93]))
  | emptyObject (w : Bytes) : IsWs w → Renders (.object []) (123 :: (w ++ [125]))
  | object (ms : List (Bytes × JValue)) (t : Bytes) : RendersMembers ms t →
      Renders (.object ms) (123 :: (t ++ [125]))
/-- An element of an array: a value with whitespace around it. -/
inductive RendersElem : JValue → Bytes → Prop where
  | mk (v : JValue) (w1 tv w2 : Bytes) : IsWs w1 → Renders v tv → IsWs w2 →
      RendersElem v (w1 ++ (tv ++ w2))
/-- One or more elements, separated by commas. -/
inductive RendersElems : List JValue → Bytes → Prop where
  | one (v : JValue) (t : Bytes) : RendersElem v t → RendersElems [v] t
  | snoc (es : List JValue) (te : Bytes) (v : JValue) (t : Bytes) : RendersElems es te →
      RendersElem v t → RendersElems (es ++ [v]) (te ++ 44 :: t)
/-- A member of an object: a string, a colon and a value, with whitespace around each. -/
inductive RendersMember : Bytes × JValue → Bytes → Prop where
  | mk (k : Bytes) (v : JValue) (w1 w2 t : Bytes) : IsWs w1 → IsStringBody k → IsWs w2 →
      RendersElem v t → RendersMember (k, v) (w1 ++ (34 :: (k ++ 34 :: (w2 ++ 58 :: t))))
/-- One or more members, separated by commas. -/
inductive RendersMembers : List (Bytes × JValue) → Bytes → Prop where
  | one (m : Bytes × JValue) (t : Bytes) : RendersMember m t → RendersMembers [m] t
  | snoc (ms : List (Bytes × JValue)) (tm : Bytes) (m : Bytes × JValue) (t : Bytes) :
      RendersMembers ms tm → RendersMember m t → RendersMembers (ms ++ [m]) (tm ++ 44 :: t)
end

/-- The bytes `data` are a JSON text for the value `v`: the value with whitespace around
it. -/
def IsJSONOf (v : JValue) (data : Bytes) : Prop := RendersElem v data

/-! ## The scanner's progress through a JSON text -/

/-- The text of the elements collected so far in an open array, up to and including
the comma after the last of them. -/
def ElemsBefore (es : List JValue) (t : Bytes) : Prop :=
  (es = [] ∧ t = []) ∨ ∃ te, RendersElems es te ∧ t = te ++ [44]

/-- The text of the members collected so far in an open object, up to and including
the comma after the last of them. -/
def MembersBefore (ms : List (Bytes × JValue)) (t : Bytes) : Prop :=
  (ms = [] ∧ t = []) ∨ ∃ tm, RendersMembers ms tm ∧ t = tm ++ [44]

/-- The text an entry of `parseState` stands for: the opening bracket, what was
collected, and for `parseObjectValue` the key and the colon. -/
def FrameText : Frame → Bytes → Prop
  | .parseArrayValue es, t => ∃ tb, ElemsBefore es tb ∧ t = 91 :: tb
  | .parseObjectKey ms, t => ∃ tb, MembersBefore ms tb ∧ t = 123 :: tb
  | .parseObjectValue ms key, t => ∃ tb w1 w2, MembersBefore ms tb ∧ IsWs w1 ∧
      IsStringBody key ∧ IsWs w2 ∧ t = 123 :: (tb ++ (w1 ++ (34 :: (key ++ 34 :: (w2 ++ [58])))))

/-- The text the whole of `parseState` stands for, outermost container first; there is
whitespace in front of each opening bracket. -/
def StackText : List Frame → Bytes → Prop
  | [], t => t = []
  | f :: rest, t => ∃ t0 w tf, StackText rest t0 ∧ IsWs w ∧ FrameText f tf ∧ t = t0 ++ (w ++ tf)

/-- The part of a number read so far, by scanner state. -/
def NumPartial : Step → Bytes → Prop
  | .Neg, l => l = [45]
  | .S0, l => ∃ sg, (sg = [] ∨ sg = [45]) ∧ l = sg ++ [48]
  | .S1, l => ∃ sg d ds, (sg = [] ∨ sg = [45]) ∧ 49 ≤ d ∧ d ≤ 57 ∧ AllDigits ds ∧
      l = sg ++ d :: ds
  | .Dot, l => ∃ sg i, (sg = [] ∨ sg = [45]) ∧ IsInt i ∧ l = sg ++ (i ++ [46])
  | .Dot0, l => ∃ sg i ds, (sg = [] ∨ sg = [45]) ∧ IsInt i ∧ ds ≠ [] ∧ AllDigits ds ∧
      l = sg ++ (i ++ 46 :: ds)
  | .E, l => ∃ sg i f c, (sg = [] ∨ sg = [45]) ∧ IsInt i ∧ IsFrac f ∧ (c = 101 ∨ c = 69) ∧
      l = sg ++ (i ++ (f ++ [c]))
  | .ESign, l => ∃ sg i f c x, (sg = [] ∨ sg = [45]) ∧ IsInt i ∧ IsFrac f ∧
      (c = 101 ∨ c = 69) ∧ (x = 43 ∨ x = 45) ∧ l = sg ++ (i ++ (f ++ [c, x]))
  | .E0, l => ∃ sg i f c sx ds, (sg = [] ∨ sg = [45]) ∧ IsInt i ∧ IsFrac f ∧
      (c = 101 ∨ c = 69) ∧ IsExpSign sx ∧ ds ≠ [] ∧ AllDigits ds ∧
      l = sg ++ (i ++ (f ++ c :: (sx ++ ds)))
  | _, _ => False

/-- The part of `true`, `false` or `null` read so far, by scanner state. -/
def NamePartial : Step → Bytes → Prop
  | .T, l => l = [116]
  | .Tr, l => l = [116, 114]
  | .Tru, l => l = [116, 114, 117]
  | .F, l => l = [102]
  | .Fa, l => l = [102, 97]
  | .Fal, l => l = [102, 97, 108]
  | .Fals, l => l = [102, 97, 108, 115]
  | .N, l => l = [110]
  | .Nu, l => l = [110, 117]
  | .Nul, l => l = [110, 117, 108]
  | _, _ => False

/-- The scanner state `s` accounts for the bytes `p` read so far: `p` is the text of the
open containers followed by what the current state is in the middle of. -/
def Track (s : Scanner) (p : Bytes) : Prop :=
  (s.endTop = true ↔ s.step = .EndTop) ∧
  match s.step with
  | .BeginValue | .BeginString =>
    s.done = none ∧ ∃ t w, StackText s.parseState t ∧ IsWs w ∧ p = t ++ w
  | .BeginValueOrEmpty =>
    s.done = none ∧ (∃ rest, s.parseState = .parseArrayValue [] :: rest) ∧
      ∃ t w, StackText s.parseState t ∧ IsWs w ∧ p = t ++ w
  | .BeginStringOrEmpty =>
    s.done = none ∧ (∃ rest, s.parseState = .parseObjectKey [] :: rest) ∧
      ∃ t w, StackText s.parseState t ∧ IsWs w ∧ p = t ++ w
  | .EndValue =>
    ∃ v tv t w1 w2, s.done = some v ∧ StackText s.parseState t ∧ IsWs w1 ∧ Renders v tv ∧
      IsWs w2 ∧ p = t ++ (w1 ++ (tv ++ w2)) ∧
      (∀ ms rest, s.parseState = .parseObjectKey ms :: rest →
        tv = 34 :: (s.lit ++ [34]) ∧ IsStringBody s.lit)
  | .EndTop => ∃ v, s.done = some v ∧ s.parseState = [] ∧ RendersElem v p
  | .InString | .InStringEsc | .InStringEscU | .InStringEscU1 | .InStringEscU12
  | .InStringEscU123 =>
    ∃ t w, StackText s.parseState t ∧ IsWs w ∧ p = t ++ (w ++ 34 :: s.lit)
  | .Neg | .S0 | .S1 | .Dot | .Dot0 | .E | .ESign | .E0 =>
    ∃ t w, StackText s.parseState t ∧ IsWs w ∧ p = t ++ (w ++ s.lit) ∧ NumPartial s.step s.lit
  | .T | .Tr | .Tru | .F | .Fa | .Fal | .Fals | .N | .Nu | .Nul =>
    ∃ t w, StackText s.parseState t ∧ IsWs w ∧ p = t ++ (w ++ s.lit) ∧ NamePartial s.step s.lit
  | .Error => False

/-- The scanner state after the bytes `p`: either it accounts for them, or it is the
error state, in which `endTop` can only be set by a byte that is not whitespace. -/
def Good (s : Scanner) (p : Bytes) : Prop :=
  (s.err = true ∧ s.step = .Error ∧
      (s.endTop = true → ∃ p0 c, p = p0 ++ [c] ∧ isSpace c = false)) ∨
    (s.err = false ∧ Track s p)

/-- The text ends in a byte that is not whitespace. -/
def EndsNonSpace (t : Bytes) : Prop := ∃ t0 c, t = t0 ++ [c] ∧ isSpace c = false

/-! ## Records that decode into the checkpoint, as the specification words them -/

/-- The number the decimal digits `ds` denote, most significant first. -/
def decValue (ds : Bytes) : Nat := ds.foldl (fun acc c => acc * 10 + (c - 48)) 0

/-- The text of an integer that fits an `int64`: an optional minus sign, then at least one
digit and only digits, denoting a value of at most `2 ^ 63 - 1`, or at most `2 ^ 63` after
a minus sign. -/
def IsInt64Text (t : Bytes) : Prop :=
  ∃ sg ds, t = sg ++ ds ∧ (sg = [] ∨ sg = [45]) ∧ ds ≠ [] ∧ AllDigits ds ∧
    (sg = [] → decValue ds < 2 ^ 63) ∧ decValue ds ≤ 2 ^ 63

/-- A JSON value that decodes into the checkpoint record: the literal `null`, or an
object in which every member whose key selects `latest_slot` has the value `null` or an
integer that fits an `int64`. -/
def DecodesIntoRecord : JValue → Prop
  | .null => True
  | .object ms => ∀ m ∈ ms, ∀ key, unquoteBytes m.1 = some key →
      fieldMatch latestSlotName key = true →
        m.2 = .null ∨ ∃ t, m.2 = .number t ∧ IsInt64Text t
  | _ => False

/-- The stored bytes are JSON text that decodes into the checkpoint record. -/
def IsRecordText (data : Bytes) : Prop := ∃ v, IsJSONOf v data ∧ DecodesIntoRecord v

/-! ## Sanity checks on concrete inputs -/

example : ParseUint (ascii "ff") 16 64 = (255, none) := by decide
example : ParseUint (ascii "FFFFFFFFFFFFFFFF") 16 64 = (2 ^ 64 - 1, none) := by decide
example : ParseUint (ascii "10000000000000000") 16 64 = (2 ^ 64 - 1, some .ErrRange) := by
  decide
example : ParseUint (ascii "0x1") 16 64 = (0, some .ErrSyntax) := by decide
example : ParseInt (ascii "-9223372036854775808") 10 64 = (-2 ^ 63, none) := by decide
example : ParseInt (ascii "9223372036854775808") 10 64 = (2 ^ 63 - 1, some .ErrRange) := by
  decide
example : FormatInt (-1) = ascii "-1" := by decide
example : FormatInt 1000 = ascii "1000" := by decide
example : TrimPrefix (ascii "0x0x1") (ascii "0x") = ascii "0x1" := by decide
example : foldName (ascii "Latest_slot") = ascii "LATEST_SLOT" := by decide
example : unquoteBytes (ascii "latest\\u005fslot") = some (ascii "latest_slot") := by decide
example : (Marshal ⟨1000⟩).1 = ascii "\x7b\"latest_slot\":1000\x7d" := by decide
example : GetMetadata memStore (holding (ascii "\x7b\"latest_slot\":1000\x7d")) =
    (some ⟨1000⟩, none) := by decide
example :
    GetMetadata memStore
        (holding (ascii " \x7b \"LATEST_SLOT\" : -7 , \"x\":[1,\x7b\x7d] \x7d ")) =
      (some ⟨-7⟩, none) := by decide
example : GetMetadata memStore (holding (ascii "\x7b\"latest_slot\":10")) =
    (none, some (.Wrap .SyntaxError "failed to unmarshal metadata")) := by decide
example : GetMetadata memStore (holding (ascii "\x7b\"latest_slot\":1.5\x7d")) =
    (none, some (.Wrap .UnmarshalTypeError "failed to unmarshal metadata")) := by decide
example : GetMetadata memStore (holding (ascii "\x7b\"latest_slot\":10\x7d trailing")) =
    (none, some (.Wrap .SyntaxError "failed to unmarshal metadata")) := by decide
example : GetMetadata memStore (holding (ascii "\x7b\"latest_slot\":\"10\"\x7d")) =
    (none, some (.Wrap .UnmarshalTypeError "failed to unmarshal metadata")) := by decide
example : GetMetadata memStore (holding (ascii "\x7b\"latest_slot\":9223372036854775808\x7d")) =
    (none, some (.Wrap .UnmarshalTypeError "failed to unmarshal metadata")) := by decide
example : GetMetadata memStore (holding (ascii "\x7b\"latest_slot\":1,\"latest_slot\":2\x7d")) =
    (some ⟨2⟩, none) := by decide
example : GetMetadata memStore (holding ([123, 34, 97, 255, 34, 58, 49, 125])) =
    (some ⟨-1⟩, none) := by decide
example : chainID none (.ok ⟨200, ascii "\x7b\"result\":\"0x1\"\x7d", none⟩) = (1, none) := by
  decide
example :
    chainID none
        (.ok ⟨200, ascii "\x7b\"jsonrpc\":\"2.0\",\"id\":1901,\"result\":\"0x5\"\x7d\n", none⟩) =
      (5, none) := by decide
example : chainID none (.ok ⟨200, ascii "\x7b\"result\":\"0x1\"\x7d trailing", none⟩) =
    (1, none) := by decide
example : chainID none (.ok ⟨200, ascii "\x7b\"result\":\"\\u0030x1f\"\x7d", none⟩) =
    (31, none) := by decide
example : chainID none (.ok ⟨299, ascii "\x7b\"RESULT\":\"0xA\"\x7d", some .EOF⟩) =
    (10, none) := by decide
example : chainID none (.ok ⟨500, ascii "oops", none⟩) =
    (0, some (.Errorf (ascii "POST failed with status 500: oops"))) := by decide
example : chainID none (.ok ⟨200, ascii "\x7b\"result\":", some (.collaborator 7)⟩) =
    (0, some (.Wrap (.collaborator 7) "failed to parse newFilter response")) := by decide
example : chainID (some (.collaborator 3)) (.ok ⟨200, [], none⟩) =
    (0, some (.Wrap (.collaborator 3) "failed to setup request context")) := by decide
example : chainID none (.error (.collaborator 4)) =
    (0, some (.Wrap (.collaborator 4) "failed to call POST endpoint")) := by decide

example : IsJSONOf (.object [(ascii "a", .number (ascii "1"))])
    (ascii " \x7b \"a\" : 1 \x7d ") := by
  have hs : IsWs [32] := by intro c hc; simp at hc; omega
  have hn : IsWs ([] : Bytes) := by intro c hc; simp at hc
  have hnum : IsNumber (ascii "1") :=
    ⟨[], [49], [], [], by decide, Or.inl rfl, Or.inr ⟨49, [], rfl, by omega, by omega,
      by intro c hc; simp at hc⟩, Or.inl rfl, Or.inl rfl⟩
  have hbody : IsStringBody (ascii "a") :=
    IsStringBody.plain 97 [] (by omega) (by omega) (by omega) IsStringBody.nil
  have hm := RendersMember.mk (ascii "a") _ [32] [32] _ hs hbody hs
    (RendersElem.mk _ [32] _ [32] hs (Renders.number _ hnum) hs)
  exact RendersElem.mk _ [32] _ [32] hs (Renders.object _ _ (RendersMembers.one _ _ hm)) hs

/-! ## Lemmas on strconv and strings -/

theorem hexFold_ge (ds : Bytes) : ∀ n, n ≤ hexFold n ds := by
  induction ds with
  | nil => intro n; simp [hexFold]
  | cons c cs ih =>
    intro n
    have h := ih (n * 16 + hexDigitValue c)
    simp only [hexFold, List.foldl_cons] at h ⊢
    omega

theorem isHex_cases {c : Nat} (h : isHex c = true) :
    (48 ≤ c ∧ c ≤ 57) ∨ (97 ≤ c ∧ c ≤ 102) ∨ (65 ≤ c ∧ c ≤ 70) := by
  simp only [isHex, Bool.or_eq_true, Bool.and_eq_true, decide_eq_true_eq] at h
  omega

theorem isHex_of_cases {c : Nat}
    (h : (48 ≤ c ∧ c ≤ 57) ∨ (97 ≤ c ∧ c ≤ 102) ∨ (65 ≤ c ∧ c ≤ 70)) : isHex c = true := by
  simp only [isHex, Bool.or_eq_true, Bool.and_eq_true, decide_eq_true_eq]
  omega

/-- One step of the `ParseUint` loop in base 16 on a hexadecimal digit below the cutoff. -/
theorem parseUintLoop_hex_step (n c : Nat) (cs : Bytes) (hc : isHex c = true)
    (hn : n < 2 ^ 60) :
    parseUintLoop 16 (2 ^ 60) (2 ^ 64 - 1) n (c :: cs) =
      parseUintLoop 16 (2 ^ 60) (2 ^ 64 - 1) (n * 16 + hexDigitValue c) cs := by
  have hcases := isHex_cases hc
  have hv : hexDigitValue c < 16 := by
    simp only [hexDigitValue]; split_ifs <;> omega
  have hmod : (n * 16 % 2 ^ 64 + hexDigitValue c) % 2 ^ 64 = n * 16 + hexDigitValue c := by
    norm_num at hn ⊢; omega
  have hmod0 : n * 16 % 2 ^ 64 = n * 16 := by norm_num at hn ⊢; omega
  rcases hcases with h | h | h
  · have hd : c - 48 = hexDigitValue c := by simp only [hexDigitValue]; split_ifs <;> omega
    rw [parseUintLoop]
    simp only [h, and_self, if_true, hd]
    rw [if_neg (by omega), if_neg (by omega), hmod, hmod0, if_neg (by norm_num at hn ⊢; omega)]
  · have hl : lower c = c := by simp only [lower]; split_ifs <;> omega
    have hd : c - 97 + 10 = hexDigitValue c := by simp only [hexDigitValue]; split_ifs <;> omega
    rw [parseUintLoop]
    rw [if_neg (by omega), if_pos (by rw [hl]; omega)]
    simp only [hl, hd]
    rw [if_neg (by omega), if_neg (by omega), hmod, hmod0, if_neg (by norm_num at hn ⊢; omega)]
  · have hl : lower c = c + 32 := by simp only [lower]; split_ifs <;> omega
    have hd : c + 32 - 97 + 10 = hexDigitValue c := by
      simp only [hexDigitValue]; split_ifs <;> omega
    rw [parseUintLoop]
    rw [if_neg (by omega), if_pos (by rw [hl]; omega)]
    simp only [hl, hd]
    rw [if_neg (by omega), if_neg (by omega), hmod, hmod0, if_neg (by norm_num at hn ⊢; omega)]

/-- A byte that is no hexadecimal digit ends the base-16 loop with an error. -/
theorem parseUintLoop_not_hex (n c : Nat) (cs : Bytes) (hc : isHex c = false) :
    (parseUintLoop 16 (2 ^ 60) (2 ^ 64 - 1) n (c :: cs)).2 ≠ none := by
  have hcases : ¬ ((48 ≤ c ∧ c ≤ 57) ∨ (97 ≤ c ∧ c ≤ 102) ∨ (65 ≤ c ∧ c ≤ 70)) := by
    intro h; rw [isHex_of_cases h] at hc; exact Bool.noConfusion hc
  rw [parseUintLoop]
  rw [if_neg (by omega)]
  by_cases hl : 97 ≤ lower c ∧ lower c ≤ 122
  · rw [if_pos hl]
    have : lower c - 97 + 10 ≥ 16 := by
      have : ¬ (lower c ≤ 102) := by
        simp only [lower] at hl ⊢; split_ifs at hl ⊢ <;> omega
      omega
    simp only [this, if_true]
    simp
  · rw [if_neg hl]; simp

/-- The base-16, 64-bit `ParseUint` loop succeeds exactly on hexadecimal digits whose
value, continued from `n`, stays below `2 ^ 64`; it then returns that value. -/
theorem parseUintLoop_hex (s : Bytes) : ∀ n, n < 2 ^ 64 →
    (((∀ c ∈ s, isHex c = true) ∧ hexFold n s < 2 ^ 64) →
      parseUintLoop 16 (2 ^ 60) (2 ^ 64 - 1) n s = (hexFold n s, none)) ∧
    ((parseUintLoop 16 (2 ^ 60) (2 ^ 64 - 1) n s).2 = none →
      (∀ c ∈ s, isHex c = true) ∧ hexFold n s < 2 ^ 64) := by
  induction s with
  | nil =>
    intro n hn
    exact ⟨fun _ => rfl, fun _ => ⟨by simp, hn⟩⟩
  | cons c cs ih =>
    intro n hn
    constructor
    · rintro ⟨hall, hlt⟩
      have hc : isHex c = true := hall c (List.mem_cons_self _ _)
      have hfold : hexFold n (c :: cs) = hexFold (n * 16 + hexDigitValue c) cs := rfl
      have hge := hexFold_ge cs (n * 16 + hexDigitValue c)
      have hn60 : n < 2 ^ 60 := by rw [hfold] at hlt; norm_num at hlt ⊢; omega
      rw [parseUintLoop_hex_step n c cs hc hn60, hfold]
      exact (ih _ (by rw [hfold] at hlt; omega)).1
        ⟨fun x hx => hall x (List.mem_cons_of_mem _ hx), by rw [← hfold]; exact hlt⟩
    · intro hok
      by_cases hc : isHex c = true
      · by_cases hn60 : n < 2 ^ 60
        · rw [parseUintLoop_hex_step n c cs hc hn60] at hok
          have hv : hexDigitValue c < 16 := by
            have := isHex_cases hc
            simp only [hexDigitValue]; split_ifs <;> omega
          have := (ih (n * 16 + hexDigitValue c) (by norm_num at hn60 ⊢; omega)).2 hok
          refine ⟨?_, this.2⟩
          intro x hx
          rcases List.mem_cons.mp hx with rfl | hx
          · exact hc
          · exact this.1 x hx
        · exfalso
          have hcases := isHex_cases hc
          rw [parseUintLoop] at hok
          rcases hcases with h | h | h
          · simp only [h, and_self, if_true] at hok
            rw [if_neg (by omega), if_pos (by omega)] at hok
            simp at hok
          · have hl : lower c = c := by simp only [lower]; split_ifs <;> omega
            rw [if_neg (by omega), if_pos (by rw [hl]; omega)] at hok
            simp only [hl] at hok
            rw [if_neg (by omega), if_pos (by omega)] at hok
            simp at hok
          · have hl : lower c = c + 32 := by simp only [lower]; split_ifs <;> omega
            rw [if_neg (by omega), if_pos (by rw [hl]; omega)] at hok
            simp only [hl] at hok
            rw [if_neg (by omega), if_pos (by omega)] at hok
            simp at hok
      · exfalso
        exact parseUintLoop_not_hex n c cs (by simpa using hc) hok

/-- The base-16, 64-bit call of `ParseUint` as `chainID` makes it. -/
theorem ParseUint_16_64 (s : Bytes) :
    ParseUint s 16 64 =
      if s = [] then (0, some .ErrSyntax)
      else parseUintLoop 16 (2 ^ 60) (2 ^ 64 - 1) 0 s := by
  simp only [ParseUint]
  split_ifs with h1 h2 h3 <;> first | rfl | omega | (norm_num at *)

/-- `TrimPrefix h "0x"` removes one leading `0x`. -/
theorem TrimPrefix_0x (h : Bytes) : TrimPrefix h (ascii "0x") = stripHexMarker h := by
  have ha : ascii "0x" = [48, 120] := by decide
  rw [ha]
  unfold TrimPrefix stripHexMarker
  rcases h with _ | ⟨a, _ | ⟨b, t⟩⟩
  · rfl
  · by_cases h1 : a = 48 <;> simp [List.isPrefixOf, h1]
  · by_cases h1 : a = 48 <;> by_cases h2 : b = 120 <;> simp [List.isPrefixOf, h1, h2] <;>
      intros <;> omega

/-- What `chainID` computes from the decoded `result` text `h`: the number `h` denotes
when it is a hexadecimal number fitting 64 bits, and an error otherwise. -/
theorem ParseUint_TrimPrefix (h : Bytes) :
    (DenotesUint64 h →
      ParseUint (TrimPrefix h (ascii "0x")) 16 64 = (hexValue (stripHexMarker h), none)) ∧
    (¬ DenotesUint64 h → (ParseUint (TrimPrefix h (ascii "0x")) 16 64).2 ≠ none) := by
  rw [TrimPrefix_0x, ParseUint_16_64]
  have key := parseUintLoop_hex (stripHexMarker h) 0 (by norm_num)
  constructor
  · rintro ⟨hne, hall, hlt⟩
    rw [if_neg hne]
    exact key.1 ⟨hall, hlt⟩
  · intro hnot
    by_cases hne : stripHexMarker h = []
    · rw [if_pos hne]; simp
    · rw [if_neg hne]
      intro hok
      exact hnot ⟨hne, (key.2 hok).1, (key.2 hok).2⟩

/-- The digits of `formatBits` come in front of the accumulator. -/
theorem formatBits_acc (fuel : Nat) : ∀ (u : Nat) (acc : Bytes),
    formatBits fuel u acc = formatBits fuel u [] ++ acc := by
  induction fuel with
  | zero => intro u acc; simp [formatBits]
  | succ f ih =>
    intro u acc
    simp only [formatBits]
    split_ifs with h
    · simp
    · rw [ih (u / 10) ((48 + u % 10) :: acc), ih (u / 10) [48 + u % 10]]
      simp

/-- Unfolding `formatBits` on an empty accumulator. -/
theorem formatBits_succ (f u : Nat) :
    formatBits (f + 1) u [] =
      if u < 10 then [48 + u] else formatBits f (u / 10) [] ++ [48 + u % 10] := by
  simp only [formatBits]
  split_ifs with h
  · rfl
  · exact formatBits_acc f (u / 10) [48 + u % 10]

/-- The shape of a formatted number: a first digit that is zero only for the number 0,
followed by decimal digits. -/
theorem formatBits_shape (fuel : Nat) : ∀ u, u < fuel →
    ∃ d ds, formatBits fuel u [] = d :: ds ∧ 48 ≤ d ∧ d ≤ 57 ∧ (0 < u → 49 ≤ d) ∧
      (u = 0 → ds = []) ∧ ∀ x ∈ ds, isDigit x = true := by
  induction fuel with
  | zero => intro u hu; omega
  | succ f ih =>
    intro u hu
    rw [formatBits_succ]
    split_ifs with h
    · exact ⟨48 + u, [], rfl, by omega, by omega, by omega, fun _ => rfl, by simp⟩
    · obtain ⟨d, ds, heq, h1, h2, h3, _, h5⟩ := ih (u / 10) (by omega)
      refine ⟨d, ds ++ [48 + u % 10], by rw [heq]; rfl, h1, h2, fun _ => h3 (by omega),
        fun h0 => by omega, ?_⟩
      intro x hx
      rcases List.mem_append.mp hx with hx | hx
      · exact h5 x hx
      · have : x = 48 + u % 10 := by simpa using hx
        simp only [isDigit, Bool.and_eq_true, decide_eq_true_eq]
        omega

/-- One step of the base-10 `ParseUint` loop on a decimal digit that keeps the value
below `2 ^ 64`. -/
theorem parseUintLoop_dec_step (n d : Nat) (rest : Bytes) (hd : d < 10)
    (hn : n * 10 + d < 2 ^ 64) :
    parseUintLoop 10 ((2 ^ 64 - 1) / 10 + 1) (2 ^ 64 - 1) n ((48 + d) :: rest) =
      parseUintLoop 10 ((2 ^ 64 - 1) / 10 + 1) (2 ^ 64 - 1) (n * 10 + d) rest := by
  rw [parseUintLoop]
  have h1 : 48 + d - 48 = d := by omega
  rw [if_pos (by omega)]
  simp only [h1]
  have hmod0 : n * 10 % 2 ^ 64 = n * 10 := by norm_num at hn ⊢; omega
  have hmod : (n * 10 + d) % 2 ^ 64 = n * 10 + d := by norm_num at hn ⊢; omega
  rw [if_neg (by omega), if_neg (by norm_num at hn ⊢; omega), hmod0, hmod,
    if_neg (by norm_num at hn ⊢; omega)]

/-- Reading back the digits `formatBits` wrote gives the number. -/
theorem parseUintLoop_formatBits (fuel : Nat) : ∀ u, u < fuel → u < 2 ^ 64 → ∀ rest,
    parseUintLoop 10 ((2 ^ 64 - 1) / 10 + 1) (2 ^ 64 - 1) 0 (formatBits fuel u [] ++ rest) =
      parseUintLoop 10 ((2 ^ 64 - 1) / 10 + 1) (2 ^ 64 - 1) u rest := by
  induction fuel with
  | zero => intro u hu; omega
  | succ f ih =>
    intro u hu h64 rest
    rw [formatBits_succ]
    split_ifs with h
    · have := parseUintLoop_dec_step 0 u rest h (by omega)
      simpa using this
    · rw [List.append_assoc, ih (u / 10) (by omega) (by omega)]
      have := parseUintLoop_dec_step (u / 10) (u % 10) rest (by omega) (by omega)
      have hu' : u / 10 * 10 + u % 10 = u := by omega
      rw [hu'] at this
      simpa using this

/-- `ParseUint(FormatUint(u), 10, 64)` is `u` for every 64-bit `u`. -/
theorem ParseUint_FormatUint (u : Nat) (h64 : u < 2 ^ 64) :
    ParseUint (FormatUint u) 10 64 = (u, none) := by
  obtain ⟨d, ds, heq, -⟩ := formatBits_shape (u + 1) u (by omega)
  have hne : FormatUint u ≠ [] := by simp [FormatUint, heq]
  have := parseUintLoop_formatBits (u + 1) u (by omega) h64 []
  simp only [List.append_nil, parseUintLoop] at this
  simp only [ParseUint, hne, if_false]
  rw [if_neg (by omega), if_neg (by omega)]
  exact this

/-- `ParseInt(FormatInt(i), 10, 64)` is `i` for every `int64` value `i`. -/
theorem ParseInt_FormatInt (i : Int) (hlo : -(2 : Int) ^ 63 ≤ i) (hhi : i < (2 : Int) ^ 63) :
    ParseInt (FormatInt i) 10 64 = (i, none) := by
  obtain ⟨d, ds, heq, h1, h2, -⟩ := formatBits_shape (i.natAbs + 1) i.natAbs (by omega)
  have hu : ParseUint (FormatUint i.natAbs) 10 64 = (i.natAbs, none) :=
    ParseUint_FormatUint _ (by norm_num at hlo hhi ⊢; omega)
  by_cases hneg : i < 0
  · have hf : FormatInt i = 45 :: FormatUint i.natAbs := by simp [FormatInt, hneg]
    rw [hf]
    simp only [ParseInt, true_or, or_true, if_true, hu]
    have hle : ¬ (i.natAbs > 2 ^ (64 - 1)) := by norm_num at hlo hhi ⊢; omega
    simp only [true_and, not_true_eq_false, false_and, if_false, hle]
    simp only [if_true, Prod.mk.injEq, and_true]
    omega
  · have hf : FormatInt i = d :: ds := by
      simp only [FormatInt, hneg, if_false, FormatUint, heq]
    have hu' : ParseUint (d :: ds) 10 64 = (i.natAbs, none) := by
      rw [← hu, FormatUint, heq]
    rw [hf]
    have hd43 : ¬ (d = 43) := by omega
    have hd45 : ¬ (d = 45) := by omega
    simp only [ParseInt, hd43, hd45, or_self, if_false, hu']
    have hlt : ¬ (i.natAbs ≥ 2 ^ (64 - 1)) := by norm_num at hlo hhi ⊢; omega
    simp only [not_false_eq_true, true_and, hlt, if_false, false_and, Prod.mk.injEq, and_true]
    omega

/-! ## Lemmas on the scanner -/

/-- Scanning a concatenation is scanning its parts in turn. -/
theorem scanLoop_append (a : Bytes) : ∀ (s : Scanner) (b : Bytes),
    scanLoop s (a ++ b) = (scanLoop s a).bind (fun s1 => scanLoop s1 b) := by
  induction a with
  | nil => intro s b; rfl
  | cons c cs ih =>
    intro s b
    simp only [List.cons_append, scanLoop]
    split_ifs with h
    · rfl
    · exact ih _ b

theorem FormatInt_shape (i : Int) : IsIntText (FormatInt i) := by
  obtain ⟨d, ds, heq, h1, h2, h3, h4, h5⟩ := formatBits_shape (i.natAbs + 1) i.natAbs (by omega)
  have hz : d = 48 → ds = [] := fun hd => h4 (by omega)
  by_cases hneg : i < 0
  · exact ⟨[45], d, ds, by simp [FormatInt, hneg, FormatUint, heq], Or.inr rfl, h1, h2, hz, h5⟩
  · exact ⟨[], d, ds, by simp [FormatInt, hneg, FormatUint, heq], Or.inl rfl, h1, h2, hz, h5⟩

/-- In `state1` the scanner keeps collecting decimal digits. -/
theorem scanLoop_digits (fr : List Frame) (ds : Bytes) : ∀ lit : Bytes,
    (∀ x ∈ ds, isDigit x = true) →
    scanLoop ⟨.S1, fr, false, false, lit, none⟩ ds = some ⟨.S1, fr, false, false, lit ++ ds, none⟩ := by
  induction ds with
  | nil => intro lit _; simp [scanLoop]
  | cons c cs ih =>
    intro lit h
    have hc : isDigit c = true := h c (List.mem_cons_self _ _)
    have hstep : (Scanner.mk .S1 fr false false lit none).doStep c =
        (.scanContinue, ⟨.S1, fr, false, false, lit ++ [c], none⟩) := by
      simp [Scanner.doStep, state1, hc]
    rw [scanLoop, hstep]
    simp only [reduceCtorEq, if_false]
    rw [ih (lit ++ [c]) (fun x hx => h x (List.mem_cons_of_mem _ hx))]
    simp

/-- Scanning the text of an integer from `stateBeginValue` leaves the scanner in
`state0` or `state1` with the text as its literal. -/
theorem scanLoop_intText (fr : List Frame) (lit0 t : Bytes) (ht : IsIntText t) :
    ∃ st, (st = Step.S0 ∨ st = Step.S1) ∧
      scanLoop ⟨.BeginValue, fr, false, false, lit0, none⟩ t = some ⟨st, fr, false, false, t, none⟩ := by
  obtain ⟨sign, d, ds, rfl, hsign, h1, h2, hz, hds⟩ := ht
  have hsp : isSpace d = false := by
    simp only [isSpace, Bool.or_eq_false_iff, decide_eq_false_iff_not]; omega
  by_cases hd : d = 48
  · have hds0 := hz hd
    subst hd hds0
    rcases hsign with rfl | rfl
    · exact ⟨.S0, Or.inl rfl, rfl⟩
    · exact ⟨.S0, Or.inl rfl, rfl⟩
  · have h19 : 49 ≤ d ∧ d ≤ 57 := by omega
    rcases hsign with rfl | rfl
    · refine ⟨.S1, Or.inr rfl, ?_⟩
      have hstep : (Scanner.mk .BeginValue fr false false lit0 none).doStep d =
          (.scanBeginLiteral, ⟨.S1, fr, false, false, [d], none⟩) := by
        have hother : d ≠ 123 ∧ d ≠ 91 ∧ d ≠ 34 ∧ d ≠ 45 ∧ d ≠ 48 ∧ d ≠ 116 ∧ d ≠ 102 ∧
            d ≠ 110 := by omega
        simp [Scanner.doStep, stateBeginValue, hsp, hother, h19]
      simp only [List.nil_append, scanLoop, hstep, reduceCtorEq, if_false]
      rw [scanLoop_digits fr ds [d] hds]
      rfl
    · refine ⟨.S1, Or.inr rfl, ?_⟩
      have hstep1 : (Scanner.mk .BeginValue fr false false lit0 none).doStep 45 =
          (.scanBeginLiteral, ⟨.Neg, fr, false, false, [45], none⟩) := rfl
      have hstep2 : (Scanner.mk .Neg fr false false [45] none).doStep d =
          (.scanContinue, ⟨.S1, fr, false, false, [45, d], none⟩) := by
        simp only [Scanner.doStep, stateNeg]
        rw [if_neg hd, if_pos h19]
        rfl
      simp only [List.cons_append, List.nil_append, scanLoop, hstep1, hstep2, reduceCtorEq,
        if_false]
      rw [scanLoop_digits fr ds [45, d] hds]
      rfl

/-- A closing brace after a number that is the value of the only open object completes
the top-level object. -/
theorem doStep_close_number (st : Step) (hst : st = Step.S0 ∨ st = Step.S1)
    (ms : List (Bytes × JValue)) (key lit : Bytes) :
    (Scanner.mk st [.parseObjectValue ms key] false false lit none).doStep 125 =
      (.scanEndObject,
        ⟨.EndTop, [], false, true, lit, some (.object (ms ++ [(key, .number lit)]))⟩) := by
  rcases hst with rfl | rfl <;> rfl

/-- The scanner state after the bytes `\x7b"latest_slot":`. -/
theorem scanLoop_key :
    scanLoop Scanner.reset (ascii "\x7b\"latest_slot\":") =
      some ⟨.BeginValue, [.parseObjectValue [] latestSlotName], false, false, latestSlotName,
        none⟩ := by
  rfl

/-- The document `\x7b"latest_slot":<integer>\x7d` is valid and scans to the object with
that single member. -/
theorem checkValid_marshalled (t : Bytes) (ht : IsIntText t) :
    checkValid (ascii "\x7b\"latest_slot\":" ++ t ++ ascii "\x7d") =
      some (.object [(latestSlotName, .number t)]) := by
  obtain ⟨st, hst, hscan⟩ := scanLoop_intText [.parseObjectValue [] latestSlotName]
    latestSlotName t ht
  have hclose := doStep_close_number st hst [] latestSlotName t
  have h125 : ascii "\x7d" = [125] := by decide
  have hall : scanLoop Scanner.reset (ascii "\x7b\"latest_slot\":" ++ t ++ ascii "\x7d") =
      some ⟨.EndTop, [], false, true, t, some (.object [(latestSlotName, .number t)])⟩ := by
    rw [h125, List.append_assoc, scanLoop_append, scanLoop_key]
    simp only [Option.bind]
    rw [scanLoop_append, hscan]
    simp only [Option.bind, scanLoop, hclose, reduceCtorEq, if_false, List.nil_append]
  simp only [checkValid, hall, Scanner.eof]
  simp

/-- Decoding what `Marshal` writes gives the checkpoint back, whatever the struct held. -/
theorem Unmarshal_Marshal (md md0 : Metadata) (hr : md.inRange) :
    Unmarshal (Marshal md).1 md0 = (md, none) := by
  have hv := checkValid_marshalled (FormatInt md.LatestSlot) (FormatInt_shape _)
  have hp := ParseInt_FormatInt md.LatestSlot hr.1 hr.2
  have hk : unquoteBytes latestSlotName = some latestSlotName := by decide
  have hm : fieldMatch latestSlotName latestSlotName = true := by decide
  simp only [Unmarshal, Marshal, hv, valueInto, objectInto, hk, hm, if_true, Metadata.store,
    storeInt64, hp]
  simp

/-- A prefix of an integer text is empty, a lone minus sign, or an integer text. -/
theorem IsIntText_prefix (t q : Bytes) (ht : IsIntText t) (hq : q <+: t) :
    q = [] ∨ q = [45] ∨ IsIntText q := by
  obtain ⟨sign, d, ds, rfl, hsign, h1, h2, hz, hds⟩ := ht
  have hbody : ∀ r, r <+: d :: ds → r = [] ∨ IsIntText (r) ∧ ∃ ds1, r = d :: ds1 := by
    intro r hr
    rcases List.prefix_cons_iff.mp hr with rfl | ⟨ds1, rfl, hds1⟩
    · exact Or.inl rfl
    · refine Or.inr ⟨⟨[], d, ds1, rfl, Or.inl rfl, h1, h2, ?_, fun x hx => hds x (hds1.mem hx)⟩,
        ds1, rfl⟩
      intro hd
      have := hz hd
      subst this
      exact List.prefix_nil.mp hds1
  rcases hsign with rfl | rfl
  · rcases hbody q (by simpa using hq) with h | ⟨h, -⟩
    · exact Or.inl h
    · exact Or.inr (Or.inr h)
  · rcases List.prefix_cons_iff.mp (by simpa using hq) with rfl | ⟨r, rfl, hr⟩
    · exact Or.inl rfl
    · rcases hbody r hr with rfl | ⟨⟨_, _, _, _, _, _, _, hz1, hds1⟩, ds1, rfl⟩
      · exact Or.inr (Or.inl rfl)
      · refine Or.inr (Or.inr ⟨[45], d, ds1, rfl, Or.inr rfl, h1, h2, ?_, ?_⟩)
        · intro hd
          have := hz hd
          subst this
          exact List.prefix_nil.mp ((List.prefix_cons_inj d).mp hr)
        · intro x hx
          exact hds x (((List.prefix_cons_inj d).mp hr).mem hx)

/-- Every prefix of `\x7b"latest_slot":` is an invalid document. -/
theorem checkValid_key_prefix :
    ∀ k, k < 16 → (checkValid ((ascii "\x7b\"latest_slot\":").take k)).isNone = true := by
  decide

/-- A document that stops inside or right after the integer of `\x7b"latest_slot":<integer>`
is invalid. -/
theorem checkValid_number_cut (q : Bytes) (hq : q = [45] ∨ IsIntText q) :
    checkValid (ascii "\x7b\"latest_slot\":" ++ q) = none := by
  rcases hq with rfl | hq
  · rfl
  · obtain ⟨st, hst, hscan⟩ := scanLoop_intText [.parseObjectValue [] latestSlotName]
      latestSlotName q hq
    have hall : scanLoop Scanner.reset (ascii "\x7b\"latest_slot\":" ++ q) =
        some ⟨st, [.parseObjectValue [] latestSlotName], false, false, q, none⟩ := by
      rw [scanLoop_append, scanLoop_key]
      simp only [Option.bind]
      exact hscan
    have heof : (Scanner.eof ⟨st, [.parseObjectValue [] latestSlotName], false, false, q,
        none⟩).1 = .scanError := by
      rcases hst with rfl | rfl <;> rfl
    simp only [checkValid, hall, heof, if_true]

/-- Every proper prefix of a marshalled checkpoint is an invalid document. -/
theorem checkValid_truncated (md : Metadata) (data : Bytes)
    (hpre : data <+: (Marshal md).1) (hne : data ≠ (Marshal md).1) :
    checkValid data = none := by
  have h125 : ascii "\x7d" = [125] := by decide
  have hshape := FormatInt_shape md.LatestSlot
  simp only [Marshal, h125] at hpre hne
  rcases List.prefix_concat_iff.mp hpre with h | h
  · exact absurd h hne
  · rcases List.prefix_or_prefix_of_prefix h (List.prefix_append _ _) with h1 | h1
    · have hk := checkValid_key_prefix data.length (by
        have := h1.length_le
        have hl : (ascii "\x7b\"latest_slot\":").length = 15 := by decide
        omega)
      rw [← List.prefix_iff_eq_take.mp h1] at hk
      exact Option.isNone_iff_eq_none.mp hk
    · obtain ⟨q, rfl⟩ := h1
      have hq : q <+: FormatInt md.LatestSlot := (List.prefix_append_right_inj _).mp h
      rcases IsIntText_prefix _ q hshape hq with rfl | hq1
      · have hk := checkValid_key_prefix 15 (by omega)
        rw [List.append_nil]
        exact Option.isNone_iff_eq_none.mp hk
      · exact checkValid_number_cut q hq1

/-! ## Lemmas on string literals and recorded keys -/

theorem strRun_append (a : Bytes) : ∀ (st : Step) (b : Bytes),
    strRun st (a ++ b) = (strRun st a).bind (fun st1 => strRun st1 b) := by
  induction a with
  | nil => intro st b; rfl
  | cons c cs ih =>
    intro st b
    simp only [List.cons_append, strRun]
    cases strStep st c with
    | none => rfl
    | some st1 => exact ih st1 b

/-- After `\u` the automaton reaches the string state again exactly over four
hexadecimal digits. -/
theorem strRun_escU {rest : Bytes} (h : strRun .InStringEscU rest = some .InString) :
    ∃ a b x d rest3, rest = a :: b :: x :: d :: rest3 ∧ isHex a = true ∧ isHex b = true ∧
      isHex x = true ∧ isHex d = true ∧ strRun .InString rest3 = some .InString := by
  rcases rest with _ | ⟨a, _ | ⟨b, _ | ⟨x, _ | ⟨d, rest3⟩⟩⟩⟩
  · simp [strRun] at h
  · by_cases ha : isHex a = true <;> simp [strRun, strStep, ha] at h
  · by_cases ha : isHex a = true <;> by_cases hb : isHex b = true <;>
      simp [strRun, strStep, ha, hb] at h
  · by_cases ha : isHex a = true <;> by_cases hb : isHex b = true <;>
      by_cases hx : isHex x = true <;> simp [strRun, strStep, ha, hb, hx] at h
  · by_cases ha : isHex a = true <;> by_cases hb : isHex b = true <;>
      by_cases hx : isHex x = true <;> by_cases hd : isHex d = true <;>
      simp [strRun, strStep, ha, hb, hx, hd] at h
    exact ⟨a, b, x, d, rest3, rfl, ha, hb, hx, hd, h⟩

theorem KeyInv.top_not_key {step : Step} {ps : List Frame} {lit : Bytes} {done : Option JValue}
    (h : KeyInv step ps lit done) (hk : step.keyStep = false) :
    ∀ f rest, ps = f :: rest → f.isKey = false := by
  intro f rest hps
  cases hf : f.isKey with
  | false => rfl
  | true =>
    have h1 := (h.top f rest hps hf).1
    rw [hk] at h1
    exact Bool.noConfusion h1

/-- Building the invariant: either no key is expected, or the state is one in which a
key can be expected. -/
theorem KeyInv.build {st : Step} {ps : List Frame} {lit : Bytes} {done : Option JValue}
    (hf : ∀ f ∈ ps, f.ok) (hd : doneOK done) (hb : ∀ f ∈ ps.tail, f.isKey = false)
    (hstr : st.inStr = true → strRun .InString lit = some st)
    (htop : (∀ f rest, ps = f :: rest → f.isKey = false) ∨
      (st.keyStep = true ∧ (st = .EndValue → WellEscaped lit))) :
    KeyInv st ps lit done := by
  refine ⟨hf, hd, hstr, fun f rest hps hk => ?_, hb⟩
  rcases htop with h | h
  · rw [h f rest hps] at hk
    exact Bool.noConfusion hk
  · exact h

theorem keysOK_attach {ms : List (Bytes × JValue)} {key : Bytes} (d : Option JValue)
    (hms : keysOK ms) (hk : WellEscaped key) : keysOK (attach ms key d) := by
  intro m hm
  simp only [attach, List.mem_append, List.mem_map] at hm
  rcases hm with hm | ⟨x, _, rfl⟩
  · exact hms m hm
  · exact hk

/-- The error state keeps the invariant. -/
theorem error_inv (s : Scanner) (hf : ∀ f ∈ s.parseState, f.ok) (hd : doneOK s.done)
    (hb : ∀ f ∈ s.parseState.tail, f.isKey = false) : s.error.2.inv :=
  KeyInv.build hf hd hb (fun hs => Bool.noConfusion hs)
    (Or.inr ⟨rfl, fun he => Step.noConfusion he⟩)

/-- `stateEndTop` keeps the invariant. -/
theorem stateEndTop_inv (s : Scanner) (c : Nat) (h : s.inv) : (stateEndTop s c).2.inv := by
  unfold stateEndTop
  split_ifs
  · exact h
  · exact error_inv s h.frames h.done h.below

/-- `popParseState` keeps the invariant when the completed value has accepted keys. -/
theorem popParseState_inv (st : Step) (f : Frame) (rest : List Frame) (err endTop : Bool)
    (lit : Bytes) (done : Option JValue) (v : JValue)
    (hrest : ∀ f ∈ rest, f.isKey = false) (hrestOK : ∀ f ∈ rest, f.ok) (hv : doneOK (some v)) :
    (Scanner.popParseState ⟨st, f :: rest, err, endTop, lit, done⟩ v).inv := by
  have hnk : ∀ (g : Frame) (r : List Frame), rest = g :: r → g.isKey = false :=
    fun g r hgr => hrest g (by simp [hgr])
  have hb : ∀ g ∈ rest.tail, g.isKey = false := fun g hg => hrest g (List.mem_of_mem_tail hg)
  unfold Scanner.popParseState
  simp only [List.tail_cons]
  split_ifs
  · exact KeyInv.build hrestOK hv hb (fun hs => Bool.noConfusion hs) (Or.inl hnk)
  · exact KeyInv.build hrestOK hv hb (fun hs => Bool.noConfusion hs) (Or.inl hnk)

/-- `stateEndValue` keeps the invariant, from any state in which the literal is an
accepted string whenever a key is expected. -/
theorem stateEndValue_inv (s : Scanner) (c : Nat)
    (hf : ∀ f ∈ s.parseState, f.ok) (hd : doneOK s.done)
    (hb : ∀ f ∈ s.parseState.tail, f.isKey = false)
    (hl : ∀ f rest, s.parseState = f :: rest → f.isKey = true → WellEscaped s.lit) :
    (stateEndValue s c).2.inv := by
  obtain ⟨step, ps, err, endTop, lit, done⟩ := s
  simp only at hf hd hb hl
  unfold stateEndValue
  rcases ps with _ | ⟨f, rest⟩
  · apply stateEndTop_inv
    exact KeyInv.build hf hd hb (fun hs => Bool.noConfusion hs)
      (Or.inl (fun g r hgr => List.noConfusion hgr))
  · have hrest : ∀ g ∈ rest, g.isKey = false := fun g hg => hb g (by simpa using hg)
    have hrestOK : ∀ g ∈ rest, g.ok := fun g hg => hf g (by simp [hg])
    have hfOK : f.ok := hf f (by simp)
    have herr := error_inv ⟨step, f :: rest, err, endTop, lit, done⟩ hf hd hb
    simp only
    by_cases hsp : isSpace c = true
    · rw [if_pos hsp]
      refine KeyInv.build hf hd hb (fun hs => Bool.noConfusion hs) ?_
      cases hk : f.isKey with
      | false => exact Or.inl (fun g r hgr => by rw [← (List.cons.inj hgr).1]; exact hk)
      | true => exact Or.inr ⟨rfl, fun _ => hl f rest rfl hk⟩
    · rw [if_neg hsp]
      cases f with
      | parseObjectKey ms =>
        simp only
        by_cases h58 : c = 58
        · rw [if_pos h58]
          refine KeyInv.build ?_ trivial hb (fun hs => Bool.noConfusion hs)
            (Or.inl (fun g r hgr => by rw [← (List.cons.inj hgr).1]; rfl))
          intro g hg
          rcases List.mem_cons.mp hg with rfl | hg
          · exact ⟨hfOK, hl _ rest rfl rfl⟩
          · exact hrestOK g hg
        · rw [if_neg h58]
          exact herr
      | parseObjectValue ms key =>
        simp only
        by_cases h44 : c = 44
        · rw [if_pos h44]
          refine KeyInv.build ?_ trivial hb (fun hs => Bool.noConfusion hs)
            (Or.inr ⟨rfl, fun he => Step.noConfusion he⟩)
          intro g hg
          rcases List.mem_cons.mp hg with rfl | hg
          · exact keysOK_attach done hfOK.1 hfOK.2
          · exact hrestOK g hg
        · rw [if_neg h44]
          by_cases h125 : c = 125
          · rw [if_pos h125]
            exact popParseState_inv _ _ rest _ _ _ _ _ hrest hrestOK
              (keysOK_attach done hfOK.1 hfOK.2)
          · rw [if_neg h125]
            exact herr
      | parseArrayValue es =>
        simp only
        by_cases h44 : c = 44
        · rw [if_pos h44]
          refine KeyInv.build ?_ trivial hb (fun hs => Bool.noConfusion hs)
            (Or.inl (fun g r hgr => by rw [← (List.cons.inj hgr).1]; rfl))
          intro g hg
          rcases List.mem_cons.mp hg with rfl | hg
          · trivial
          · exact hrestOK g hg
        · rw [if_neg h44]
          by_cases h93 : c = 93
          · rw [if_pos h93]
            exact popParseState_inv _ _ rest _ _ _ _ _ hrest hrestOK trivial
          · rw [if_neg h93]
            exact herr

/-- One more byte for the string automaton. -/
theorem strRun_snoc {lit : Bytes} {st st1 : Step} {c : Nat}
    (h : strRun .InString lit = some st) (hc : strStep st c = some st1) :
    strRun .InString (lit ++ [c]) = some st1 := by
  rw [strRun_append, h]
  simp [strRun, hc]

/-- A move between states outside strings, while no key is expected, keeps the
invariant. -/
theorem move_inv (s : Scanner) (h : s.inv) (hk : s.step.keyStep = false)
    (st : Step) (err endTop : Bool) (l : Bytes) (d : Option JValue)
    (hst : st.inStr = false) (hd : doneOK d) :
    Scanner.inv ⟨st, s.parseState, err, endTop, l, d⟩ :=
  KeyInv.build h.frames hd h.below (fun hs => by rw [hst] at hs; exact Bool.noConfusion hs)
    (Or.inl (h.top_not_key hk))

/-- A move between string states keeps the invariant. -/
theorem string_inv (s : Scanner) (h : s.inv) (st : Step) (err endTop : Bool) (l : Bytes)
    (hin : st.inStr = true) (hrun : strRun .InString l = some st) :
    Scanner.inv ⟨st, s.parseState, err, endTop, l, s.done⟩ :=
  KeyInv.build h.frames h.done h.below (fun _ => hrun)
    (Or.inr ⟨by cases st <;> first | rfl | exact Bool.noConfusion hin,
      fun he => by
        have he1 : st = .EndValue := he
        rw [he1] at hin
        exact Bool.noConfusion hin⟩)

/-- `pushParseState` keeps the invariant when no key is expected and the new entry
opens an empty container. -/
theorem pushParseState_inv (s : Scanner) (h : s.inv) (hk : s.step.keyStep = false)
    (st : Step) (f : Frame) (code : Code) (hfok : f.ok)
    (hst : st.inStr = false)
    (htop : f.isKey = true → st.keyStep = true ∧ st ≠ .EndValue) :
    (Scanner.pushParseState { s with step := st } f code).2.inv := by
  obtain ⟨step, ps, err, endTop, lit, done⟩ := s
  have hnk := h.top_not_key hk
  have hf : ∀ g ∈ f :: ps, g.ok := by
    intro g hg
    rcases List.mem_cons.mp hg with rfl | hg
    · exact hfok
    · exact h.frames g hg
  have hb : ∀ g ∈ (f :: ps).tail, g.isKey = false := by
    intro g hg
    rcases ps with _ | ⟨p, rest⟩
    · simp at hg
    · rcases List.mem_cons.mp hg with rfl | hg
      · exact hnk _ rest rfl
      · exact h.below g (by simpa using hg)
  unfold Scanner.pushParseState
  simp only
  split_ifs
  · refine KeyInv.build hf h.done hb (fun hs => by rw [hst] at hs; exact Bool.noConfusion hs) ?_
    cases hfk : f.isKey with
    | false => exact Or.inl (fun g r hgr => by rw [← (List.cons.inj hgr).1]; exact hfk)
    | true => exact Or.inr ⟨(htop hfk).1, fun he => absurd he (htop hfk).2⟩
  · exact error_inv ⟨st, f :: ps, err, endTop, lit, done⟩ hf h.done hb

/-- `stateBeginValue` keeps the invariant. -/
theorem stateBeginValue_inv (s : Scanner) (c : Nat) (h : s.inv)
    (hk : s.step.keyStep = false) : (stateBeginValue s c).2.inv := by
  unfold stateBeginValue
  by_cases h1 : isSpace c = true
  · rw [if_pos h1]; exact h
  rw [if_neg h1]
  by_cases h2 : c = 123
  · rw [if_pos h2]
    exact pushParseState_inv s h hk .BeginStringOrEmpty (.parseObjectKey []) _
      (fun m hm => absurd hm (List.not_mem_nil m)) rfl
      (fun _ => ⟨rfl, fun he => Step.noConfusion he⟩)
  rw [if_neg h2]
  by_cases h3 : c = 91
  · rw [if_pos h3]
    exact pushParseState_inv s h hk .BeginValueOrEmpty (.parseArrayValue []) _ trivial rfl
      (fun hf => Bool.noConfusion hf)
  rw [if_neg h3]
  by_cases h4 : c = 34
  · rw [if_pos h4]
    exact KeyInv.build h.frames h.done h.below (fun _ => rfl) (Or.inl (h.top_not_key hk))
  rw [if_neg h4]
  by_cases h5 : c = 45
  · rw [if_pos h5]; exact move_inv s h hk .Neg _ _ _ _ rfl h.done
  rw [if_neg h5]
  by_cases h6 : c = 48
  · rw [if_pos h6]; exact move_inv s h hk .S0 _ _ _ _ rfl h.done
  rw [if_neg h6]
  by_cases h7 : c = 116
  · rw [if_pos h7]; exact move_inv s h hk .T _ _ _ _ rfl h.done
  rw [if_neg h7]
  by_cases h8 : c = 102
  · rw [if_pos h8]; exact move_inv s h hk .F _ _ _ _ rfl h.done
  rw [if_neg h8]
  by_cases h9 : c = 110
  · rw [if_pos h9]; exact move_inv s h hk .N _ _ _ _ rfl h.done
  rw [if_neg h9]
  by_cases h10 : 49 ≤ c ∧ c ≤ 57
  · rw [if_pos h10]; exact move_inv s h hk .S1 _ _ _ _ rfl h.done
  rw [if_neg h10]
  exact error_inv s h.frames h.done h.below

/-- `stateBeginValueOrEmpty` keeps the invariant. -/
theorem stateBeginValueOrEmpty_inv (s : Scanner) (c : Nat) (h : s.inv)
    (hk : s.step.keyStep = false) : (stateBeginValueOrEmpty s c).2.inv := by
  unfold stateBeginValueOrEmpty
  split_ifs
  · exact h
  · exact stateEndValue_inv s c h.frames h.done h.below
      (fun f rest hps hf => by
        rw [h.top_not_key hk f rest hps] at hf; exact Bool.noConfusion hf)
  · exact stateBeginValue_inv s c h hk

/-- `stateBeginString` keeps the invariant. -/
theorem stateBeginString_inv (s : Scanner) (c : Nat) (h : s.inv) :
    (stateBeginString s c).2.inv := by
  unfold stateBeginString
  split_ifs
  · exact h
  · exact KeyInv.build h.frames h.done h.below (fun _ => rfl)
      (Or.inr ⟨rfl, fun he => Step.noConfusion he⟩)
  · exact error_inv s h.frames h.done h.below

/-- `stateBeginStringOrEmpty` keeps the invariant. -/
theorem stateBeginStringOrEmpty_inv (s : Scanner) (c : Nat) (h : s.inv) :
    (stateBeginStringOrEmpty s c).2.inv := by
  obtain ⟨step, ps, err, endTop, lit, done⟩ := s
  unfold stateBeginStringOrEmpty
  split_ifs
  · exact h
  · rcases ps with _ | ⟨f, rest⟩
    · exact stateEndValue_inv _ c h.frames h.done h.below
        (fun g r hgr => List.noConfusion hgr)
    · cases f with
      | parseObjectKey ms =>
        refine stateEndValue_inv _ c ?_ h.done h.below
          (fun g r hgr hg => by
            rw [← (List.cons.inj hgr).1] at hg; exact Bool.noConfusion hg)
        intro g hg
        rcases List.mem_cons.mp hg with rfl | hg
        · exact ⟨h.frames _ (List.mem_cons_self _ _), rfl⟩
        · exact h.frames g (List.mem_cons_of_mem _ hg)
      | parseObjectValue ms key =>
        exact stateEndValue_inv _ c h.frames h.done h.below
          (fun g r hgr hg => by
            rw [← (List.cons.inj hgr).1] at hg; exact Bool.noConfusion hg)
      | parseArrayValue es =>
        exact stateEndValue_inv _ c h.frames h.done h.below
          (fun g r hgr hg => by
            rw [← (List.cons.inj hgr).1] at hg; exact Bool.noConfusion hg)
  · exact stateBeginString_inv _ c h

/-- `stateInString` keeps the invariant. -/
theorem stateInString_inv (s : Scanner) (c : Nat) (h : s.inv) (hs : s.step = .InString) :
    (stateInString s c).2.inv := by
  obtain ⟨step, ps, err, endTop, lit, done⟩ := s
  simp only at hs
  subst hs
  have hrun : strRun .InString lit = some .InString := h.str rfl
  unfold stateInString
  split_ifs with h34 h92 h32
  · exact KeyInv.build h.frames trivial h.below (fun hs => Bool.noConfusion hs)
      (Or.inr ⟨rfl, fun _ => hrun⟩)
  · have hc : strStep .InString c = some .InStringEsc := by simp [strStep, h92]
    exact string_inv _ h .InStringEsc _ _ _ rfl (strRun_snoc hrun hc)
  · exact error_inv _ h.frames h.done h.below
  · have hc : strStep .InString c = some .InString := by simp [strStep, h34, h92, h32]
    exact string_inv _ h .InString _ _ _ rfl (strRun_snoc hrun hc)

/-- `stateInStringEsc` keeps the invariant. -/
theorem stateInStringEsc_inv (s : Scanner) (c : Nat) (h : s.inv) (hs : s.step = .InStringEsc) :
    (stateInStringEsc s c).2.inv := by
  have hrun : strRun .InString s.lit = some .InStringEsc := by
    have := h.str (by rw [hs]; rfl)
    rw [hs] at this
    exact this
  unfold stateInStringEsc
  split_ifs with hesc hu
  · have hb : isEscByte c = true := by
      simp only [isEscByte, Bool.or_eq_true, decide_eq_true_eq]; omega
    have hc : strStep .InStringEsc c = some .InString := by simp [strStep, hb]
    exact string_inv s h .InString _ _ _ rfl (strRun_snoc hrun hc)
  · have hc : strStep .InStringEsc c = some .InStringEscU := by subst hu; rfl
    exact string_inv s h .InStringEscU _ _ _ rfl (strRun_snoc hrun hc)
  · exact error_inv s h.frames h.done h.below

/-- The four hexadecimal states of a `\u` escape keep the invariant. -/
theorem stateInStringEscHex_inv (s : Scanner) (c : Nat) (next : Step) (h : s.inv)
    (hnext : next.inStr = true)
    (hstep : isHex c = true → strStep s.step c = some next)
    (hin : s.step.inStr = true) :
    (stateInStringEscHex next s c).2.inv := by
  have hrun := h.str hin
  unfold stateInStringEscHex
  split_ifs with hx
  · exact string_inv s h next _ _ _ hnext (strRun_snoc hrun (hstep hx))
  · exact error_inv s h.frames h.done h.below

/-- The number states finish through `stateEndValue` with the number as the value. -/
theorem numberEnd_inv (s : Scanner) (c : Nat) (h : s.inv) (hk : s.step.keyStep = false) :
    (stateEndValue { s with done := some (.number s.lit) } c).2.inv :=
  stateEndValue_inv _ c h.frames trivial h.below
    (fun f rest hps hf => by
      rw [h.top_not_key hk f rest hps] at hf; exact Bool.noConfusion hf)

/-- `state0` keeps the invariant. -/
theorem state0_inv (s : Scanner) (c : Nat) (h : s.inv) (hk : s.step.keyStep = false) :
    (state0 s c).2.inv := by
  unfold state0
  split_ifs
  · exact move_inv s h hk _ _ _ _ _ rfl h.done
  · exact move_inv s h hk _ _ _ _ _ rfl h.done
  · exact numberEnd_inv s c h hk

/-- `state1` keeps the invariant. -/
theorem state1_inv (s : Scanner) (c : Nat) (h : s.inv) (hk : s.step.keyStep = false) :
    (state1 s c).2.inv := by
  unfold state1
  split_ifs
  · exact move_inv s h hk _ _ _ _ _ rfl h.done
  · exact state0_inv s c h hk

/-- `stateNeg` keeps the invariant. -/
theorem stateNeg_inv (s : Scanner) (c : Nat) (h : s.inv) (hk : s.step.keyStep = false) :
    (stateNeg s c).2.inv := by
  unfold stateNeg
  split_ifs
  · exact move_inv s h hk _ _ _ _ _ rfl h.done
  · exact move_inv s h hk _ _ _ _ _ rfl h.done
  · exact error_inv s h.frames h.done h.below

/-- `stateDot` keeps the invariant. -/
theorem stateDot_inv (s : Scanner) (c : Nat) (h : s.inv) (hk : s.step.keyStep = false) :
    (stateDot s c).2.inv := by
  unfold stateDot
  split_ifs
  · exact move_inv s h hk _ _ _ _ _ rfl h.done
  · exact error_inv s h.frames h.done h.below

/-- `stateDot0` keeps the invariant. -/
theorem stateDot0_inv (s : Scanner) (c : Nat) (h : s.inv) (hk : s.step.keyStep = false)
    (hs : s.step.inStr = false) : (stateDot0 s c).2.inv := by
  unfold stateDot0
  split_ifs
  · exact move_inv s h hk _ _ _ _ _ hs h.done
  · exact move_inv s h hk _ _ _ _ _ rfl h.done
  · exact numberEnd_inv s c h hk

/-- `stateESign` keeps the invariant. -/
theorem stateESign_inv (s : Scanner) (c : Nat) (h : s.inv) (hk : s.step.keyStep = false) :
    (stateESign s c).2.inv := by
  unfold stateESign
  split_ifs
  · exact move_inv s h hk _ _ _ _ _ rfl h.done
  · exact error_inv s h.frames h.done h.below

/-- `stateE` keeps the invariant. -/
theorem stateE_inv (s : Scanner) (c : Nat) (h : s.inv) (hk : s.step.keyStep = false) :
    (stateE s c).2.inv := by
  unfold stateE
  split_ifs
  · exact move_inv s h hk _ _ _ _ _ rfl h.done
  · exact stateESign_inv s c h hk

/-- `stateE0` keeps the invariant. -/
theorem stateE0_inv (s : Scanner) (c : Nat) (h : s.inv) (hk : s.step.keyStep = false)
    (hs : s.step.inStr = false) : (stateE0 s c).2.inv := by
  unfold stateE0
  split_ifs
  · exact move_inv s h hk _ _ _ _ _ hs h.done
  · exact numberEnd_inv s c h hk

/-- The letter states of `true`, `false` and `null` keep the invariant. -/
theorem stateLetter_inv (s : Scanner) (c want : Nat) (next : Step) (h : s.inv)
    (hk : s.step.keyStep = false) (hnext : next.inStr = false) :
    (stateLetter want next s c).2.inv := by
  unfold stateLetter
  split_ifs
  · exact move_inv s h hk _ _ _ _ _ hnext h.done
  · exact error_inv s h.frames h.done h.below

/-- The last letter of `true`, `false` and `null` keeps the invariant. -/
theorem stateLast_inv (s : Scanner) (c want : Nat) (v : JValue) (h : s.inv)
    (hk : s.step.keyStep = false) (hv : doneOK (some v)) :
    (stateLast want v s c).2.inv := by
  unfold stateLast
  split_ifs
  · exact move_inv s h hk _ _ _ _ _ rfl hv
  · exact error_inv s h.frames h.done h.below

/-- Every scanner step keeps the invariant. -/
theorem doStep_inv (s : Scanner) (c : Nat) (h : s.inv) : (s.doStep c).2.inv := by
  unfold Scanner.doStep
  cases hs : s.step with
  | BeginValueOrEmpty => exact stateBeginValueOrEmpty_inv s c h (by rw [hs]; rfl)
  | BeginValue => exact stateBeginValue_inv s c h (by rw [hs]; rfl)
  | BeginStringOrEmpty => exact stateBeginStringOrEmpty_inv s c h
  | BeginString => exact stateBeginString_inv s c h
  | EndValue =>
    exact stateEndValue_inv s c h.frames h.done h.below
      (fun f rest hps hf => (h.top f rest hps hf).2 hs)
  | EndTop => exact stateEndTop_inv s c h
  | InString => exact stateInString_inv s c h hs
  | InStringEsc => exact stateInStringEsc_inv s c h hs
  | InStringEscU =>
    exact stateInStringEscHex_inv s c _ h rfl (fun hx => by simp [hs, strStep, hx])
      (by rw [hs]; rfl)
  | InStringEscU1 =>
    exact stateInStringEscHex_inv s c _ h rfl (fun hx => by simp [hs, strStep, hx])
      (by rw [hs]; rfl)
  | InStringEscU12 =>
    exact stateInStringEscHex_inv s c _ h rfl (fun hx => by simp [hs, strStep, hx])
      (by rw [hs]; rfl)
  | InStringEscU123 =>
    exact stateInStringEscHex_inv s c _ h rfl (fun hx => by simp [hs, strStep, hx])
      (by rw [hs]; rfl)
  | Neg => exact stateNeg_inv s c h (by rw [hs]; rfl)
  | S1 => exact state1_inv s c h (by rw [hs]; rfl)
  | S0 => exact state0_inv s c h (by rw [hs]; rfl)
  | Dot => exact stateDot_inv s c h (by rw [hs]; rfl)
  | Dot0 => exact stateDot0_inv s c h (by rw [hs]; rfl) (by rw [hs]; rfl)
  | E => exact stateE_inv s c h (by rw [hs]; rfl)
  | ESign => exact stateESign_inv s c h (by rw [hs]; rfl)
  | E0 => exact stateE0_inv s c h (by rw [hs]; rfl) (by rw [hs]; rfl)
  | T => exact stateLetter_inv s c _ _ h (by rw [hs]; rfl) rfl
  | Tr => exact stateLetter_inv s c _ _ h (by rw [hs]; rfl) rfl
  | Tru => exact stateLast_inv s c _ _ h (by rw [hs]; rfl) trivial
  | F => exact stateLetter_inv s c _ _ h (by rw [hs]; rfl) rfl
  | Fa => exact stateLetter_inv s c _ _ h (by rw [hs]; rfl) rfl
  | Fal => exact stateLetter_inv s c _ _ h (by rw [hs]; rfl) rfl
  | Fals => exact stateLast_inv s c _ _ h (by rw [hs]; rfl) trivial
  | N => exact stateLetter_inv s c _ _ h (by rw [hs]; rfl) rfl
  | Nu => exact stateLetter_inv s c _ _ h (by rw [hs]; rfl) rfl
  | Nul => exact stateLast_inv s c _ _ h (by rw [hs]; rfl) trivial
  | Error => exact h

/-- The scanner starts in a state that satisfies the invariant. -/
theorem reset_inv : Scanner.reset.inv :=
  KeyInv.build (fun f hf => absurd hf (List.not_mem_nil f)) trivial
    (fun f hf => absurd hf (List.not_mem_nil f)) (fun hs => Bool.noConfusion hs)
    (Or.inl (fun _ _ h => List.noConfusion h))

/-- Scanning keeps the invariant. -/
theorem scanLoop_inv (data : Bytes) : ∀ (s s1 : Scanner), s.inv → scanLoop s data = some s1 →
    s1.inv := by
  induction data with
  | nil =>
    intro s s1 h hs
    simp only [scanLoop, Option.some.injEq] at hs
    rw [← hs]
    exact h
  | cons c cs ih =>
    intro s s1 h hs
    simp only [scanLoop] at hs
    split_ifs at hs
    exact ih _ s1 (doStep_inv s c h) hs

theorem IsWs_nil : IsWs [] := fun c hc => absurd hc (List.not_mem_nil c)

theorem isSpace_iff (c : Nat) : isSpace c = true ↔ (c = 32 ∨ c = 9 ∨ c = 10 ∨ c = 13) := by
  simp only [isSpace, Bool.or_eq_true, decide_eq_true_eq]
  omega

theorem IsWs_snoc {w : Bytes} {c : Nat} (hw : IsWs w) (hc : isSpace c = true) :
    IsWs (w ++ [c]) := by
  intro x hx
  rcases List.mem_append.mp hx with hx | hx
  · exact hw x hx
  · have hxc : x = c := by simpa using hx
    rw [hxc]
    exact (isSpace_iff c).mp hc

theorem AllDigits_nil : AllDigits [] := fun c hc => absurd hc (List.not_mem_nil c)

theorem AllDigits_snoc {ds : Bytes} {c : Nat} (hd : AllDigits ds) (hc : isDigit c = true) :
    AllDigits (ds ++ [c]) := by
  intro x hx
  rcases List.mem_append.mp hx with hx | hx
  · exact hd x hx
  · have hxc : x = c := by simpa using hx
    rw [hxc]
    simpa [isDigit] using hc

/-- Adding a completed element to the elements of an open array. -/
theorem elems_extend {es : List JValue} {tb : Bytes} {v : JValue} {t : Bytes}
    (hb : ElemsBefore es tb) (hv : RendersElem v t) : RendersElems (es ++ [v]) (tb ++ t) := by
  rcases hb with ⟨rfl, rfl⟩ | ⟨te, hte, rfl⟩
  · exact RendersElems.one v t hv
  · have := RendersElems.snoc es te v t hte hv
    simpa using this

/-- Adding a completed member to the members of an open object. -/
theorem members_extend {ms : List (Bytes × JValue)} {tb : Bytes} {m : Bytes × JValue}
    {t : Bytes} (hb : MembersBefore ms tb) (hm : RendersMember m t) :
    RendersMembers (ms ++ [m]) (tb ++ t) := by
  rcases hb with ⟨rfl, rfl⟩ | ⟨tm, htm, rfl⟩
  · exact RendersMembers.one m t hm
  · have := RendersMembers.snoc ms tm m t htm hm
    simpa using this

/-- There is no empty list of rendered elements. -/
theorem RendersElems_ne_nil {es : List JValue} {t : Bytes} (h : RendersElems es t) :
    es ≠ [] := by
  cases h with
  | one v t _ => simp
  | snoc es te v t _ _ => simp

/-- There is no empty list of rendered members. -/
theorem RendersMembers_ne_nil {ms : List (Bytes × JValue)} {t : Bytes}
    (h : RendersMembers ms t) : ms ≠ [] := by
  cases h with
  | one m t _ => simp
  | snoc ms tm m t _ _ => simp

/-- What the string automaton accepts from a state is made of the rest of the escape in
progress and then whole characters. -/
theorem IsStringBody_of_strRun (n : Nat) : ∀ raw : Bytes, raw.length < n →
    strRun .InString raw = some .InString → IsStringBody raw := by
  induction n with
  | zero => intro raw h; omega
  | succ n ih =>
    intro raw hlen hrun
    rcases raw with _ | ⟨c, rest⟩
    · exact IsStringBody.nil
    · have hl : rest.length < n := by simpa using hlen
      by_cases hc : c = 92
      · subst hc
        rcases rest with _ | ⟨e, rest2⟩
        · simp [strRun, strStep] at hrun
        · have hl2 : rest2.length < n := by simp at hl; omega
          by_cases he : isEscByte e = true
          · have hr2 : strRun .InString rest2 = some .InString := by
              simpa [strRun, strStep, he] using hrun
            refine IsStringBody.esc e rest2 ?_ (ih rest2 hl2 hr2)
            simp only [isEscByte, Bool.or_eq_true, decide_eq_true_eq] at he
            omega
          · have he' : isEscByte e = false := by simpa using he
            by_cases hu : e = 117
            · subst hu
              have hr2 : strRun .InStringEscU rest2 = some .InString := by
                simpa [strRun, strStep, isEscByte] using hrun
              obtain ⟨a, b, x, d, rest3, rfl, ha, hb, hx, hd, hr3⟩ := strRun_escU hr2
              exact IsStringBody.uni a b x d rest3 ha hb hx hd
                (ih rest3 (by simp at hl2; omega) hr3)
            · simp [strRun, strStep, he', hu] at hrun
      · by_cases h34 : c = 34
        · simp [strRun, strStep, h34] at hrun
        · by_cases h32 : c < 32
          · simp [strRun, strStep, h34, hc, h32] at hrun
          · have hr : strRun .InString rest = some .InString := by
              simpa [strRun, strStep, h34, hc, h32] using hrun
            exact IsStringBody.plain c rest (by omega) h34 hc (ih rest hl hr)

/-- A string literal the scanner accepts is a string of the grammar. -/
theorem IsStringBody_of_WellEscaped {raw : Bytes} (h : WellEscaped raw) : IsStringBody raw :=
  IsStringBody_of_strRun (raw.length + 1) raw (by omega) h

/-! ## The scanner accounts for what it reads -/

/-- An error raised while `endTop` is not set leaves a good state. -/
theorem good_error (x : Scanner) (p : Bytes) (h : x.endTop = false) : Good x.error.2 p :=
  Or.inl ⟨rfl, rfl, fun he => by simp [Scanner.error, h] at he⟩

/-- More whitespace after an element. -/
theorem RendersElem_snoc {v : JValue} {p : Bytes} {c : Nat} (h : RendersElem v p)
    (hc : isSpace c = true) : RendersElem v (p ++ [c]) := by
  cases h with
  | mk v w1 tv w2 hw1 hr hw2 =>
    have := RendersElem.mk v w1 tv (w2 ++ [c]) hw1 hr (IsWs_snoc hw2 hc)
    simpa using this

/-- `stateEndTop` after a complete top-level value. -/
theorem stateEndTop_track (lit : Bytes) (v : JValue) (c : Nat) (p : Bytes)
    (hr : RendersElem v p) :
    Good (stateEndTop ⟨.EndTop, [], false, true, lit, some v⟩ c).2 (p ++ [c]) := by
  unfold stateEndTop
  by_cases hsp : isSpace c = true
  · rw [if_neg (by simp [hsp])]
    refine Or.inr ⟨rfl, ?_⟩
    unfold Track
    dsimp only
    exact ⟨by simp, v, rfl, rfl, RendersElem_snoc hr hsp⟩
  · rw [if_pos (by simp [hsp])]
    exact Or.inl ⟨rfl, rfl, fun _ => ⟨p, c, rfl, by simpa using hsp⟩⟩

/-- `popParseState` after the closing bracket of a container whose text is `tv`. -/
theorem popParseState_track (st : Step) (f : Frame) (rest : List Frame) (lit : Bytes)
    (dn : Option JValue) (v : JValue) (t0 w0 tv p : Bytes)
    (hstack : StackText rest t0) (hw0 : IsWs w0) (hr : Renders v tv)
    (hp : p = t0 ++ (w0 ++ tv))
    (hrest : ∀ g ∈ rest, g.isKey = false) :
    Good (Scanner.popParseState ⟨st, f :: rest, false, false, lit, dn⟩ v) p := by
  unfold Scanner.popParseState
  simp only [List.tail_cons]
  by_cases hlen : rest.length = 0
  · rw [if_pos hlen]
    have hnil : rest = [] := List.length_eq_zero.mp hlen
    subst hnil
    have ht0 : t0 = [] := hstack
    subst ht0
    refine Or.inr ⟨rfl, ?_⟩
    unfold Track
    dsimp only
    refine ⟨by simp, v, rfl, rfl, ?_⟩
    have := RendersElem.mk v w0 tv [] hw0 hr IsWs_nil
    simpa [hp] using this
  · rw [if_neg hlen]
    refine Or.inr ⟨rfl, ?_⟩
    unfold Track
    dsimp only
    refine ⟨by simp, v, tv, t0, w0, [], rfl, hstack, hw0, hr, IsWs_nil, by simp [hp], ?_⟩
    intro ms r hmr
    have := hrest (.parseObjectKey ms) (by simp [hmr])
    exact absurd this (by simp [Frame.isKey])

/-- `stateEndValue` after a complete value `v` whose text is `tv`. -/
theorem stateEndValue_track (st : Step) (ps : List Frame) (lit : Bytes) (c : Nat)
    (p : Bytes) (v : JValue) (tv t w1 w2 : Bytes)
    (hstack : StackText ps t) (hw1 : IsWs w1) (hr : Renders v tv) (hw2 : IsWs w2)
    (hp : p = t ++ (w1 ++ (tv ++ w2)))
    (hkey : ∀ ms rest, ps = .parseObjectKey ms :: rest →
      tv = 34 :: (lit ++ [34]) ∧ IsStringBody lit)
    (hbelow : ∀ f ∈ ps.tail, f.isKey = false) :
    Good (stateEndValue ⟨st, ps, false, false, lit, some v⟩ c).2 (p ++ [c]) := by
  subst hp
  have helem : RendersElem v (w1 ++ (tv ++ w2)) := RendersElem.mk v w1 tv w2 hw1 hr hw2
  unfold stateEndValue
  rcases ps with _ | ⟨f, rest⟩
  · have ht : t = [] := hstack
    subst ht
    dsimp only
    exact stateEndTop_track lit v c _ (by simpa using helem)
  · obtain ⟨t0, w0, tf, hrest, hw0, hf, rfl⟩ := hstack
    have hrestk : ∀ g ∈ rest, g.isKey = false := fun g hg => hbelow g (by simpa using hg)
    dsimp only
    by_cases hsp : isSpace c = true
    · rw [if_pos hsp]
      refine Or.inr ⟨rfl, ?_⟩
      unfold Track
      dsimp only
      exact ⟨by simp, v, tv, _, w1, w2 ++ [c], rfl, ⟨t0, w0, tf, hrest, hw0, hf, rfl⟩, hw1, hr,
        IsWs_snoc hw2 hsp, by simp, hkey⟩
    · rw [if_neg hsp]
      cases f with
      | parseObjectKey ms =>
        obtain ⟨tb, hmb, rfl⟩ := hf
        obtain ⟨htv, hbody⟩ := hkey ms rest rfl
        subst htv
        dsimp only
        by_cases h58 : c = 58
        · rw [if_pos h58]
          subst h58
          refine Or.inr ⟨rfl, ?_⟩
          unfold Track
          dsimp only
          refine ⟨by simp, rfl, _, [], ⟨t0, w0, _, hrest, hw0,
            ⟨tb, w1, w2, hmb, hw1, hbody, hw2, rfl⟩, rfl⟩, IsWs_nil, ?_⟩
          simp
        · rw [if_neg h58]
          exact good_error _ _ rfl
      | parseObjectValue ms key =>
        obtain ⟨tb, wk1, wk2, hmb, hwk1, hkbody, hwk2, rfl⟩ := hf
        have hmem : RendersMember (key, v)
            (wk1 ++ (34 :: (key ++ 34 :: (wk2 ++ 58 :: (w1 ++ (tv ++ w2)))))) :=
          RendersMember.mk key v wk1 wk2 _ hwk1 hkbody hwk2 helem
        have hms := members_extend hmb hmem
        have hatt : attach ms key (some v) = ms ++ [(key, v)] := by simp [attach]
        dsimp only
        by_cases h44 : c = 44
        · rw [if_pos h44]
          subst h44
          refine Or.inr ⟨rfl, ?_⟩
          unfold Track
          dsimp only
          rw [hatt]
          refine ⟨by simp, rfl, _, [], ⟨t0, w0, _, hrest, hw0,
            ⟨_, Or.inr ⟨_, hms, rfl⟩, rfl⟩, rfl⟩, IsWs_nil, ?_⟩
          simp
        · rw [if_neg h44]
          by_cases h125 : c = 125
          · rw [if_pos h125]
            subst h125
            rw [hatt]
            refine popParseState_track _ _ rest _ _ _ t0 w0 _ _ hrest hw0
              (Renders.object _ _ hms) ?_ hrestk
            simp
          · rw [if_neg h125]
            exact good_error _ _ rfl
      | parseArrayValue es =>
        obtain ⟨tb, heb, rfl⟩ := hf
        have hes := elems_extend heb helem
        dsimp only
        by_cases h44 : c = 44
        · rw [if_pos h44]
          subst h44
          refine Or.inr ⟨rfl, ?_⟩
          unfold Track
          dsimp only
          refine ⟨by simp, rfl, _, [], ⟨t0, w0, _, hrest, hw0,
            ⟨_, Or.inr ⟨_, hes, rfl⟩, rfl⟩, rfl⟩, IsWs_nil, ?_⟩
          simp
        · rw [if_neg h44]
          by_cases h93 : c = 93
          · rw [if_pos h93]
            subst h93
            refine popParseState_track _ _ rest _ _ _ t0 w0 _ _ hrest hw0
              (Renders.array _ _ hes) ?_ hrestk
            simp
          · rw [if_neg h93]
            exact good_error _ _ rfl

/-- A number state accounts for the bytes read when its literal is the number so far. -/
theorem track_num (st : Step) (ps : List Frame) (lit : Bytes) (dn : Option JValue)
    (p t w : Bytes) (hstack : StackText ps t) (hw : IsWs w) (hp : p = t ++ (w ++ lit))
    (hnum : NumPartial st lit) : Good ⟨st, ps, false, false, lit, dn⟩ p := by
  refine Or.inr ⟨rfl, ?_⟩
  cases st <;> first
    | exact False.elim hnum
    | (unfold Track; dsimp only; exact ⟨by simp, t, w, hstack, hw, hp, hnum⟩)

/-- A name state accounts for the bytes read when its literal is the name so far. -/
theorem track_name (st : Step) (ps : List Frame) (lit : Bytes) (dn : Option JValue)
    (p t w : Bytes) (hstack : StackText ps t) (hw : IsWs w) (hp : p = t ++ (w ++ lit))
    (hname : NamePartial st lit) : Good ⟨st, ps, false, false, lit, dn⟩ p := by
  refine Or.inr ⟨rfl, ?_⟩
  cases st <;> first
    | exact False.elim hname
    | (unfold Track; dsimp only; exact ⟨by simp, t, w, hstack, hw, hp, hname⟩)

/-- A string state accounts for the bytes read when its literal is the string so far. -/
theorem track_string (st : Step) (ps : List Frame) (lit : Bytes) (dn : Option JValue)
    (p t w : Bytes) (hstack : StackText ps t) (hw : IsWs w) (hp : p = t ++ (w ++ 34 :: lit))
    (hin : st.inStr = true) : Good ⟨st, ps, false, false, lit, dn⟩ p := by
  refine Or.inr ⟨rfl, ?_⟩
  cases st <;> first
    | exact Bool.noConfusion hin
    | (unfold Track; dsimp only; exact ⟨by simp, t, w, hstack, hw, hp⟩)

/-- A complete number followed by the byte `c`. -/
theorem numberEnd_track (st : Step) (ps : List Frame) (lit : Bytes) (dn : Option JValue)
    (c : Nat) (p t w : Bytes) (hstack : StackText ps t) (hw : IsWs w)
    (hp : p = t ++ (w ++ lit)) (hnum : IsNumber lit)
    (hnk : ∀ f rest, ps = f :: rest → f.isKey = false)
    (hbelow : ∀ f ∈ ps.tail, f.isKey = false) :
    Good (stateEndValue { (⟨st, ps, false, false, lit, dn⟩ : Scanner) with
      done := some (.number lit) } c).2 (p ++ [c]) := by
  refine stateEndValue_track st ps lit c p (.number lit) lit t w [] hstack hw
    (Renders.number lit hnum) IsWs_nil (by simp [hp]) ?_ hbelow
  intro ms rest hps
  have := hnk _ rest hps
  exact absurd this (by simp [Frame.isKey])

/-- `state0` accounts for the bytes read. -/
theorem state0_track (st : Step) (ps : List Frame) (lit : Bytes) (dn : Option JValue)
    (c : Nat) (p t w : Bytes) (hstack : StackText ps t) (hw : IsWs w)
    (hp : p = t ++ (w ++ lit))
    (hint : ∃ sg i, (sg = [] ∨ sg = [45]) ∧ IsInt i ∧ lit = sg ++ i)
    (hnk : ∀ f rest, ps = f :: rest → f.isKey = false)
    (hbelow : ∀ f ∈ ps.tail, f.isKey = false) :
    Good (state0 ⟨st, ps, false, false, lit, dn⟩ c).2 (p ++ [c]) := by
  obtain ⟨sg, i, hsg, hi, rfl⟩ := hint
  unfold state0
  by_cases h46 : c = 46
  · rw [if_pos h46]
    subst h46
    exact track_num .Dot ps _ dn _ t w hstack hw (by simp [hp]) ⟨sg, i, hsg, hi, by simp⟩
  · rw [if_neg h46]
    by_cases he : c = 101 ∨ c = 69
    · rw [if_pos he]
      exact track_num .E ps _ dn _ t w hstack hw (by simp [hp])
        ⟨sg, i, [], c, hsg, hi, Or.inl rfl, he, by simp⟩
    · rw [if_neg he]
      exact numberEnd_track st ps _ dn c p t w hstack hw hp
        ⟨sg, i, [], [], by simp, hsg, hi, Or.inl rfl, Or.inl rfl⟩ hnk hbelow

/-- `state1` accounts for the bytes read. -/
theorem state1_track (ps : List Frame) (lit : Bytes) (dn : Option JValue)
    (c : Nat) (p t w : Bytes) (hstack : StackText ps t) (hw : IsWs w)
    (hp : p = t ++ (w ++ lit)) (hnum : NumPartial .S1 lit)
    (hnk : ∀ f rest, ps = f :: rest → f.isKey = false)
    (hbelow : ∀ f ∈ ps.tail, f.isKey = false) :
    Good (state1 ⟨.S1, ps, false, false, lit, dn⟩ c).2 (p ++ [c]) := by
  obtain ⟨sg, d, ds, hsg, hd1, hd2, hds, rfl⟩ := hnum
  unfold state1
  by_cases hdg : isDigit c = true
  · rw [if_pos hdg]
    exact track_num .S1 ps _ dn _ t w hstack hw (by simp [hp])
      ⟨sg, d, ds ++ [c], hsg, hd1, hd2, AllDigits_snoc hds hdg, by simp⟩
  · rw [if_neg hdg]
    exact state0_track .S1 ps _ dn c p t w hstack hw hp
      ⟨sg, d :: ds, hsg, Or.inr ⟨d, ds, rfl, hd1, hd2, hds⟩, rfl⟩ hnk hbelow

/-- `stateNeg` accounts for the bytes read. -/
theorem stateNeg_track (ps : List Frame) (lit : Bytes) (dn : Option JValue)
    (c : Nat) (p t w : Bytes) (hstack : StackText ps t) (hw : IsWs w)
    (hp : p = t ++ (w ++ lit)) (hnum : NumPartial .Neg lit) :
    Good (stateNeg ⟨.Neg, ps, false, false, lit, dn⟩ c).2 (p ++ [c]) := by
  have hlit : lit = [45] := hnum
  subst hlit
  unfold stateNeg
  by_cases h48 : c = 48
  · rw [if_pos h48]
    subst h48
    exact track_num .S0 ps _ dn _ t w hstack hw (by simp [hp]) ⟨[45], Or.inr rfl, rfl⟩
  · rw [if_neg h48]
    by_cases h19 : 49 ≤ c ∧ c ≤ 57
    · rw [if_pos h19]
      exact track_num .S1 ps _ dn _ t w hstack hw (by simp [hp])
        ⟨[45], c, [], Or.inr rfl, h19.1, h19.2, AllDigits_nil, rfl⟩
    · rw [if_neg h19]
      exact good_error _ _ rfl

/-- `stateDot` accounts for the bytes read. -/
theorem stateDot_track (ps : List Frame) (lit : Bytes) (dn : Option JValue)
    (c : Nat) (p t w : Bytes) (hstack : StackText ps t) (hw : IsWs w)
    (hp : p = t ++ (w ++ lit)) (hnum : NumPartial .Dot lit) :
    Good (stateDot ⟨.Dot, ps, false, false, lit, dn⟩ c).2 (p ++ [c]) := by
  obtain ⟨sg, i, hsg, hi, rfl⟩ := hnum
  unfold stateDot
  by_cases hdg : isDigit c = true
  · rw [if_pos hdg]
    exact track_num .Dot0 ps _ dn _ t w hstack hw (by simp [hp])
      ⟨sg, i, [c], hsg, hi, by simp, AllDigits_snoc AllDigits_nil hdg, by simp⟩
  · rw [if_neg hdg]
    exact good_error _ _ rfl

/-- `stateDot0` accounts for the bytes read. -/
theorem stateDot0_track (ps : List Frame) (lit : Bytes) (dn : Option JValue)
    (c : Nat) (p t w : Bytes) (hstack : StackText ps t) (hw : IsWs w)
    (hp : p = t ++ (w ++ lit)) (hnum : NumPartial .Dot0 lit)
    (hnk : ∀ f rest, ps = f :: rest → f.isKey = false)
    (hbelow : ∀ f ∈ ps.tail, f.isKey = false) :
    Good (stateDot0 ⟨.Dot0, ps, false, false, lit, dn⟩ c).2 (p ++ [c]) := by
  obtain ⟨sg, i, ds, hsg, hi, hne, hds, rfl⟩ := hnum
  unfold stateDot0
  by_cases hdg : isDigit c = true
  · rw [if_pos hdg]
    exact track_num .Dot0 ps _ dn _ t w hstack hw (by simp [hp])
      ⟨sg, i, ds ++ [c], hsg, hi, by simp, AllDigits_snoc hds hdg, by simp⟩
  · rw [if_neg hdg]
    by_cases he : c = 101 ∨ c = 69
    · rw [if_pos he]
      exact track_num .E ps _ dn _ t w hstack hw (by simp [hp])
        ⟨sg, i, 46 :: ds, c, hsg, hi, Or.inr ⟨ds, rfl, hne, hds⟩, he, by simp⟩
    · rw [if_neg he]
      exact numberEnd_track .Dot0 ps _ dn c p t w hstack hw hp
        ⟨sg, i, 46 :: ds, [], by simp, hsg, hi, Or.inr ⟨ds, rfl, hne, hds⟩, Or.inl rfl⟩
        hnk hbelow

/-- `stateESign` accounts for the bytes read. -/
theorem stateESign_track (st : Step) (ps : List Frame) (lit : Bytes) (dn : Option JValue)
    (c : Nat) (p t w : Bytes) (hstack : StackText ps t) (hw : IsWs w)
    (hp : p = t ++ (w ++ lit))
    (hhead : ∃ sg i f c0 sx, (sg = [] ∨ sg = [45]) ∧ IsInt i ∧ IsFrac f ∧
      (c0 = 101 ∨ c0 = 69) ∧ IsExpSign sx ∧ lit = sg ++ (i ++ (f ++ c0 :: sx))) :
    Good (stateESign ⟨st, ps, false, false, lit, dn⟩ c).2 (p ++ [c]) := by
  obtain ⟨sg, i, f, c0, sx, hsg, hi, hf, hc0, hsx, rfl⟩ := hhead
  unfold stateESign
  by_cases hdg : isDigit c = true
  · rw [if_pos hdg]
    exact track_num .E0 ps _ dn _ t w hstack hw (by simp [hp])
      ⟨sg, i, f, c0, sx, [c], hsg, hi, hf, hc0, hsx, by simp,
        AllDigits_snoc AllDigits_nil hdg, by simp⟩
  · rw [if_neg hdg]
    exact good_error _ _ rfl

/-- `stateE` accounts for the bytes read. -/
theorem stateE_track (ps : List Frame) (lit : Bytes) (dn : Option JValue)
    (c : Nat) (p t w : Bytes) (hstack : StackText ps t) (hw : IsWs w)
    (hp : p = t ++ (w ++ lit)) (hnum : NumPartial .E lit) :
    Good (stateE ⟨.E, ps, false, false, lit, dn⟩ c).2 (p ++ [c]) := by
  obtain ⟨sg, i, f, c0, hsg, hi, hf, hc0, rfl⟩ := hnum
  unfold stateE
  by_cases hs : c = 43 ∨ c = 45
  · rw [if_pos hs]
    exact track_num .ESign ps _ dn _ t w hstack hw (by simp [hp])
      ⟨sg, i, f, c0, c, hsg, hi, hf, hc0, hs, by simp⟩
  · rw [if_neg hs]
    exact stateESign_track .E ps _ dn c p t w hstack hw hp
      ⟨sg, i, f, c0, [], hsg, hi, hf, hc0, Or.inl rfl, rfl⟩

/-- `stateE0` accounts for the bytes read. -/
theorem stateE0_track (ps : List Frame) (lit : Bytes) (dn : Option JValue)
    (c : Nat) (p t w : Bytes) (hstack : StackText ps t) (hw : IsWs w)
    (hp : p = t ++ (w ++ lit)) (hnum : NumPartial .E0 lit)
    (hnk : ∀ f rest, ps = f :: rest → f.isKey = false)
    (hbelow : ∀ f ∈ ps.tail, f.isKey = false) :
    Good (stateE0 ⟨.E0, ps, false, false, lit, dn⟩ c).2 (p ++ [c]) := by
  obtain ⟨sg, i, f, c0, sx, ds, hsg, hi, hf, hc0, hsx, hne, hds, rfl⟩ := hnum
  unfold stateE0
  by_cases hdg : isDigit c = true
  · rw [if_pos hdg]
    exact track_num .E0 ps _ dn _ t w hstack hw (by simp [hp])
      ⟨sg, i, f, c0, sx, ds ++ [c], hsg, hi, hf, hc0, hsx, by simp,
        AllDigits_snoc hds hdg, by simp⟩
  · rw [if_neg hdg]
    exact numberEnd_track .E0 ps _ dn c p t w hstack hw hp
      ⟨sg, i, f, c0 :: (sx ++ ds), rfl, hsg, hi, hf, Or.inr ⟨c0, sx, ds, rfl, hc0, hsx, hne, hds⟩⟩
      hnk hbelow

/-- `stateInString` accounts for the bytes read. -/
theorem stateInString_track (ps : List Frame) (lit : Bytes) (dn : Option JValue)
    (c : Nat) (p t w : Bytes) (hstack : StackText ps t) (hw : IsWs w)
    (hp : p = t ++ (w ++ 34 :: lit)) (hbody : IsStringBody lit) :
    Good (stateInString ⟨.InString, ps, false, false, lit, dn⟩ c).2 (p ++ [c]) := by
  unfold stateInString
  by_cases h34 : c = 34
  · rw [if_pos h34]
    subst h34
    refine Or.inr ⟨rfl, ?_⟩
    unfold Track
    dsimp only
    exact ⟨by simp, .string lit, 34 :: (lit ++ [34]), t, w, [], rfl, hstack, hw,
      Renders.string lit hbody, IsWs_nil, by simp [hp], fun _ _ _ => ⟨rfl, hbody⟩⟩
  · rw [if_neg h34]
    by_cases h92 : c = 92
    · rw [if_pos h92]
      exact track_string .InStringEsc ps _ dn _ t w hstack hw (by simp [hp]) rfl
    · rw [if_neg h92]
      by_cases h32 : c < 32
      · rw [if_pos h32]
        exact good_error _ _ rfl
      · rw [if_neg h32]
        exact track_string .InString ps _ dn _ t w hstack hw (by simp [hp]) rfl

/-- `stateInStringEsc` accounts for the bytes read. -/
theorem stateInStringEsc_track (ps : List Frame) (lit : Bytes) (dn : Option JValue)
    (c : Nat) (p t w : Bytes) (hstack : StackText ps t) (hw : IsWs w)
    (hp : p = t ++ (w ++ 34 :: lit)) :
    Good (stateInStringEsc ⟨.InStringEsc, ps, false, false, lit, dn⟩ c).2 (p ++ [c]) := by
  unfold stateInStringEsc
  by_cases he : c = 98 ∨ c = 102 ∨ c = 110 ∨ c = 114 ∨ c = 116 ∨ c = 92 ∨ c = 47 ∨ c = 34
  · rw [if_pos he]
    exact track_string .InString ps _ dn _ t w hstack hw (by simp [hp]) rfl
  · rw [if_neg he]
    by_cases hu : c = 117
    · rw [if_pos hu]
      exact track_string .InStringEscU ps _ dn _ t w hstack hw (by simp [hp]) rfl
    · rw [if_neg hu]
      exact good_error _ _ rfl

/-- `stateInStringEscU` and its successors account for the bytes read. -/
theorem stateInStringEscHex_track (st next : Step) (ps : List Frame) (lit : Bytes)
    (dn : Option JValue) (c : Nat) (p t w : Bytes) (hstack : StackText ps t) (hw : IsWs w)
    (hp : p = t ++ (w ++ 34 :: lit)) (hnext : next.inStr = true) :
    Good (stateInStringEscHex next ⟨st, ps, false, false, lit, dn⟩ c).2 (p ++ [c]) := by
  unfold stateInStringEscHex
  by_cases hx : isHex c = true
  · rw [if_pos hx]
    exact track_string next ps _ dn _ t w hstack hw (by simp [hp]) hnext
  · rw [if_neg hx]
    exact good_error _ _ rfl

/-- `stateT` and the other inner letters of a name account for the bytes read. -/
theorem stateLetter_track (st next : Step) (want : Nat) (ps : List Frame) (lit : Bytes)
    (dn : Option JValue) (c : Nat) (p t w : Bytes) (hstack : StackText ps t) (hw : IsWs w)
    (hp : p = t ++ (w ++ lit)) (hnext : NamePartial next (lit ++ [want])) :
    Good (stateLetter want next ⟨st, ps, false, false, lit, dn⟩ c).2 (p ++ [c]) := by
  unfold stateLetter
  by_cases hc : c = want
  · rw [if_pos hc]
    subst hc
    exact track_name next ps _ dn _ t w hstack hw (by simp [hp]) hnext
  · rw [if_neg hc]
    exact good_error _ _ rfl

/-- `stateTru`, `stateFals` and `stateNul` account for the bytes read. -/
theorem stateLast_track (st : Step) (want : Nat) (v : JValue) (ps : List Frame) (lit : Bytes)
    (dn : Option JValue) (c : Nat) (p t w : Bytes) (hstack : StackText ps t) (hw : IsWs w)
    (hp : p = t ++ (w ++ lit)) (hr : Renders v (lit ++ [want]))
    (hnk : ∀ f rest, ps = f :: rest → f.isKey = false) :
    Good (stateLast want v ⟨st, ps, false, false, lit, dn⟩ c).2 (p ++ [c]) := by
  unfold stateLast
  by_cases hc : c = want
  · rw [if_pos hc]
    subst hc
    refine Or.inr ⟨rfl, ?_⟩
    unfold Track
    dsimp only
    refine ⟨by simp, v, lit ++ [c], t, w, [], rfl, hstack, hw, hr, IsWs_nil, by simp [hp], ?_⟩
    intro ms rest hps
    have := hnk _ rest hps
    exact absurd this (by simp [Frame.isKey])
  · rw [if_neg hc]
    exact good_error _ _ rfl

/-- `stateBeginString` on a byte that is not whitespace. -/
theorem stateBeginString_track (st : Step) (ps : List Frame) (lit : Bytes)
    (dn : Option JValue) (c : Nat) (p t w : Bytes) (hstack : StackText ps t) (hw : IsWs w)
    (hp : p = t ++ w) (hsp : isSpace c = false) :
    Good (stateBeginString ⟨st, ps, false, false, lit, dn⟩ c).2 (p ++ [c]) := by
  unfold stateBeginString
  rw [if_neg (by simp [hsp])]
  by_cases h34 : c = 34
  · rw [if_pos h34]
    subst h34
    exact track_string .InString ps _ dn _ t w hstack hw (by simp [hp]) rfl
  · rw [if_neg h34]
    exact good_error _ _ rfl

/-- `stateBeginValue` on a byte that is not whitespace. -/
theorem stateBeginValue_track (st : Step) (ps : List Frame) (lit : Bytes)
    (c : Nat) (p t w : Bytes) (hstack : StackText ps t) (hw : IsWs w)
    (hp : p = t ++ w) (hsp : isSpace c = false) :
    Good (stateBeginValue ⟨st, ps, false, false, lit, none⟩ c).2 (p ++ [c]) := by
  unfold stateBeginValue
  rw [if_neg (by simp [hsp])]
  by_cases h123 : c = 123
  · rw [if_pos h123]
    subst h123
    unfold Scanner.pushParseState
    dsimp only
    by_cases hlen : (Frame.parseObjectKey [] :: ps).length ≤ maxNestingDepth
    · rw [if_pos hlen]
      refine Or.inr ⟨rfl, ?_⟩
      unfold Track
      dsimp only
      exact ⟨by simp, rfl, ⟨ps, rfl⟩, t ++ (w ++ [123]), [],
        ⟨t, w, [123], hstack, hw, ⟨[], Or.inl ⟨rfl, rfl⟩, rfl⟩, rfl⟩, IsWs_nil, by simp [hp]⟩
    · rw [if_neg hlen]
      exact good_error _ _ rfl
  · rw [if_neg h123]
    by_cases h91 : c = 91
    · rw [if_pos h91]
      subst h91
      unfold Scanner.pushParseState
      dsimp only
      by_cases hlen : (Frame.parseArrayValue [] :: ps).length ≤ maxNestingDepth
      · rw [if_pos hlen]
        refine Or.inr ⟨rfl, ?_⟩
        unfold Track
        dsimp only
        exact ⟨by simp, rfl, ⟨ps, rfl⟩, t ++ (w ++ [91]), [],
          ⟨t, w, [91], hstack, hw, ⟨[], Or.inl ⟨rfl, rfl⟩, rfl⟩, rfl⟩, IsWs_nil, by simp [hp]⟩
      · rw [if_neg hlen]
        exact good_error _ _ rfl
    · rw [if_neg h91]
      by_cases h34 : c = 34
      · rw [if_pos h34]
        subst h34
        exact track_string .InString ps _ none _ t w hstack hw (by simp [hp]) rfl
      · rw [if_neg h34]
        by_cases h45 : c = 45
        · rw [if_pos h45]
          subst h45
          exact track_num .Neg ps _ none _ t w hstack hw (by simp [hp]) rfl
        · rw [if_neg h45]
          by_cases h48 : c = 48
          · rw [if_pos h48]
            subst h48
            exact track_num .S0 ps _ none _ t w hstack hw (by simp [hp]) ⟨[], Or.inl rfl, rfl⟩
          · rw [if_neg h48]
            by_cases h116 : c = 116
            · rw [if_pos h116]
              subst h116
              exact track_name .T ps _ none _ t w hstack hw (by simp [hp]) rfl
            · rw [if_neg h116]
              by_cases h102 : c = 102
              · rw [if_pos h102]
                subst h102
                exact track_name .F ps _ none _ t w hstack hw (by simp [hp]) rfl
              · rw [if_neg h102]
                by_cases h110 : c = 110
                · rw [if_pos h110]
                  subst h110
                  exact track_name .N ps _ none _ t w hstack hw (by simp [hp]) rfl
                · rw [if_neg h110]
                  by_cases h19 : 49 ≤ c ∧ c ≤ 57
                  · rw [if_pos h19]
                    exact track_num .S1 ps _ none _ t w hstack hw (by simp [hp])
                      ⟨[], c, [], Or.inl rfl, h19.1, h19.2, AllDigits_nil, rfl⟩
                  · rw [if_neg h19]
                    exact good_error _ _ rfl

/-- Whitespace before a value is expected. -/
theorem skip_track (s : Scanner) (c : Nat) (p : Bytes) (herr : s.err = false)
    (ht : Track s p) (hsp : isSpace c = true)
    (hst : s.step = .BeginValue ∨ s.step = .BeginString ∨ s.step = .BeginValueOrEmpty ∨
      s.step = .BeginStringOrEmpty) : Good s (p ++ [c]) := by
  obtain ⟨step, ps, err, endTop, lit, done⟩ := s
  refine Or.inr ⟨herr, ?_⟩
  dsimp only at hst
  rcases hst with h | h | h | h <;> subst h
  · unfold Track at ht ⊢
    dsimp only at ht ⊢
    obtain ⟨h1, hd, t, w, hstack, hw, rfl⟩ := ht
    exact ⟨h1, hd, t, w ++ [c], hstack, IsWs_snoc hw hsp, by simp⟩
  · unfold Track at ht ⊢
    dsimp only at ht ⊢
    obtain ⟨h1, hd, t, w, hstack, hw, rfl⟩ := ht
    exact ⟨h1, hd, t, w ++ [c], hstack, IsWs_snoc hw hsp, by simp⟩
  · unfold Track at ht ⊢
    dsimp only at ht ⊢
    obtain ⟨h1, hd, hps, t, w, hstack, hw, rfl⟩ := ht
    exact ⟨h1, hd, hps, t, w ++ [c], hstack, IsWs_snoc hw hsp, by simp⟩
  · unfold Track at ht ⊢
    dsimp only at ht ⊢
    obtain ⟨h1, hd, hps, t, w, hstack, hw, rfl⟩ := ht
    exact ⟨h1, hd, hps, t, w ++ [c], hstack, IsWs_snoc hw hsp, by simp⟩

/-- The closing bracket of an empty array. -/
theorem emptyArray_track (st : Step) (rest : List Frame) (lit : Bytes) (p t w : Bytes)
    (hstack : StackText (.parseArrayValue [] :: rest) t) (hw : IsWs w) (hp : p = t ++ w)
    (hrest : ∀ g ∈ rest, g.isKey = false) :
    Good (stateEndValue ⟨st, .parseArrayValue [] :: rest, false, false, lit, none⟩ 93).2
      (p ++ [93]) := by
  obtain ⟨t0, w0, tf, hst0, hw0, ⟨tb, hb, rfl⟩, rfl⟩ := hstack
  have htb : tb = [] := by
    rcases hb with ⟨_, h⟩ | ⟨te, hte, _⟩
    · exact h
    · exact absurd rfl (RendersElems_ne_nil hte)
  subst htb
  have hstep : (stateEndValue ⟨st, .parseArrayValue [] :: rest, false, false, lit, none⟩ 93).2 =
      Scanner.popParseState ⟨st, .parseArrayValue [] :: rest, false, false, lit, none⟩
        (.array []) := by
    simp [stateEndValue, isSpace]
  rw [hstep]
  exact popParseState_track st _ rest lit none (.array []) t0 w0 (91 :: (w ++ [93])) _
    hst0 hw0 (Renders.emptyArray w hw) (by simp [hp]) hrest

/-- The closing brace of an empty object. -/
theorem emptyObject_track (st : Step) (rest : List Frame) (lit : Bytes) (p t w : Bytes)
    (hstack : StackText (.parseObjectKey [] :: rest) t) (hw : IsWs w) (hp : p = t ++ w)
    (hrest : ∀ g ∈ rest, g.isKey = false) :
    Good (stateEndValue ⟨st, .parseObjectValue [] [] :: rest, false, false, lit, none⟩ 125).2
      (p ++ [125]) := by
  obtain ⟨t0, w0, tf, hst0, hw0, ⟨tb, hb, rfl⟩, rfl⟩ := hstack
  have htb : tb = [] := by
    rcases hb with ⟨_, h⟩ | ⟨te, hte, _⟩
    · exact h
    · exact absurd rfl (RendersMembers_ne_nil hte)
  subst htb
  have hstep : (stateEndValue ⟨st, .parseObjectValue [] [] :: rest, false, false, lit, none⟩
      125).2 =
      Scanner.popParseState ⟨st, .parseObjectValue [] [] :: rest, false, false, lit, none⟩
        (.object []) := by
    simp [stateEndValue, isSpace, attach]
  rw [hstep]
  exact popParseState_track st _ rest lit none (.object []) t0 w0 (123 :: (w ++ [125])) _
    hst0 hw0 (Renders.emptyObject w hw) (by simp [hp]) hrest

/-- One step of the scanner from a state that accounts for the bytes read. -/
theorem doStep_good (s : Scanner) (c : Nat) (p : Bytes) (hinv : s.inv) (herr : s.err = false)
    (ht : Track s p) : Good (s.doStep c).2 (p ++ [c]) := by
  by_cases hsk : isSpace c = true ∧ (s.step = .BeginValue ∨ s.step = .BeginString ∨
      s.step = .BeginValueOrEmpty ∨ s.step = .BeginStringOrEmpty)
  · have hsame : (s.doStep c).2 = s := by
      obtain ⟨hsp, h | h | h | h⟩ := hsk <;>
        simp [Scanner.doStep, h, stateBeginValue, stateBeginString, stateBeginValueOrEmpty,
          stateBeginStringOrEmpty, hsp]
    rw [hsame]
    exact skip_track s c p herr ht hsk.1 hsk.2
  · obtain ⟨step, ps, err, endTop, lit, done⟩ := s
    dsimp only at herr hsk
    subst herr
    have hbelow : ∀ f ∈ ps.tail, f.isKey = false := hinv.below
    have hend : step ≠ .EndTop → endTop = false := by
      intro hne
      cases hE : endTop with
      | false => rfl
      | true => exact absurd (ht.1.mp hE) hne
    cases step with
    | BeginValue =>
      have hsp : isSpace c = false := by
        cases h : isSpace c with
        | false => rfl
        | true => exact absurd ⟨h, Or.inl rfl⟩ hsk
      have he := hend (by simp)
      subst he
      unfold Track at ht
      dsimp only at ht
      obtain ⟨-, hd, t, w, hstack, hw, hp⟩ := ht
      subst hd
      exact stateBeginValue_track _ ps lit c p t w hstack hw hp hsp
    | BeginString =>
      have hsp : isSpace c = false := by
        cases h : isSpace c with
        | false => rfl
        | true => exact absurd ⟨h, Or.inr (Or.inl rfl)⟩ hsk
      have he := hend (by simp)
      subst he
      unfold Track at ht
      dsimp only at ht
      obtain ⟨-, hd, t, w, hstack, hw, hp⟩ := ht
      exact stateBeginString_track _ ps lit done c p t w hstack hw hp hsp
    | BeginValueOrEmpty =>
      have hsp : isSpace c = false := by
        cases h : isSpace c with
        | false => rfl
        | true => exact absurd ⟨h, Or.inr (Or.inr (Or.inl rfl))⟩ hsk
      have he := hend (by simp)
      subst he
      unfold Track at ht
      dsimp only at ht
      obtain ⟨-, hd, ⟨rest, hps⟩, t, w, hstack, hw, hp⟩ := ht
      subst hd
      subst hps
      show Good (stateBeginValueOrEmpty _ c).2 _
      unfold stateBeginValueOrEmpty
      rw [if_neg (by simp [hsp])]
      by_cases h93 : c = 93
      · rw [if_pos h93]
        subst h93
        exact emptyArray_track _ rest lit p t w hstack hw hp
          (fun g hg => hbelow g (by simpa using hg))
      · rw [if_neg h93]
        exact stateBeginValue_track _ _ lit c p t w hstack hw hp hsp
    | BeginStringOrEmpty =>
      have hsp : isSpace c = false := by
        cases h : isSpace c with
        | false => rfl
        | true => exact absurd ⟨h, Or.inr (Or.inr (Or.inr rfl))⟩ hsk
      have he := hend (by simp)
      subst he
      unfold Track at ht
      dsimp only at ht
      obtain ⟨-, hd, ⟨rest, hps⟩, t, w, hstack, hw, hp⟩ := ht
      subst hd
      subst hps
      show Good (stateBeginStringOrEmpty _ c).2 _
      unfold stateBeginStringOrEmpty
      rw [if_neg (by simp [hsp])]
      by_cases h125 : c = 125
      · rw [if_pos h125]
        subst h125
        exact emptyObject_track _ rest lit p t w hstack hw hp
          (fun g hg => hbelow g (by simpa using hg))
      · rw [if_neg h125]
        exact stateBeginString_track _ _ lit none c p t w hstack hw hp hsp
    | EndValue =>
      have he := hend (by simp)
      subst he
      unfold Track at ht
      dsimp only at ht
      obtain ⟨-, v, tv, t, w1, w2, hd, hstack, hw1, hr, hw2, hp, hkey⟩ := ht
      subst hd
      exact stateEndValue_track _ ps lit c p v tv t w1 w2 hstack hw1 hr hw2 hp hkey hbelow
    | EndTop =>
      have hE : endTop = true := ht.1.mpr rfl
      subst hE
      unfold Track at ht
      dsimp only at ht
      obtain ⟨-, v, hd, hps, hr⟩ := ht
      subst hd
      subst hps
      exact stateEndTop_track lit v c p hr
    | InString =>
      have he := hend (by simp)
      subst he
      unfold Track at ht
      dsimp only at ht
      obtain ⟨-, t, w, hstack, hw, hp⟩ := ht
      exact stateInString_track ps lit done c p t w hstack hw hp
        (IsStringBody_of_WellEscaped (hinv.str rfl))
    | InStringEsc =>
      have he := hend (by simp)
      subst he
      unfold Track at ht
      dsimp only at ht
      obtain ⟨-, t, w, hstack, hw, hp⟩ := ht
      exact stateInStringEsc_track ps lit done c p t w hstack hw hp
    | InStringEscU =>
      have he := hend (by simp)
      subst he
      unfold Track at ht
      dsimp only at ht
      obtain ⟨-, t, w, hstack, hw, hp⟩ := ht
      exact stateInStringEscHex_track _ .InStringEscU1 ps lit done c p t w hstack hw hp rfl
    | InStringEscU1 =>
      have he := hend (by simp)
      subst he
      unfold Track at ht
      dsimp only at ht
      obtain ⟨-, t, w, hstack, hw, hp⟩ := ht
      exact stateInStringEscHex_track _ .InStringEscU12 ps lit done c p t w hstack hw hp rfl
    | InStringEscU12 =>
      have he := hend (by simp)
      subst he
      unfold Track at ht
      dsimp only at ht
      obtain ⟨-, t, w, hstack, hw, hp⟩ := ht
      exact stateInStringEscHex_track _ .InStringEscU123 ps lit done c p t w hstack hw hp rfl
    | InStringEscU123 =>
      have he := hend (by simp)
      subst he
      unfold Track at ht
      dsimp only at ht
      obtain ⟨-, t, w, hstack, hw, hp⟩ := ht
      exact stateInStringEscHex_track _ .InString ps lit done c p t w hstack hw hp rfl
    | Neg =>
      have he := hend (by simp)
      subst he
      unfold Track at ht
      dsimp only at ht
      obtain ⟨-, t, w, hstack, hw, hp, hn⟩ := ht
      exact stateNeg_track ps lit done c p t w hstack hw hp hn
    | S1 =>
      have he := hend (by simp)
      subst he
      unfold Track at ht
      dsimp only at ht
      obtain ⟨-, t, w, hstack, hw, hp, hn⟩ := ht
      exact state1_track ps lit done c p t w hstack hw hp hn (hinv.top_not_key rfl) hbelow
    | S0 =>
      have he := hend (by simp)
      subst he
      unfold Track at ht
      dsimp only at ht
      obtain ⟨-, t, w, hstack, hw, hp, sg, hsg, hl⟩ := ht
      exact state0_track _ ps lit done c p t w hstack hw hp
        ⟨sg, [48], hsg, Or.inl rfl, hl⟩ (hinv.top_not_key rfl) hbelow
    | Dot =>
      have he := hend (by simp)
      subst he
      unfold Track at ht
      dsimp only at ht
      obtain ⟨-, t, w, hstack, hw, hp, hn⟩ := ht
      exact stateDot_track ps lit done c p t w hstack hw hp hn
    | Dot0 =>
      have he := hend (by simp)
      subst he
      unfold Track at ht
      dsimp only at ht
      obtain ⟨-, t, w, hstack, hw, hp, hn⟩ := ht
      exact stateDot0_track ps lit done c p t w hstack hw hp hn (hinv.top_not_key rfl) hbelow
    | E =>
      have he := hend (by simp)
      subst he
      unfold Track at ht
      dsimp only at ht
      obtain ⟨-, t, w, hstack, hw, hp, hn⟩ := ht
      exact stateE_track ps lit done c p t w hstack hw hp hn
    | ESign =>
      have he := hend (by simp)
      subst he
      unfold Track at ht
      dsimp only at ht
      obtain ⟨-, t, w, hstack, hw, hp, sg, i, f, c0, x, hsg, hi, hf, hc0, hx, hl⟩ := ht
      exact stateESign_track _ ps lit done c p t w hstack hw hp
        ⟨sg, i, f, c0, [x], hsg, hi, hf, hc0,
          hx.elim (fun h => Or.inr (Or.inl (by rw [h]))) (fun h => Or.inr (Or.inr (by rw [h]))),
          hl⟩
    | E0 =>
      have he := hend (by simp)
      subst he
      unfold Track at ht
      dsimp only at ht
      obtain ⟨-, t, w, hstack, hw, hp, hn⟩ := ht
      exact stateE0_track ps lit done c p t w hstack hw hp hn (hinv.top_not_key rfl) hbelow
    | T =>
      have he := hend (by simp)
      subst he
      unfold Track at ht
      dsimp only at ht
      obtain ⟨-, t, w, hstack, hw, hp, hn⟩ := ht
      have hl : lit = [116] := hn
      subst hl
      exact stateLetter_track _ .Tr 114 ps _ done c p t w hstack hw hp rfl
    | Tr =>
      have he := hend (by simp)
      subst he
      unfold Track at ht
      dsimp only at ht
      obtain ⟨-, t, w, hstack, hw, hp, hn⟩ := ht
      have hl : lit = [116, 114] := hn
      subst hl
      exact stateLetter_track _ .Tru 117 ps _ done c p t w hstack hw hp rfl
    | Tru =>
      have he := hend (by simp)
      subst he
      unfold Track at ht
      dsimp only at ht
      obtain ⟨-, t, w, hstack, hw, hp, hn⟩ := ht
      have hl : lit = [116, 114, 117] := hn
      subst hl
      exact stateLast_track _ 101 (.bool true) ps _ done c p t w hstack hw hp Renders.litTrue
        (hinv.top_not_key rfl)
    | F =>
      have he := hend (by simp)
      subst he
      unfold Track at ht
      dsimp only at ht
      obtain ⟨-, t, w, hstack, hw, hp, hn⟩ := ht
      have hl : lit = [102] := hn
      subst hl
      exact stateLetter_track _ .Fa 97 ps _ done c p t w hstack hw hp rfl
    | Fa =>
      have he := hend (by simp)
      subst he
      unfold Track at ht
      dsimp only at ht
      obtain ⟨-, t, w, hstack, hw, hp, hn⟩ := ht
      have hl : lit = [102, 97] := hn
      subst hl
      exact stateLetter_track _ .Fal 108 ps _ done c p t w hstack hw hp rfl
    | Fal =>
      have he := hend (by simp)
      subst he
      unfold Track at ht
      dsimp only at ht
      obtain ⟨-, t, w, hstack, hw, hp, hn⟩ := ht
      have hl : lit = [102, 97, 108] := hn
      subst hl
      exact stateLetter_track _ .Fals 115 ps _ done c p t w hstack hw hp rfl
    | Fals =>
      have he := hend (by simp)
      subst he
      unfold Track at ht
      dsimp only at ht
      obtain ⟨-, t, w, hstack, hw, hp, hn⟩ := ht
      have hl : lit = [102, 97, 108, 115] := hn
      subst hl
      exact stateLast_track _ 101 (.bool false) ps _ done c p t w hstack hw hp Renders.litFalse
        (hinv.top_not_key rfl)
    | N =>
      have he := hend (by simp)
      subst he
      unfold Track at ht
      dsimp only at ht
      obtain ⟨-, t, w, hstack, hw, hp, hn⟩ := ht
      have hl : lit = [110] := hn
      subst hl
      exact stateLetter_track _ .Nu 117 ps _ done c p t w hstack hw hp rfl
    | Nu =>
      have he := hend (by simp)
      subst he
      unfold Track at ht
      dsimp only at ht
      obtain ⟨-, t, w, hstack, hw, hp, hn⟩ := ht
      have hl : lit = [110, 117] := hn
      subst hl
      exact stateLetter_track _ .Nul 108 ps _ done c p t w hstack hw hp rfl
    | Nul =>
      have he := hend (by simp)
      subst he
      unfold Track at ht
      dsimp only at ht
      obtain ⟨-, t, w, hstack, hw, hp, hn⟩ := ht
      have hl : lit = [110, 117, 108] := hn
      subst hl
      exact stateLast_track _ 108 .null ps _ done c p t w hstack hw hp Renders.litNull
        (hinv.top_not_key rfl)
    | Error => exact False.elim ht.2

/-- The byte loop keeps the account of the bytes read. -/
theorem scanLoop_good (data : Bytes) : ∀ (s s1 : Scanner) (p : Bytes), s.inv → Good s p →
    scanLoop s data = some s1 → Good s1 (p ++ data) := by
  induction data with
  | nil =>
    intro s s1 p _ hg h
    have hs : s = s1 := by simpa [scanLoop] using h
    rw [← hs]
    simpa using hg
  | cons c cs ih =>
    intro s s1 p hinv hg h
    rcases hg with ⟨_, hstep, _⟩ | ⟨herr, ht⟩
    · exfalso
      simp [scanLoop, Scanner.doStep, hstep] at h
    · have hnext := doStep_good s c p hinv herr ht
      have hinv1 := doStep_inv s c hinv
      simp only [scanLoop] at h
      split_ifs at h with hcode
      have := ih _ s1 (p ++ [c]) hinv1 hnext h
      simpa using this

/-- A list is empty or has a last element. -/
theorem snoc_cases (l : Bytes) : l = [] ∨ ∃ l0 b, l = l0 ++ [b] := by
  rcases List.eq_nil_or_concat l with h | ⟨l0, b, h⟩
  · exact Or.inl h
  · exact Or.inr ⟨l0, b, by simpa using h⟩

theorem EndsNonSpace.append (a : Bytes) {b : Bytes} (h : EndsNonSpace b) :
    EndsNonSpace (a ++ b) := by
  obtain ⟨t0, c, rfl, hc⟩ := h
  exact ⟨a ++ t0, c, by simp, hc⟩

theorem EndsNonSpace.cons (x : Nat) {b : Bytes} (h : EndsNonSpace b) :
    EndsNonSpace (x :: b) := EndsNonSpace.append [x] h

theorem EndsNonSpace.digits {ds : Bytes} (hne : ds ≠ []) (hd : AllDigits ds) :
    EndsNonSpace ds := by
  rcases snoc_cases ds with h | ⟨t0, c, h⟩
  · exact absurd h hne
  · subst h
    have hc := hd c (by simp)
    refine ⟨t0, c, rfl, ?_⟩
    cases hsp : isSpace c with
    | false => rfl
    | true =>
      have := (isSpace_iff c).mp hsp
      omega

theorem EndsNonSpace.int {i : Bytes} (h : IsInt i) : EndsNonSpace i := by
  rcases h with rfl | ⟨d, ds, rfl, hd1, hd2, hds⟩
  · exact ⟨[], 48, rfl, by decide⟩
  · refine EndsNonSpace.digits (by simp) ?_
    intro x hx
    rcases List.mem_cons.mp hx with rfl | hx
    · omega
    · exact hds x hx

theorem EndsNonSpace.number {t : Bytes} (h : IsNumber t) : EndsNonSpace t := by
  obtain ⟨sg, i, f, e, rfl, -, hi, hf, he⟩ := h
  refine EndsNonSpace.append sg ?_
  rcases he with rfl | ⟨c, sx, ds, rfl, -, -, hne, hds⟩
  · rcases hf with rfl | ⟨ds, rfl, hne, hds⟩
    · simpa using EndsNonSpace.int hi
    · simpa using EndsNonSpace.append i (EndsNonSpace.cons 46 (EndsNonSpace.digits hne hds))
  · exact EndsNonSpace.append i (EndsNonSpace.append f
      (EndsNonSpace.cons c (EndsNonSpace.append sx (EndsNonSpace.digits hne hds))))

/-- The text of a value does not end in whitespace. -/
theorem Renders.endsNonSpace {v : JValue} {t : Bytes} (h : Renders v t) : EndsNonSpace t := by
  cases h with
  | litNull => exact ⟨[110, 117, 108], 108, rfl, by decide⟩
  | litTrue => exact ⟨[116, 114, 117], 101, rfl, by decide⟩
  | litFalse => exact ⟨[102, 97, 108, 115], 101, rfl, by decide⟩
  | number t hn => exact EndsNonSpace.number hn
  | string raw _ => exact ⟨34 :: raw, 34, by simp, by decide⟩
  | emptyArray w _ => exact ⟨91 :: w, 93, by simp, by decide⟩
  | array es t _ => exact ⟨91 :: t, 93, by simp, by decide⟩
  | emptyObject w _ => exact ⟨123 :: w, 125, by simp, by decide⟩
  | object ms t _ => exact ⟨123 :: t, 125, by simp, by decide⟩

/-- A space read after the text of an element is not part of the element. -/
theorem RendersElem_unsnoc {v : JValue} {data : Bytes} (h : RendersElem v (data ++ [32])) :
    RendersElem v data := by
  generalize hq : data ++ [32] = q at h
  cases h with
  | mk v w1 tv w2 hw1 hr hw2 =>
    rcases snoc_cases w2 with h2 | ⟨w2a, x, h2⟩
    · exfalso
      subst h2
      obtain ⟨t0, c, rfl, hc⟩ := Renders.endsNonSpace hr
      have heq : data ++ [32] = (w1 ++ t0) ++ [c] := by simpa using hq
      have := (List.append_inj' heq rfl).2
      have hc32 : c = 32 := by simpa using this.symm
      subst hc32
      exact absurd hc (by decide)
    · subst h2
      have heq : data ++ [32] = (w1 ++ (tv ++ w2a)) ++ [x] := by simpa using hq
      have hd := (List.append_inj' heq rfl).1
      rw [hd]
      exact RendersElem.mk v w1 tv w2a hw1 hr (fun c hc => hw2 c (by simp [hc]))

/-- The scanner is sound: the bytes `checkValid` accepts are the text of the value it
returns. -/
theorem checkValid_sound (data : Bytes) (v : JValue) (h : checkValid data = some v) :
    IsJSONOf v data := by
  unfold checkValid at h
  cases hsl : scanLoop Scanner.reset data with
  | none => rw [hsl] at h; exact Option.noConfusion h
  | some s =>
    rw [hsl] at h
    have hinv : s.inv := scanLoop_inv data _ s reset_inv hsl
    have h0 : Good Scanner.reset [] := by
      refine Or.inr ⟨rfl, ?_⟩
      unfold Track
      exact ⟨by simp [Scanner.reset], rfl, [], [], rfl, IsWs_nil, rfl⟩
    have hg : Good s data := by simpa using scanLoop_good data _ s [] reset_inv h0 hsl
    obtain ⟨step, ps, err, endTop, lit, done⟩ := s
    unfold Scanner.eof at h
    simp only at h
    cases err with
    | true => simp at h
    | false =>
      have ht : Track ⟨step, ps, false, endTop, lit, done⟩ data := by
        rcases hg with ⟨he, _⟩ | ⟨_, ht⟩
        · exact Bool.noConfusion he
        · exact ht
      cases endTop with
      | true =>
        have hst : step = .EndTop := ht.1.mp rfl
        subst hst
        unfold Track at ht
        dsimp only at ht
        obtain ⟨-, v1, hd, -, hr⟩ := ht
        have hv : done = some v := by simpa using h
        rw [hd] at hv
        cases hv
        exact hr
      | false =>
        have hnext := doStep_good ⟨step, ps, false, false, lit, done⟩ 32 data hinv rfl ht
        generalize hs1 : (Scanner.doStep ⟨step, ps, false, false, lit, done⟩ 32).2 = s1
          at h hnext
        obtain ⟨step1, ps1, err1, endTop1, lit1, done1⟩ := s1
        cases endTop1 with
        | false => simp at h
        | true =>
          have hv : done1 = some v := by simpa using h
          rcases hnext with ⟨-, -, hlast⟩ | ⟨-, ht1⟩
          · exfalso
            obtain ⟨p0, c, heq, hc⟩ := hlast rfl
            have := (List.append_inj' heq rfl).2
            have hc32 : c = 32 := by simpa using this.symm
            subst hc32
            exact absurd hc (by decide)
          · have hst : step1 = .EndTop := ht1.1.mp rfl
            subst hst
            unfold Track at ht1
            dsimp only at ht1
            obtain ⟨-, v1, hd, -, hr⟩ := ht1
            rw [hd] at hv
            cases hv
            exact RendersElem_unsnoc hr

/-! ## Lemmas on decimal texts -/

/-- The digits read in base 10 continuing from `n`. -/
theorem decFold_cons (n c : Nat) (cs : Bytes) :
    (c :: cs).foldl (fun acc x => acc * 10 + (x - 48)) n =
      cs.foldl (fun acc x => acc * 10 + (x - 48)) (n * 10 + (c - 48)) := rfl

/-- When the base-10 loop of `ParseUint` ends without an error, the text is made of
digits and the result is the number they denote. -/
theorem parseUintLoop_dec (s : Bytes) : ∀ n, n < 2 ^ 64 →
    (parseUintLoop 10 ((2 ^ 64 - 1) / 10 + 1) (2 ^ 64 - 1) n s).2 = none →
    AllDigits s ∧ (parseUintLoop 10 ((2 ^ 64 - 1) / 10 + 1) (2 ^ 64 - 1) n s).1 =
      s.foldl (fun acc x => acc * 10 + (x - 48)) n := by
  induction s with
  | nil =>
    intro n _ _
    exact ⟨AllDigits_nil, rfl⟩
  | cons c cs ih =>
    intro n hn hok
    by_cases hc : 48 ≤ c ∧ c ≤ 57
    · by_cases hfit : n * 10 + (c - 48) < 2 ^ 64
      · have hstep := parseUintLoop_dec_step n (c - 48) cs (by omega) hfit
        have h48 : 48 + (c - 48) = c := by omega
        rw [h48] at hstep
        rw [hstep] at hok ⊢
        obtain ⟨hall, hval⟩ := ih _ hfit hok
        refine ⟨?_, by rw [hval, decFold_cons]⟩
        intro x hx
        rcases List.mem_cons.mp hx with rfl | hx
        · exact hc
        · exact hall x hx
      · exfalso
        rw [parseUintLoop] at hok
        rw [if_pos hc] at hok
        simp only at hok
        rw [if_neg (by omega)] at hok
        by_cases hcut : n ≥ (2 ^ 64 - 1) / 10 + 1
        · rw [if_pos hcut] at hok
          exact Option.noConfusion hok
        · rw [if_neg hcut] at hok
          have hmod0 : n * 10 % 2 ^ 64 = n * 10 := by norm_num at hcut ⊢; omega
          have hwrap : (n * 10 + (c - 48)) % 2 ^ 64 < n * 10 := by
            norm_num at hcut hfit ⊢; omega
          rw [hmod0, if_pos (Or.inl hwrap)] at hok
          exact Option.noConfusion hok
    · exfalso
      rw [parseUintLoop] at hok
      rw [if_neg hc] at hok
      by_cases hl : 97 ≤ lower c ∧ lower c ≤ 122
      · rw [if_pos hl] at hok
        simp only at hok
        rw [if_pos (by omega)] at hok
        exact Option.noConfusion hok
      · rw [if_neg hl] at hok
        exact Option.noConfusion hok

/-- A range error of the loop of `ParseUint` comes with the largest value. -/
theorem parseUintLoop_range (base cutoff maxVal : Nat) (s : Bytes) : ∀ n,
    (parseUintLoop base cutoff maxVal n s).2 = some .ErrRange →
    (parseUintLoop base cutoff maxVal n s).1 = maxVal := by
  induction s with
  | nil =>
    intro n h
    exact Option.noConfusion h
  | cons c cs ih =>
    intro n h
    rw [parseUintLoop] at h ⊢
    by_cases hc : 48 ≤ c ∧ c ≤ 57
    · rw [if_pos hc] at h ⊢
      simp only at h ⊢
      by_cases hb : c - 48 ≥ base
      · rw [if_pos hb] at h
        simp at h
      · rw [if_neg hb] at h ⊢
        by_cases hcut : n ≥ cutoff
        · rw [if_pos hcut]
        · rw [if_neg hcut] at h ⊢
          by_cases hw : (n * base % 2 ^ 64 + (c - 48)) % 2 ^ 64 < n * base % 2 ^ 64 ∨
              (n * base % 2 ^ 64 + (c - 48)) % 2 ^ 64 > maxVal
          · rw [if_pos hw]
          · rw [if_neg hw] at h ⊢
            exact ih _ h
    · rw [if_neg hc] at h ⊢
      by_cases hl : 97 ≤ lower c ∧ lower c ≤ 122
      · rw [if_pos hl] at h ⊢
        simp only at h ⊢
        by_cases hb : lower c - 97 + 10 ≥ base
        · rw [if_pos hb] at h
          simp at h
        · rw [if_neg hb] at h ⊢
          by_cases hcut : n ≥ cutoff
          · rw [if_pos hcut]
          · rw [if_neg hcut] at h ⊢
            by_cases hw : (n * base % 2 ^ 64 + (lower c - 97 + 10)) % 2 ^ 64 <
                n * base % 2 ^ 64 ∨
                (n * base % 2 ^ 64 + (lower c - 97 + 10)) % 2 ^ 64 > maxVal
            · rw [if_pos hw]
            · rw [if_neg hw] at h ⊢
              exact ih _ h
      · rw [if_neg hl] at h
        simp at h

/-- What `ParseUint(s, 10, 64)` accepts is a text of digits, and its value. -/
theorem ParseUint_dec (s : Bytes) (h : (ParseUint s 10 64).2 = none) :
    s ≠ [] ∧ AllDigits s ∧ (ParseUint s 10 64).1 = decValue s := by
  unfold ParseUint at h ⊢
  by_cases hs : s = []
  · rw [if_pos hs] at h
    exact Option.noConfusion h
  · rw [if_neg hs] at h ⊢
    rw [if_neg (by omega)] at h ⊢
    rw [if_neg (by omega)] at h ⊢
    exact ⟨hs, parseUintLoop_dec s 0 (by norm_num) h⟩

/-- A range error of `ParseUint(s, 10, 64)` comes with the largest value. -/
theorem ParseUint_range (s : Bytes) (h : (ParseUint s 10 64).2 = some .ErrRange) :
    (ParseUint s 10 64).1 = 2 ^ 64 - 1 := by
  unfold ParseUint at h ⊢
  by_cases hs : s = []
  · rw [if_pos hs] at h
    simp at h
  · rw [if_neg hs] at h ⊢
    rw [if_neg (by omega)] at h ⊢
    rw [if_neg (by omega)] at h ⊢
    exact parseUintLoop_range _ _ _ s 0 h

/-- The signed range check at the end of `ParseInt`. -/
theorem ParseInt_tail (c : Nat) (rest : Bytes)
    (h : (ParseInt (c :: rest) 10 64).2 = none) :
    (ParseUint (if c = 43 ∨ c = 45 then rest else c :: rest) 10 64).2 = none ∧
      (¬ c = 45 → (ParseUint (if c = 43 ∨ c = 45 then rest else c :: rest) 10 64).1 < 2 ^ 63) ∧
      (ParseUint (if c = 43 ∨ c = 45 then rest else c :: rest) 10 64).1 ≤ 2 ^ 63 := by
  unfold ParseInt at h
  simp only at h
  generalize hr : ParseUint (if c = 43 ∨ c = 45 then rest else c :: rest) 10 64 = r at h ⊢
  obtain ⟨val, e⟩ := r
  have hrange : e = some .ErrRange → val = 2 ^ 64 - 1 := by
    intro he
    have := ParseUint_range (if c = 43 ∨ c = 45 then rest else c :: rest)
      (by rw [hr]; exact he)
    rw [hr] at this
    exact this
  cases e with
  | some e =>
    exfalso
    cases e with
    | ErrRange =>
      have hv := hrange rfl
      subst hv
      simp only at h
      by_cases hneg : c = 45
      · simp [hneg] at h
      · simp [hneg] at h
    | ErrSyntax => simp at h
    | ErrBase => simp at h
    | ErrBitSize => simp at h
  | none =>
    simp only at h
    by_cases hneg : c = 45
    · simp only [hneg, decide_True, not_true_eq_false, false_and, if_false, true_and] at h
      by_cases hbig : val > 2 ^ (64 - 1)
      · rw [if_pos hbig] at h
        simp at h
      · refine ⟨rfl, fun hn => absurd hneg hn, ?_⟩
        norm_num at hbig ⊢
        omega
    · simp only [hneg, decide_False, not_false_eq_true, true_and, false_and, if_false] at h
      by_cases hbig : val ≥ 2 ^ (64 - 1)
      · rw [if_pos hbig] at h
        simp at h
      · refine ⟨rfl, fun _ => ?_, ?_⟩ <;>
        · norm_num at hbig ⊢
          omega

/-- A text `ParseInt(t, 10, 64)` accepts that does not start with a plus sign is the
text of an integer that fits an `int64`. -/
theorem ParseInt_ok_text (t : Bytes) (hplus : ∀ rest, t ≠ 43 :: rest)
    (h : (ParseInt t 10 64).2 = none) : IsInt64Text t := by
  cases t with
  | nil => simp [ParseInt] at h
  | cons c rest =>
    have h43 : ¬ c = 43 := fun hc => hplus rest (by rw [hc])
    obtain ⟨hok, hlt, hle⟩ := ParseInt_tail c rest h
    by_cases hneg : c = 45
    · subst hneg
      simp only [or_true, if_true] at hok hlt hle
      obtain ⟨hne, hall, hval⟩ := ParseUint_dec rest hok
      exact ⟨[45], rest, rfl, Or.inr rfl, hne, hall, fun hsg => by simp at hsg,
        by rw [← hval]; exact hle⟩
    · have hcond : ¬ (c = 43 ∨ c = 45) := by
        rintro (hc | hc)
        · exact h43 hc
        · exact hneg hc
      rw [if_neg hcond] at hok hlt hle
      obtain ⟨hne, hall, hval⟩ := ParseUint_dec (c :: rest) hok
      exact ⟨[], c :: rest, rfl, Or.inl rfl, hne, hall, fun _ => by rw [← hval]; exact hlt hneg,
        by rw [← hval]; exact hle⟩

/-! ## Lemmas on records that decode -/

/-- A JSON number starts with a minus sign or a digit. -/
theorem IsNumber.head {t : Bytes} (h : IsNumber t) :
    ∃ c rest, t = c :: rest ∧ (c = 45 ∨ (48 ≤ c ∧ c ≤ 57)) := by
  obtain ⟨sg, i, f, e, rfl, hsg, hi, -, -⟩ := h
  rcases hsg with rfl | rfl
  · rcases hi with rfl | ⟨d, ds, rfl, hd1, hd2, -⟩
    · exact ⟨48, _, rfl, Or.inr ⟨by omega, by omega⟩⟩
    · exact ⟨d, _, rfl, Or.inr ⟨by omega, hd2⟩⟩
  · exact ⟨45, _, rfl, Or.inl rfl⟩

/-- The value of a rendered element has a text. -/
theorem RendersElem_value {v : JValue} {t : Bytes} (h : RendersElem v t) :
    ∃ tv, Renders v tv := by
  cases h with
  | mk v w1 tv w2 _ hr _ => exact ⟨tv, hr⟩

/-- The value of a rendered member has a text. -/
theorem RendersMember_value {m : Bytes × JValue} {t : Bytes} (h : RendersMember m t) :
    ∃ tv, Renders m.2 tv := by
  cases h with
  | mk k v w1 w2 t _ _ _ he => exact RendersElem_value he

/-- The values of rendered members have texts. -/
theorem RendersMembers_values (n : Nat) : ∀ (ms : List (Bytes × JValue)) (t : Bytes),
    ms.length ≤ n → RendersMembers ms t → ∀ m ∈ ms, ∃ tv, Renders m.2 tv := by
  induction n with
  | zero =>
    intro ms t hlen _ m hm
    have : ms = [] := List.length_eq_zero.mp (by omega)
    rw [this] at hm
    exact absurd hm (List.not_mem_nil m)
  | succ n ih =>
    intro ms t hlen h m hm
    cases h with
    | one m0 t hm0 =>
      have hmm : m = m0 := by simpa using hm
      rw [hmm]
      exact RendersMember_value hm0
    | snoc ms0 tm m0 t0 hms0 hm0 =>
      rcases List.mem_append.mp hm with hin | hin
      · exact ih ms0 tm (by simp at hlen; omega) hms0 m hin
      · have hmm : m = m0 := by simpa using hin
        rw [hmm]
        exact RendersMember_value hm0

/-- The numbers among the members of a rendered object are JSON numbers. -/
theorem Renders.member_number {ms : List (Bytes × JValue)} {t : Bytes}
    (h : Renders (.object ms) t) (m : Bytes × JValue) (hm : m ∈ ms) (x : Bytes)
    (hx : m.2 = .number x) : IsNumber x := by
  have hval : ∃ tv, Renders m.2 tv := by
    cases h with
    | emptyObject w _ => exact absurd hm (List.not_mem_nil m)
    | object ms t hms => exact RendersMembers_values ms.length ms t (le_refl _) hms m hm
  obtain ⟨tv, hr⟩ := hval
  rw [hx] at hr
  cases hr with
  | number t hn => exact hn

/-- `saveError` always leaves an error. -/
theorem saveError_ne_none (saved : Option Error) (e : Error) : saveError saved e ≠ none := by
  cases saved <;> simp [saveError]

/-- When storing into `LatestSlot` leaves no error, none was saved before and the value
is `null` or a number `ParseInt` accepts. -/
theorem store_ok (v : JValue) (md : Metadata) (saved : Option Error)
    (h : (Metadata.store v md saved).2 = none) :
    saved = none ∧ (v = .null ∨ ∃ t, v = .number t ∧ (ParseInt t 10 64).2 = none) := by
  cases v with
  | null => exact ⟨by simpa [Metadata.store, storeInt64] using h, Or.inl rfl⟩
  | number t =>
    by_cases hp : (ParseInt t 10 64).2 = none
    · refine ⟨?_, Or.inr ⟨t, rfl, hp⟩⟩
      simpa [Metadata.store, storeInt64, hp] using h
    · exfalso
      have : (Metadata.store (.number t) md saved).2 = saveError saved .UnmarshalTypeError := by
        simp [Metadata.store, storeInt64, hp]
      rw [this] at h
      exact saveError_ne_none _ _ h
  | bool b => exact absurd h (saveError_ne_none _ _)
  | string raw => exact absurd h (saveError_ne_none _ _)
  | array es => exact absurd h (saveError_ne_none _ _)
  | object ms => exact absurd h (saveError_ne_none _ _)

/-- When decoding the members of an object leaves no error, none was saved before and
every member that selects `latest_slot` is `null` or a number `ParseInt` accepts. -/
theorem objectInto_ok (ms : List (Bytes × JValue)) : ∀ (md : Metadata) (saved : Option Error),
    (objectInto latestSlotName Metadata.store ms md saved).2 = none →
    saved = none ∧ ∀ m ∈ ms, ∀ key, unquoteBytes m.1 = some key →
      fieldMatch latestSlotName key = true →
        m.2 = .null ∨ ∃ t, m.2 = .number t ∧ (ParseInt t 10 64).2 = none := by
  induction ms with
  | nil =>
    intro md saved h
    exact ⟨h, fun m hm => absurd hm (List.not_mem_nil m)⟩
  | cons m0 ms ih =>
    intro md saved h
    obtain ⟨rawKey, v⟩ := m0
    cases hu : unquoteBytes rawKey with
    | none =>
      exfalso
      simp only [objectInto, hu] at h
      exact saveError_ne_none _ _ h
    | some key0 =>
      simp only [objectInto, hu] at h
      by_cases hf : fieldMatch latestSlotName key0 = true
      · rw [if_pos hf] at h
        obtain ⟨hsaved1, hrest⟩ := ih _ _ h
        obtain ⟨hsaved, hv⟩ := store_ok v md saved hsaved1
        refine ⟨hsaved, ?_⟩
        intro m hm key hk hfm
        rcases List.mem_cons.mp hm with rfl | hm
        · exact hv
        · exact hrest m hm key hk hfm
      · rw [if_neg hf] at h
        obtain ⟨hsaved, hrest⟩ := ih _ _ h
        refine ⟨hsaved, ?_⟩
        intro m hm key hk hfm
        rcases List.mem_cons.mp hm with rfl | hm
        · exfalso
          simp only at hk
          rw [hu] at hk
          cases hk
          exact hf hfm
        · exact hrest m hm key hk hfm

/-- A value with a JSON text that the decoder stores without an error decodes into the
checkpoint record. -/
theorem valueInto_ok (v : JValue) (md : Metadata) (tv : Bytes) (hr : Renders v tv)
    (h : (valueInto latestSlotName Metadata.store v md).2 = none) : DecodesIntoRecord v := by
  cases v with
  | null => exact True.intro
  | object ms =>
    obtain ⟨-, hms⟩ := objectInto_ok ms md none h
    intro m hm key hk hfm
    rcases hms m hm key hk hfm with hnull | ⟨t, ht, hp⟩
    · exact Or.inl hnull
    · refine Or.inr ⟨t, ht, ParseInt_ok_text t ?_ hp⟩
      intro rest hrest
      obtain ⟨c, r, hc, hhead⟩ := (hr.member_number m hm t ht).head
      rw [hrest] at hc
      have : c = 43 := by
        have := (List.cons.inj hc).1
        omega
      omega
  | bool b => exact Option.noConfusion h
  | number t => exact Option.noConfusion h
  | string raw => exact Option.noConfusion h
  | array es => exact Option.noConfusion h

/-- Bytes that `Unmarshal` takes without an error are JSON text that decodes into the
checkpoint record. -/
theorem Unmarshal_ok (data : Bytes) (md : Metadata) (h : (Unmarshal data md).2 = none) :
    IsRecordText data := by
  unfold Unmarshal at h
  cases hv : checkValid data with
  | none =>
    rw [hv] at h
    exact Option.noConfusion h
  | some v =>
    rw [hv] at h
    have hjson := checkValid_sound data v hv
    obtain ⟨tv, hr⟩ := RendersElem_value hjson
    exact ⟨v, hjson, valueInto_ok v md tv hr h⟩

/-- The text of an array is the text of no other value. -/
theorem Renders.array_head {v : JValue} {t : Bytes} (h : Renders v (91 :: t)) :
    ∃ es, v = .array es := by
  generalize hq : 91 :: t = q at h
  cases h with
  | litNull => simp at hq
  | litTrue => simp at hq
  | litFalse => simp at hq
  | number x hn =>
    obtain ⟨c, rest, hc, hhead⟩ := hn.head
    rw [hc] at hq
    have := (List.cons.inj hq).1
    omega
  | string raw _ => simp at hq
  | emptyArray w _ => exact ⟨[], rfl⟩
  | array es t _ => exact ⟨es, rfl⟩
  | emptyObject w _ => simp at hq
  | object ms t _ => simp at hq

/-- The empty array is JSON text, and does not decode into the checkpoint record. -/
theorem emptyArray_not_record : ¬ IsRecordText (ascii "[]") := by
  rintro ⟨v, hjson, hdec⟩
  have hq : ascii "[]" = [91, 93] := by decide
  rw [hq] at hjson
  generalize hd : ([91, 93] : Bytes) = d at hjson
  cases hjson with
  | mk v w1 tv w2 hw1 hr hw2 =>
    obtain ⟨t0, c, htv, hc⟩ := hr.endsNonSpace
    cases w1 with
    | cons x w1a =>
      have hx := hw1 x (by simp)
      have : (91 : Nat) = x := by
        have := (List.cons.inj hd).1
        exact this
      omega
    | nil =>
      cases tv with
      | nil => simp at htv
      | cons y tva =>
        have hy : (91 : Nat) = y := (List.cons.inj hd).1
        subst hy
        obtain ⟨es, hes⟩ := hr.array_head
        subst hes
        exact hdec

/-! ## Theorems on `chainID` -/

/-- C4. For every text `h` decoded as the `result` of a 2xx response: when `h` is a
hexadecimal number fitting 64 bits, `chainID` returns no error and exactly the number `h`
denotes (one leading `0x` stripped, the digits read in base 16); and for every expected
identifier `e`, `chainID` returns `e` without an error exactly when `h` denotes `e`. -/
theorem chainID_returns_denoted_value (resp : Response) (h : Bytes)
    (h2xx : resp.StatusCode.tdiv 100 = 2)
    (hdec : Decode resp { Result := [] } = ({ Result := h }, none)) :
    (DenotesUint64 h → chainID none (.ok resp) = (hexValue (stripHexMarker h), none)) ∧
      ∀ e : Nat, (chainID none (.ok resp) = (e, none) ↔
        DenotesUint64 h ∧ hexValue (stripHexMarker h) = e) := by
  by_cases hhex : DenotesUint64 h
  · have hval : chainID none (.ok resp) = (hexValue (stripHexMarker h), none) := by
      simp only [chainID, h2xx, ne_eq, not_true_eq_false, if_false, hdec,
        (ParseUint_TrimPrefix h).1 hhex]
    refine ⟨fun _ => hval, fun e => ?_⟩
    rw [hval]
    simp [hhex]
  · have hp := (ParseUint_TrimPrefix h).2 hhex
    refine ⟨fun hh => absurd hh hhex, fun e => ⟨fun he => ?_, fun hh => absurd hh.1 hhex⟩⟩
    exfalso
    cases hpe : (ParseUint (TrimPrefix h (ascii "0x")) 16 64).2 with
    | none => exact hp hpe
    | some ne =>
      simp [chainID, h2xx, hdec, hpe] at he

/-- C4 at the endpoint answer `\x7b"result":"0x1"\x7d`: the identifier is 1, which equals an
expected 1 and differs from an expected 5. -/
theorem chainID_returns_denoted_value_witness :
    ((200 : Int).tdiv 100 = 2 ∧
      Decode ⟨200, ascii "\x7b\"result\":\"0x1\"\x7d", none⟩ { Result := [] } =
        ({ Result := ascii "0x1" }, none)) ∧
    ((DenotesUint64 (ascii "0x1") →
        chainID none (.ok ⟨200, ascii "\x7b\"result\":\"0x1\"\x7d", none⟩) =
          (hexValue (stripHexMarker (ascii "0x1")), none)) ∧
      ∀ e : Nat, (chainID none (.ok ⟨200, ascii "\x7b\"result\":\"0x1\"\x7d", none⟩) = (e, none) ↔
        DenotesUint64 (ascii "0x1") ∧ hexValue (stripHexMarker (ascii "0x1")) = e)) ∧
    chainID none (.ok ⟨200, ascii "\x7b\"result\":\"0x1\"\x7d", none⟩) = (1, none) ∧
    chainID none (.ok ⟨200, ascii "\x7b\"result\":\"0x1\"\x7d", none⟩) ≠ (5, none) :=
  ⟨⟨by decide, by decide⟩,
    chainID_returns_denoted_value ⟨200, ascii "\x7b\"result\":\"0x1\"\x7d", none⟩ (ascii "0x1")
      (by decide) (by decide),
    by decide, by decide⟩

/-- C5. For every response whose status family is not 2, whatever its body, `chainID`
returns the value 0 together with an error: the wrapped read error when the body cannot
be read, and otherwise the `POST failed with status ...` error. The body is never decoded,
so neither a chain identifier nor a parse error can come out. -/
theorem chainID_non2xx_is_error (resp : Response) (hstatus : resp.StatusCode.tdiv 100 ≠ 2) :
    (chainID none (.ok resp)).1 = 0 ∧
      ((∃ err, resp.readErr = some err ∧
          (chainID none (.ok resp)).2 = some (.Wrap err "failed to read failed POST response")) ∨
        (∃ text, (chainID none (.ok resp)).2 = some (.Errorf text))) := by
  cases hb : resp.readErr with
  | some err =>
    refine ⟨?_, Or.inl ⟨err, rfl, ?_⟩⟩ <;>
      simp [chainID, hstatus, ReadAll, hb]
  | none =>
    refine ⟨?_, Or.inr ⟨ascii "POST failed with status " ++ FormatInt resp.StatusCode
      ++ ascii ": " ++ resp.Body, ?_⟩⟩
    · simp [chainID, hstatus, ReadAll, hb]
    · simp only [chainID, ne_eq, hstatus, not_false_eq_true, if_true, ReadAll, hb]

/-- C5 at a 404 response whose body would be a valid answer. -/
theorem chainID_non2xx_is_error_witness :
    (404 : Int).tdiv 100 ≠ 2 ∧
      (chainID none (.ok ⟨404, ascii "\x7b\"result\":\"0x1\"\x7d", none⟩)).1 = 0 ∧
      ((∃ err, (⟨404, ascii "\x7b\"result\":\"0x1\"\x7d", none⟩ : Response).readErr = some err ∧
          (chainID none (.ok ⟨404, ascii "\x7b\"result\":\"0x1\"\x7d", none⟩)).2 =
            some (.Wrap err "failed to read failed POST response")) ∨
        (∃ text, (chainID none (.ok ⟨404, ascii "\x7b\"result\":\"0x1\"\x7d", none⟩)).2 =
          some (.Errorf text))) :=
  ⟨by decide,
    chainID_non2xx_is_error ⟨404, ascii "\x7b\"result\":\"0x1\"\x7d", none⟩ (by decide)⟩

/-- C6. For every 2xx response whose body does not decode into the response envelope, or
whose decoded `result` is not a hexadecimal number fitting 64 bits, `chainID` returns the
value 0 together with an error wrapped as `failed to parse newFilter response` or
`failed to parse result`; it never returns a chain identifier without an error. -/
theorem chainID_rejects_bad_result (resp : Response)
    (h2xx : resp.StatusCode.tdiv 100 = 2)
    (hbad : (Decode resp { Result := [] }).2 ≠ none ∨
      ¬ DenotesUint64 (Decode resp { Result := [] }).1.Result) :
    (chainID none (.ok resp)).1 = 0 ∧
      ∃ cause msg, (chainID none (.ok resp)).2 = some (.Wrap cause msg) ∧
        (msg = "failed to parse newFilter response" ∨ msg = "failed to parse result") := by
  cases hd : (Decode resp { Result := [] }).2 with
  | some err =>
    refine ⟨?_, err, _, ?_, Or.inl rfl⟩ <;>
      simp [chainID, h2xx, hd]
  | none =>
    have hnot : ¬ DenotesUint64 (Decode resp { Result := [] }).1.Result := by
      rcases hbad with h | h
      · exact absurd hd h
      · exact h
    have hp := (ParseUint_TrimPrefix _).2 hnot
    cases hpe : (ParseUint (TrimPrefix (Decode resp { Result := [] }).1.Result (ascii "0x")) 16 64).2 with
    | none => exact absurd hpe hp
    | some ne =>
      refine ⟨?_, .NumError ne, _, ?_, Or.inr rfl⟩ <;>
        simp [chainID, h2xx, hd, hpe]

/-- C6 at the answer `\x7b"result":"0x0x1"\x7d`. -/
theorem chainID_rejects_bad_result_witness :
    ((200 : Int).tdiv 100 = 2 ∧
      ((Decode ⟨200, ascii "\x7b\"result\":\"0x0x1\"\x7d", none⟩ { Result := [] }).2 ≠ none ∨
        ¬ DenotesUint64
          (Decode ⟨200, ascii "\x7b\"result\":\"0x0x1\"\x7d", none⟩ { Result := [] }).1.Result)) ∧
    ((chainID none (.ok ⟨200, ascii "\x7b\"result\":\"0x0x1\"\x7d", none⟩)).1 = 0 ∧
      ∃ cause msg,
        (chainID none (.ok ⟨200, ascii "\x7b\"result\":\"0x0x1\"\x7d", none⟩)).2 =
          some (.Wrap cause msg) ∧
        (msg = "failed to parse newFilter response" ∨ msg = "failed to parse result")) :=
  ⟨⟨by decide, by decide⟩,
    chainID_rejects_bad_result ⟨200, ascii "\x7b\"result\":\"0x0x1\"\x7d", none⟩
      (by decide) (by decide)⟩

/-- Results with leading zeros or without the `0x` marker are read by value. -/
theorem chainID_leading_zeros :
    chainID none (.ok ⟨200, ascii "\x7b\"result\":\"0x00000000000000001\"\x7d", none⟩) =
        (1, none) ∧
    chainID none (.ok ⟨200, ascii "\x7b\"result\":\"ff\"\x7d", none⟩) = (255, none) ∧
    chainID none (.ok ⟨200, ascii "\x7b\"result\":\"0xFFFFFFFFFFFFFFFF\"\x7d", none⟩) =
        (18446744073709551615, none) := by
  refine ⟨?_, ?_, ?_⟩ <;> decide

/-- The results the specification lists as malformed, and a body that is no envelope. -/
theorem chainID_listed_bad_results :
    chainID none (.ok ⟨200, ascii "\x7b\"result\":\"\"\x7d", none⟩) =
        (0, some (.Wrap (.NumError .ErrSyntax) "failed to parse result")) ∧
    chainID none (.ok ⟨200, ascii "\x7b\x7d", none⟩) =
        (0, some (.Wrap (.NumError .ErrSyntax) "failed to parse result")) ∧
    chainID none (.ok ⟨200, ascii "\x7b\"result\":\"0x\"\x7d", none⟩) =
        (0, some (.Wrap (.NumError .ErrSyntax) "failed to parse result")) ∧
    chainID none (.ok ⟨200, ascii "\x7b\"result\":\"0xzz\"\x7d", none⟩) =
        (0, some (.Wrap (.NumError .ErrSyntax) "failed to parse result")) ∧
    chainID none (.ok ⟨200, ascii "\x7b\"result\":\"0x10000000000000000\"\x7d", none⟩) =
        (0, some (.Wrap (.NumError .ErrRange) "failed to parse result")) ∧
    chainID none (.ok ⟨200, ascii "\x7b\"result\":1\x7d", none⟩) =
        (0, some (.Wrap .UnmarshalTypeError "failed to parse newFilter response")) ∧
    chainID none (.ok ⟨200, ascii "<html>", none⟩) =
        (0, some (.Wrap .SyntaxError "failed to parse newFilter response")) ∧
    chainID none (.ok ⟨200, [], none⟩) =
        (0, some (.Wrap .EOF "failed to parse newFilter response")) := by
  refine ⟨?_, ?_, ?_, ?_, ?_, ?_, ?_, ?_⟩ <;> decide

/-- C8 as stated fails: no bound `B` limits the text carried by the error of a 500
response, whose length grows with the body. -/
theorem chainID_error_text_unbounded :
    ¬ ∃ B : Nat, ∀ body : Bytes, ∀ text : Bytes,
      (chainID none (.ok ⟨500, body, none⟩)).2 = some (.Errorf text) → text.length ≤ B := by
  rintro ⟨B, hB⟩
  have h := hB (List.replicate (B + 1) 97) _ rfl
  simp only [ReadAll, Response.readErr, List.length_append, List.length_replicate] at h
  omega

/-- C8, amended. For every response whose status family is not 2 and whose body can be
read, the error text is `POST failed with status <code>: ` followed by the entire body,
unshortened: the body is a suffix of the text, which is at least as long as the body. -/
theorem chainID_error_carries_whole_body (resp : Response)
    (hstatus : resp.StatusCode.tdiv 100 ≠ 2) (hread : resp.readErr = none) :
    ∃ text, (chainID none (.ok resp)).2 = some (.Errorf text) ∧
      text = ascii "POST failed with status " ++ FormatInt resp.StatusCode ++ ascii ": "
        ++ resp.Body ∧
      resp.Body <:+ text ∧ resp.Body.length ≤ text.length := by
  refine ⟨_, ?_, rfl, ?_, ?_⟩
  · simp only [chainID, ne_eq, hstatus, not_false_eq_true, if_true, ReadAll, hread]
  · exact List.suffix_append _ _
  · simp only [List.length_append]; omega

/-- C8, amended, at a 500 response with the body `oops`. -/
theorem chainID_error_carries_whole_body_witness :
    ((500 : Int).tdiv 100 ≠ 2 ∧ (⟨500, ascii "oops", none⟩ : Response).readErr = none) ∧
    ∃ text, (chainID none (.ok ⟨500, ascii "oops", none⟩)).2 = some (.Errorf text) ∧
      text = ascii "POST failed with status " ++ FormatInt (⟨500, ascii "oops", none⟩ : Response).StatusCode
        ++ ascii ": " ++ (⟨500, ascii "oops", none⟩ : Response).Body ∧
      (⟨500, ascii "oops", none⟩ : Response).Body <:+ text ∧
      (⟨500, ascii "oops", none⟩ : Response).Body.length ≤ text.length :=
  ⟨⟨by decide, rfl⟩,
    chainID_error_carries_whole_body ⟨500, ascii "oops", none⟩ (by decide) rfl⟩

/-! ## Theorems on `GetMetadata` and `SetMetadata` -/

/-- The in-memory store returns what was last written under a key. -/
theorem memStore_read_your_writes (s : MemState) (key : String) (v : Bytes)
    (h : (memStore.SetMetadata s key v).1 = none) :
    memStore.Metadata (memStore.SetMetadata s key v).2 key = .ok (some v) := by
  cases hw : s.writable with
  | true => simp [memStore, hw, List.lookup]
  | false => simp [memStore, hw] at h

/-- The in-memory store leaves the records under other keys alone. -/
theorem memStore_other_keys (s : MemState) (key : String) (v : Bytes) (k : String)
    (hk : k ≠ key) :
    memStore.Metadata (memStore.SetMetadata s key v).2 k = memStore.Metadata s k := by
  cases hw : s.writable with
  | true =>
    have : (k == key) = false := by simpa using hk
    simp [memStore, hw, List.lookup, this]
  | false => simp [memStore, hw]

/-- C1. Round trip: for every checkpoint whose `LatestSlot` is an `int64` value, if
`SetMetadata` succeeds against a store that returns under a key the bytes last written
under it, the next `GetMetadata` returns no error and that same checkpoint. -/
theorem SetMetadata_then_GetMetadata {σ : Type} (chainDB : ChainDB σ) (st : σ) (md : Metadata)
    (hr : md.inRange)
    (hstore : ∀ s key v, (chainDB.SetMetadata s key v).1 = none →
      chainDB.Metadata (chainDB.SetMetadata s key v).2 key = .ok (some v))
    (hset : (SetMetadata chainDB st md).1 = none) :
    GetMetadata chainDB (SetMetadata chainDB st md).2 = (some md, none) := by
  have hm : (Marshal md).2 = none := rfl
  cases hw : (chainDB.SetMetadata st MetadataKey (Marshal md).1).1 with
  | some err => simp [SetMetadata, hm, hw] at hset
  | none =>
    have hst : (SetMetadata chainDB st md).2 =
        (chainDB.SetMetadata st MetadataKey (Marshal md).1).2 := by
      simp [SetMetadata, hm, hw]
    rw [hst]
    simp only [GetMetadata, hstore st MetadataKey (Marshal md).1 hw,
      Unmarshal_Marshal md _ hr]

/-- C1 on the in-memory store: after `SetMetadata` of slot 1000 on an empty store,
`GetMetadata` returns slot 1000. -/
theorem SetMetadata_then_GetMetadata_witness :
    ((⟨1000⟩ : Metadata).inRange ∧ (SetMetadata memStore ⟨[], true⟩ ⟨1000⟩).1 = none) ∧
      GetMetadata memStore (SetMetadata memStore ⟨[], true⟩ ⟨1000⟩).2 = (some ⟨1000⟩, none) :=
  ⟨⟨by decide, by decide⟩,
    SetMetadata_then_GetMetadata memStore ⟨[], true⟩ ⟨1000⟩ (by decide)
      memStore_read_your_writes (by decide)⟩

/-- The round trip at the sentinel and at the ends of the `int64` range, on the
in-memory store. -/
theorem roundtrip_extremes :
    GetMetadata memStore (SetMetadata memStore ⟨[], true⟩ ⟨-1⟩).2 = (some ⟨-1⟩, none) ∧
    GetMetadata memStore (SetMetadata memStore ⟨[], true⟩ ⟨-9223372036854775808⟩).2 =
      (some ⟨-9223372036854775808⟩, none) ∧
    GetMetadata memStore (SetMetadata memStore ⟨[], true⟩ ⟨9223372036854775807⟩).2 =
      (some ⟨9223372036854775807⟩, none) := by
  refine ⟨?_, ?_, ?_⟩ <;> decide

/-- C2. When the store has no record under the metadata key (it returns `nil` and no
error), `GetMetadata` returns the checkpoint with `LatestSlot = -1` and no error. -/
theorem GetMetadata_absent {σ : Type} (chainDB : ChainDB σ) (st : σ)
    (habsent : chainDB.Metadata st MetadataKey = .ok none) :
    GetMetadata chainDB st = (some { LatestSlot := -1 }, none) := by
  simp only [GetMetadata, habsent]

/-- C2 on the empty in-memory store. -/
theorem GetMetadata_absent_witness :
    memStore.Metadata ⟨[], true⟩ MetadataKey = .ok none ∧
      GetMetadata memStore ⟨[], true⟩ = (some { LatestSlot := -1 }, none) :=
  ⟨rfl, GetMetadata_absent memStore ⟨[], true⟩ rfl⟩

/-- C7. For every checkpoint and store state: if the store's write fails with `err`,
`SetMetadata` returns `err` wrapped as `failed to update metadata`, and when the failed
write left the store as it was `GetMetadata` afterwards returns what it returned before;
if the write succeeds, `SetMetadata` returns no error, the store is left exactly as that one
write under `blocks.standard` leaves it, and on a store whose writes leave other keys
alone every other key reads as before. -/
theorem SetMetadata_write_outcomes {σ : Type} (chainDB : ChainDB σ) (st : σ) (md : Metadata) :
    (∀ err, (chainDB.SetMetadata st "blocks.standard" (Marshal md).1).1 = some err →
      (SetMetadata chainDB st md).1 = some (.Wrap err "failed to update metadata") ∧
      ((chainDB.SetMetadata st "blocks.standard" (Marshal md).1).2 = st →
        GetMetadata chainDB (SetMetadata chainDB st md).2 = GetMetadata chainDB st)) ∧
    ((chainDB.SetMetadata st "blocks.standard" (Marshal md).1).1 = none →
      (SetMetadata chainDB st md).1 = none ∧
      (SetMetadata chainDB st md).2 = (chainDB.SetMetadata st "blocks.standard" (Marshal md).1).2 ∧
      ((∀ s key v k, k ≠ key →
          chainDB.Metadata (chainDB.SetMetadata s key v).2 k = chainDB.Metadata s k) →
        ∀ k, k ≠ "blocks.standard" →
          chainDB.Metadata (SetMetadata chainDB st md).2 k = chainDB.Metadata st k)) := by
  have hm : (Marshal md).2 = none := rfl
  have hkey : MetadataKey = "blocks.standard" := rfl
  constructor
  · intro err hw
    have h2 : (SetMetadata chainDB st md).2 =
        (chainDB.SetMetadata st "blocks.standard" (Marshal md).1).2 := by
      simp [SetMetadata, hm, hkey, hw]
    refine ⟨by simp [SetMetadata, hm, hkey, hw], fun hsame => ?_⟩
    rw [h2, hsame]
  · intro hw
    have h2 : (SetMetadata chainDB st md).2 =
        (chainDB.SetMetadata st "blocks.standard" (Marshal md).1).2 := by
      simp [SetMetadata, hm, hkey, hw]
    refine ⟨by simp [SetMetadata, hm, hkey, hw], h2, fun hframe k hk => ?_⟩
    rw [h2]
    exact hframe st _ _ k hk

/-- C7 on the in-memory store: a refused write of slot 7 over a stored slot 5 returns the
wrapped error and slot 5 stays readable; an accepted write returns no error and leaves the
record under another key untouched. -/
theorem SetMetadata_write_outcomes_witness :
    ((memStore.SetMetadata ⟨[(MetadataKey, (Marshal ⟨5⟩).1)], false⟩ "blocks.standard"
          (Marshal ⟨7⟩).1).1 = some (.collaborator 1) ∧
      (SetMetadata memStore ⟨[(MetadataKey, (Marshal ⟨5⟩).1)], false⟩ ⟨7⟩).1 =
        some (.Wrap (.collaborator 1) "failed to update metadata") ∧
      GetMetadata memStore (SetMetadata memStore ⟨[(MetadataKey, (Marshal ⟨5⟩).1)], false⟩ ⟨7⟩).2 =
        (some ⟨5⟩, none)) ∧
    ((memStore.SetMetadata ⟨[("other", [1, 2])], true⟩ "blocks.standard" (Marshal ⟨7⟩).1).1 = none ∧
      (SetMetadata memStore ⟨[("other", [1, 2])], true⟩ ⟨7⟩).1 = none ∧
      memStore.Metadata (SetMetadata memStore ⟨[("other", [1, 2])], true⟩ ⟨7⟩).2 "other" =
        .ok (some [1, 2])) :=
  ⟨⟨rfl,
      ((SetMetadata_write_outcomes memStore ⟨[(MetadataKey, (Marshal ⟨5⟩).1)], false⟩ ⟨7⟩).1
        (.collaborator 1) rfl).1,
      (((SetMetadata_write_outcomes memStore ⟨[(MetadataKey, (Marshal ⟨5⟩).1)], false⟩ ⟨7⟩).1
        (.collaborator 1) rfl).2 rfl).trans (by decide)⟩,
    ⟨rfl,
      ((SetMetadata_write_outcomes memStore ⟨[("other", [1, 2])], true⟩ ⟨7⟩).2 rfl).1,
      (((SetMetadata_write_outcomes memStore ⟨[("other", [1, 2])], true⟩ ⟨7⟩).2 rfl).2.2
        memStore_other_keys "other" (by decide)).trans rfl⟩⟩

/-- C9 as stated fails: on the in-memory store a successful `SetMetadata` of slot 5 after
slot 1000 was stored makes `GetMetadata` return slot 5, which is smaller than 1000. -/
theorem SetMetadata_moves_backward :
    GetMetadata memStore (SetMetadata memStore ⟨[], true⟩ ⟨1000⟩).2 = (some ⟨1000⟩, none) ∧
    (SetMetadata memStore (SetMetadata memStore ⟨[], true⟩ ⟨1000⟩).2 ⟨5⟩).1 = none ∧
    GetMetadata memStore
        (SetMetadata memStore (SetMetadata memStore ⟨[], true⟩ ⟨1000⟩).2 ⟨5⟩).2 =
      (some ⟨5⟩, none) ∧
    (5 : Int) < 1000 := by
  decide

/-- C9, amended. `SetMetadata` stores the checkpoint it is given without comparing it with
the stored one: on a store that returns what was last written, after a successful
`SetMetadata(md)` with an `int64` slot `GetMetadata` returns `md` whatever checkpoint `prev`
was readable before, so the slot read back is at least the previous one exactly when the
slot passed by the caller is. -/
theorem SetMetadata_last_write_wins {σ : Type} (chainDB : ChainDB σ) (st : σ)
    (prev md : Metadata) (hr : md.inRange)
    (hstore : ∀ s key v, (chainDB.SetMetadata s key v).1 = none →
      chainDB.Metadata (chainDB.SetMetadata s key v).2 key = .ok (some v))
    (_hprev : GetMetadata chainDB st = (some prev, none))
    (hset : (SetMetadata chainDB st md).1 = none) :
    ∃ now, GetMetadata chainDB (SetMetadata chainDB st md).2 = (some now, none) ∧
      now.LatestSlot = md.LatestSlot ∧
      (prev.LatestSlot ≤ now.LatestSlot ↔ prev.LatestSlot ≤ md.LatestSlot) := by
  have hm : (Marshal md).2 = none := rfl
  cases hw : (chainDB.SetMetadata st MetadataKey (Marshal md).1).1 with
  | some err => simp [SetMetadata, hm, hw] at hset
  | none =>
    have hst : (SetMetadata chainDB st md).2 =
        (chainDB.SetMetadata st MetadataKey (Marshal md).1).2 := by
      simp [SetMetadata, hm, hw]
    refine ⟨md, ?_, rfl, Iff.rfl⟩
    rw [hst]
    simp only [GetMetadata, hstore st MetadataKey (Marshal md).1 hw,
      Unmarshal_Marshal md _ hr]

/-- C9, amended, on the in-memory store holding slot 1000, for a write of slot 5. -/
theorem SetMetadata_last_write_wins_witness :
    ((⟨5⟩ : Metadata).inRange ∧
      GetMetadata memStore (holding (Marshal ⟨1000⟩).1) = (some ⟨1000⟩, none) ∧
      (SetMetadata memStore (holding (Marshal ⟨1000⟩).1) ⟨5⟩).1 = none) ∧
    ∃ now, GetMetadata memStore (SetMetadata memStore (holding (Marshal ⟨1000⟩).1) ⟨5⟩).2 =
        (some now, none) ∧
      now.LatestSlot = (⟨5⟩ : Metadata).LatestSlot ∧
      ((⟨1000⟩ : Metadata).LatestSlot ≤ now.LatestSlot ↔
        (⟨1000⟩ : Metadata).LatestSlot ≤ (⟨5⟩ : Metadata).LatestSlot) :=
  ⟨⟨by decide, by decide, by decide⟩,
    SetMetadata_last_write_wins memStore (holding (Marshal ⟨1000⟩).1) ⟨1000⟩ ⟨5⟩ (by decide)
      memStore_read_your_writes (by decide) (by decide)⟩

/-- The bytes `\x7b"latest_slot\xff":1000\x7d`, whose key ends in the byte `0xff`, are
JSON text by the grammar read on bytes, and decode into the checkpoint record: the key
is not `latest_slot`, so the member is skipped. -/
theorem byte_ff_record_text :
    IsRecordText [123, 34, 108, 97, 116, 101, 115, 116, 95, 115, 108, 111, 116, 255, 34, 58,
      49, 48, 48, 48, 125] := by
  have hn : IsWs ([] : Bytes) := IsWs_nil
  have hkey : IsStringBody [108, 97, 116, 101, 115, 116, 95, 115, 108, 111, 116, 255] :=
    IsStringBody_of_WellEscaped (by show strRun .InString _ = some .InString; decide)
  have hnum : IsNumber [49, 48, 48, 48] :=
    ⟨[], [49, 48, 48, 48], [], [], rfl, Or.inl rfl,
      Or.inr ⟨49, [48, 48, 48], rfl, by omega, by omega, by intro c hc; simp at hc; omega⟩,
      Or.inl rfl, Or.inl rfl⟩
  have hm := RendersMember.mk [108, 97, 116, 101, 115, 116, 95, 115, 108, 111, 116, 255]
    (.number [49, 48, 48, 48]) [] [] _ hn hkey hn
    (RendersElem.mk _ [] _ [] hn (Renders.number _ hnum) hn)
  have hv := RendersElem.mk _ [] _ [] hn (Renders.object _ _ (RendersMembers.one _ _ hm)) hn
  refine ⟨_, hv, ?_⟩
  intro m hmem key hk hf
  have hmm : m = ([108, 97, 116, 101, 115, 116, 95, 115, 108, 111, 116, 255],
      JValue.number [49, 48, 48, 48]) := by simpa using hmem
  subst hmm
  have hu : unquoteBytes [108, 97, 116, 101, 115, 116, 95, 115, 108, 111, 116, 255] =
      some [108, 97, 116, 101, 115, 116, 95, 115, 108, 111, 116, 239, 191, 189] := by decide
  rw [hu] at hk
  cases hk
  exact absurd hf (by decide)

/-- C3 as stated fails: the stored bytes `\x7b"latest_slot\xff":1000\x7d`
hold the byte `0xff`, which occurs in no UTF-8 text, so they are not well-formed JSON;
yet `GetMetadata` returns the default checkpoint with `LatestSlot = -1` and no error. -/
theorem GetMetadata_takes_byte_ff :
    255 ∈ ([123, 34, 108, 97, 116, 101, 115, 116, 95, 115, 108, 111, 116, 255, 34, 58,
      49, 48, 48, 48, 125] : Bytes) ∧
    GetMetadata memStore (holding [123, 34, 108, 97, 116, 101, 115, 116, 95, 115, 108, 111,
      116, 255, 34, 58, 49, 48, 48, 48, 125]) = (some ⟨-1⟩, none) :=
  ⟨by decide, by decide⟩

/-- C3, amended. For every stored byte string that is a truncated checkpoint record (a
proper prefix of what `Marshal` writes for some checkpoint), or is not JSON text that
decodes into the checkpoint record, JSON text being read by the grammar of RFC 8259 on
bytes (which does not ask that the bytes of a string literal be well-formed UTF-8),
`GetMetadata` returns no checkpoint and an error wrapped as
`failed to unmarshal metadata`. -/
theorem GetMetadata_corrupt {σ : Type} (chainDB : ChainDB σ) (st : σ) (data : Bytes)
    (hread : chainDB.Metadata st MetadataKey = .ok (some data))
    (hbad : (∃ md : Metadata, data <+: (Marshal md).1 ∧ data ≠ (Marshal md).1) ∨
      ¬ IsRecordText data) :
    (GetMetadata chainDB st).1 = none ∧
      ∃ cause, (GetMetadata chainDB st).2 = some (.Wrap cause "failed to unmarshal metadata") := by
  have herr : (Unmarshal data { LatestSlot := -1 }).2 ≠ none := by
    rcases hbad with ⟨md, hpre, hne⟩ | hnot
    · simp [Unmarshal, checkValid_truncated md data hpre hne]
    · exact fun hnone => hnot (Unmarshal_ok data _ hnone)
  cases he : (Unmarshal data { LatestSlot := -1 }).2 with
  | none => exact absurd he herr
  | some cause =>
    refine ⟨?_, cause, ?_⟩ <;> simp [GetMetadata, hread, he]

/-- C3 at the stored bytes `\x7b"latest_slot":10`, a truncation of the record for slot 10,
and at the stored bytes `[]`, JSON text that does not decode into the record. -/
theorem GetMetadata_corrupt_witness :
    ((memStore.Metadata (holding (ascii "\x7b\"latest_slot\":10")) MetadataKey =
        .ok (some (ascii "\x7b\"latest_slot\":10")) ∧
      ascii "\x7b\"latest_slot\":10" <+: (Marshal ⟨10⟩).1 ∧
      ascii "\x7b\"latest_slot\":10" ≠ (Marshal ⟨10⟩).1) ∧
    ((GetMetadata memStore (holding (ascii "\x7b\"latest_slot\":10"))).1 = none ∧
      ∃ cause, (GetMetadata memStore (holding (ascii "\x7b\"latest_slot\":10"))).2 =
        some (.Wrap cause "failed to unmarshal metadata"))) ∧
    ((memStore.Metadata (holding (ascii "[]")) MetadataKey = .ok (some (ascii "[]")) ∧
      ¬ IsRecordText (ascii "[]")) ∧
    ((GetMetadata memStore (holding (ascii "[]"))).1 = none ∧
      ∃ cause, (GetMetadata memStore (holding (ascii "[]"))).2 =
        some (.Wrap cause "failed to unmarshal metadata"))) :=
  ⟨⟨⟨rfl, ⟨[125], by decide⟩, by decide⟩,
    GetMetadata_corrupt memStore (holding (ascii "\x7b\"latest_slot\":10"))
      (ascii "\x7b\"latest_slot\":10") rfl
      (Or.inl ⟨⟨10⟩, ⟨[125], by decide⟩, by decide⟩)⟩,
    ⟨⟨rfl, emptyArray_not_record⟩,
      GetMetadata_corrupt memStore (holding (ascii "[]")) (ascii "[]") rfl
        (Or.inr emptyArray_not_record)⟩⟩

/-- The stored records the specification lists for C10, and values that do carry a slot
or are no object. -/
theorem GetMetadata_listed_records :
    GetMetadata memStore (holding (ascii "\x7b\x7d")) = (some ⟨-1⟩, none) ∧
    GetMetadata memStore (holding (ascii "\x7b\"slot\":7,\"x\":[1,2]\x7d")) = (some ⟨-1⟩, none) ∧
    GetMetadata memStore (holding (ascii "\x7b\"latest_slot\":null\x7d")) = (some ⟨-1⟩, none) ∧
    GetMetadata memStore (holding (ascii "null")) = (some ⟨-1⟩, none) ∧
    GetMetadata memStore (holding (ascii "\x7b\"Latest_Slot\":7\x7d")) = (some ⟨7⟩, none) ∧
    GetMetadata memStore (holding (ascii "[]")) =
      (none, some (.Wrap .UnmarshalTypeError "failed to unmarshal metadata")) ∧
    GetMetadata memStore (holding []) =
      (none, some (.Wrap .SyntaxError "failed to unmarshal metadata")) := by
  refine ⟨?_, ?_, ?_, ?_, ?_, ?_, ?_⟩ <;> decide

end Chaind
